import Mathlib

/-!
# xfce-panel-launcher: application catalog and layout engine

A shallow embedding of the catalog code of the launcher plugin
(`application-loader.c`, `application.c`, `folders.c`, `config.c`, `events.c`,
`ui.c`, `plugin.c`) together with theorems about it.

Conventions of the embedding.

* A `GList *` of pointers is a `List` of the pointed-to things; the GLib list
  primitives the code calls are defined below from their documented behaviour.
* `AppInfo *` values are addresses (`AppPtr`) into `LauncherPlugin.heap`; the
  three lists `app_list`, `filtered_list` and `FolderInfo.apps` alias the same
  records exactly as in the C code.
* `gchar *name` of an `AppInfo` is never NULL: every record is created from
  `g_strdup (g_app_info_get_display_name (...))`, and GIO never returns NULL
  there.  The NULL guards on `name` are therefore not represented.
* Library functions whose result depends on the locale (`g_utf8_collate`,
  `g_utf8_strdown`) are parameters.
-/

namespace XfceLauncher

/-! ## GLib list primitives -/

/-- `g_list_prepend`. -/
def g_list_prepend {α : Type} (list : List α) (data : α) : List α := data :: list

/-- `g_list_append`. -/
def g_list_append {α : Type} (list : List α) (data : α) : List α := list ++ [data]

/-- `g_list_copy` (shallow copy). -/
def g_list_copy {α : Type} (list : List α) : List α := list

/-- `g_list_remove`: removes the first element equal to `data`, if any. -/
def g_list_remove {α : Type} [DecidableEq α] (list : List α) (data : α) : List α :=
  list.erase data

/-- `g_list_insert`: a negative position, or one larger than the number of
elements, appends. -/
def g_list_insert {α : Type} (list : List α) (data : α) (position : Int) : List α :=
  if position < 0 ∨ (list.length : Int) < position then list ++ [data]
  else list.insertIdx position.toNat data

/-- `g_list_length` returns a `guint`. -/
def g_list_length {α : Type} (list : List α) : Nat := list.length % 2 ^ 32

/-- Inner loop of `g_list_sort_merge` while the head `a` of `l1` is fixed:
`tail` is what the merge does once `a` has been taken. -/
def g_list_sort_merge_from {α : Type} (cmp : α → α → Int) (a : α) (l1 : List α)
    (tail : List α → List α) : List α → List α
  | [] => a :: l1
  | b :: l2 =>
    if cmp a b ≤ 0 then a :: tail (b :: l2)
    else b :: g_list_sort_merge_from cmp a l1 tail l2

/-- `g_list_sort_merge`: takes from `l1` while `cmp (l1 head) (l2 head) <= 0`. -/
def g_list_sort_merge {α : Type} (cmp : α → α → Int) : List α → List α → List α
  | [], l2 => l2
  | a :: l1, l2 => g_list_sort_merge_from cmp a l1 (g_list_sort_merge cmp l1) l2

/-- `g_list_sort_real`: the list is cut after its first `length / 2` elements
(the slow/fast pointer walk), both halves are sorted and merged.  The extra
argument bounds the recursion depth. -/
def g_list_sort_real {α : Type} (cmp : α → α → Int) : Nat → List α → List α
  | 0, list => list
  | depth + 1, list =>
    if list.length < 2 then list
    else
      g_list_sort_merge cmp
        (g_list_sort_real cmp depth (list.take (list.length / 2)))
        (g_list_sort_real cmp depth (list.drop (list.length / 2)))

/-- `g_list_sort`. -/
def g_list_sort {α : Type} (list : List α) (cmp : α → α → Int) : List α :=
  g_list_sort_real cmp list.length list

/-- `g_str_has_suffix`. -/
def g_str_has_suffix (str suffix : String) : Bool :=
  suffix.data.isSuffixOf str.data

/-! ## Data model (`xfce-launcher.h`) -/

/-- What the loader reads from a `GAppInfo` / `GDesktopAppInfo`. -/
structure GAppInfo where
  /-- `g_app_info_get_display_name` -/
  display_name : String
  /-- `g_app_info_get_commandline` -/
  commandline : Option String
  /-- `g_themed_icon_get_names (g_app_info_get_icon ...)` when the icon is a
  themed icon -/
  themed_icon_names : Option (List String)
  /-- `g_app_info_should_show` -/
  should_show : Bool
  deriving DecidableEq, Repr, Inhabited

/-- `struct _AppInfo`. -/
structure AppInfo where
  name : String
  exec : Option String
  icon : Option String
  desktop_info : GAppInfo
  is_hidden : Bool
  folder_id : Option String
  position : Int
  deriving DecidableEq, Repr, Inhabited

/-- Address of an `AppInfo`. -/
abbrev AppPtr := Nat

/-- `struct _FolderInfo`. -/
structure FolderInfo where
  id : String
  name : String
  icon : String
  apps : List AppPtr
  is_open : Bool
  deriving DecidableEq, Repr

/-! ## Application discovery (`application-loader.c`) -/

/-- One name returned by `g_dir_read_name` together with what
`g_desktop_app_info_new_from_filename` gives for it. -/
structure DirEntry where
  filename : String
  desktop_info : Option GAppInfo
  deriving DecidableEq, Repr

/-- The environment the loader scans.  A directory is `none` when it does not
exist or cannot be opened. -/
structure Sources where
  /-- `g_app_info_get_all ()` -/
  all : List GAppInfo
  /-- `/var/lib/snapd/desktop/applications` -/
  snap_dir : Option (List DirEntry)
  /-- `/var/lib/flatpak/exports/share/applications` -/
  flatpak_dir : Option (List DirEntry)
  /-- `~/.local/share/flatpak/exports/share/applications` -/
  user_flatpak_dir : Option (List DirEntry)
  deriving DecidableEq, Repr

/-- The record built for one shown `GAppInfo` (`g_new0`, then the fields the
enhanced loaders set). -/
def new_app_info (g : GAppInfo) : AppInfo :=
  { name := g.display_name
    exec := g.commandline
    icon := g.themed_icon_names.bind List.head?
    desktop_info := g
    is_hidden := false
    folder_id := none
    position := -1 }

/-- Body of the `while ((filename = g_dir_read_name (dir)))` loops. -/
def load_dir_entry (app_list : List AppInfo) (e : DirEntry) : List AppInfo :=
  if g_str_has_suffix e.filename ".desktop" then
    match e.desktop_info with
    | some g => if g.should_show then g_list_prepend app_list (new_app_info g) else app_list
    | none => app_list
  else app_list

/-- Scan of one directory. -/
def load_dir (dir : Option (List DirEntry)) (app_list : List AppInfo) : List AppInfo :=
  match dir with
  | none => app_list
  | some entries => entries.foldl load_dir_entry app_list

/-- `load_snap_applications`. -/
def load_snap_applications (src : Sources) (app_list : List AppInfo) : List AppInfo :=
  load_dir src.snap_dir app_list

/-- `load_flatpak_applications`: the system directory, then the user one. -/
def load_flatpak_applications (src : Sources) (app_list : List AppInfo) : List AppInfo :=
  load_dir src.user_flatpak_dir (load_dir src.flatpak_dir app_list)

/-- Body of the loop over `g_app_info_get_all ()`. -/
def load_standard_entry (app_list : List AppInfo) (g : GAppInfo) : List AppInfo :=
  if g.should_show then g_list_prepend app_list (new_app_info g) else app_list

/-- Body of the duplicate-removal loop: the state is `(seen_apps, unique_list)`. -/
def dedup_step (st : List String × List AppInfo) (app : AppInfo) :
    List String × List AppInfo :=
  if app.name ∈ st.1 then st
  else (app.name :: st.1, g_list_prepend st.2 app)

/-- `compare_app_names`. -/
def compare_app_names (g_utf8_collate : String → String → Int) (a b : AppInfo) : Int :=
  g_utf8_collate a.name b.name

/-- The list handed to the duplicate-removal loop. -/
def load_all_sources (src : Sources) : List AppInfo :=
  load_flatpak_applications src
    (load_snap_applications src (src.all.foldl load_standard_entry []))

/-- `load_applications_enhanced`. -/
def load_applications_enhanced (g_utf8_collate : String → String → Int) (src : Sources) :
    List AppInfo :=
  let app_list := load_all_sources src
  let unique_list := (app_list.foldl dedup_step ([], [])).2
  g_list_sort unique_list (compare_app_names g_utf8_collate)

/-- The records the adapters yield, in the order they are queried: the native
registry, then snap, then flatpak (system, user). -/
def dir_yield (dir : Option (List DirEntry)) : List GAppInfo :=
  match dir with
  | none => []
  | some entries =>
    entries.filterMap (fun e =>
      if g_str_has_suffix e.filename ".desktop" then
        e.desktop_info.bind (fun g => if g.should_show then some g else none)
      else none)

/-- Records yielded by the native registry. -/
def native_yield (src : Sources) : List GAppInfo := src.all.filter (·.should_show)

/-- Records yielded by the snap adapter. -/
def snap_yield (src : Sources) : List GAppInfo := dir_yield src.snap_dir

/-- Records yielded by the flatpak adapter. -/
def flatpak_yield (src : Sources) : List GAppInfo :=
  dir_yield src.flatpak_dir ++ dir_yield src.user_flatpak_dir

/-- All yielded records in query order. -/
def adapter_output (src : Sources) : List GAppInfo :=
  native_yield src ++ snap_yield src ++ flatpak_yield src

/-! ## C library: number conversions -/

/-- A `gint` result of 32-bit two's complement arithmetic. -/
def wrap32 (n : Int) : Int := (n + 2 ^ 31) % 2 ^ 32 - 2 ^ 31

/-- The character of a decimal digit. -/
def digit_char (d : Nat) : Char := Char.ofNat (48 + d)

/-- Decimal digits of `n`, most significant first; the first argument bounds
the number of digits. -/
def fmt_nat_digits : Nat → Nat → List Char
  | 0, _ => []
  | bound + 1, n =>
    if n < 10 then [digit_char n]
    else fmt_nat_digits bound (n / 10) ++ [digit_char (n % 10)]

/-- Decimal text of a natural number. -/
def fmt_nat (n : Nat) : List Char := fmt_nat_digits (n + 1) n

/-- The `%d` / `%ld` conversion of `printf`. -/
def fmt_d (n : Int) : String :=
  if n < 0 then String.mk ('-' :: fmt_nat n.natAbs) else String.mk (fmt_nat n.toNat)

/-- `isspace` in the C locale. -/
def c_isspace (c : Char) : Bool :=
  c = ' ' || c = '\t' || c = '\n' || c = '\x0b' || c = '\x0c' || c = '\r'

/-- Value of a decimal digit character. -/
def digit_value (c : Char) : Option Nat :=
  if '0' ≤ c ∧ c ≤ '9' then some (c.toNat - 48) else none

/-- The digit loop of `strtol`: stops at the first character that is no digit. -/
def strtol_digits : Nat → List Char → Nat
  | acc, [] => acc
  | acc, c :: cs =>
    match digit_value c with
    | some d => strtol_digits (acc * 10 + d) cs
    | none => acc

/-- `strtol (s, NULL, 10)` with a 64-bit `long`: leading blanks, an optional
sign, digits; the value is clamped to the range of `long`. -/
def strtol (s : List Char) : Int :=
  match s.dropWhile c_isspace with
  | '-' :: r => max (-(2 ^ 63)) (-(strtol_digits 0 r : Int))
  | '+' :: r => min (2 ^ 63 - 1) (strtol_digits 0 r : Int)
  | r => min (2 ^ 63 - 1) (strtol_digits 0 r : Int)

/-- `atoi`, which is `(int) strtol (s, NULL, 10)`. -/
def atoi (s : String) : Int := wrap32 (strtol s.data)

/-! ## Plugin state (`struct _LauncherPlugin`) -/

/-- A child of `app_grid`: a folder button (with its `folder-info` data, a
`FolderInfo *` given as the position of the folder in `folder_list`) or an
application button (with its `app-info` data). -/
inductive GridWidget where
  | folder_button (folder_info : Nat)
  | app_button (app_info : AppPtr)
  deriving DecidableEq, Repr

/-- A widget attached to the grid with `gtk_grid_attach (grid, w, left, top, 1, 1)`. -/
structure GridChild where
  left : Int
  top : Int
  widget : GridWidget
  deriving DecidableEq, Repr

/-- The fields of `struct _LauncherPlugin` the catalog code reads or writes,
the memory holding the `AppInfo` records, and the configuration file.

* `heap p` is the record stored at address `p`; `heap_top` is the first
  address `g_new0` has not handed out yet.  Freed records keep their address.
* a `FolderInfo *` is the position of the folder in `folder_list` (folders are
  only ever appended).
* `overlay_window` is `none` while the pointer is NULL, else
  `some (gtk_widget_get_visible (overlay_window))`.
* `app_grid` lists the children of the grid in the order they were attached.
* `config_file` is the content of the file at `get_config_file_path ()`, `none`
  when it cannot be read. -/
structure LauncherPlugin where
  heap : AppPtr → AppInfo
  heap_top : Nat
  app_list : List AppPtr
  filtered_list : List AppPtr
  folder_list : List FolderInfo
  open_folder : Option Nat
  current_page : Int
  total_pages : Int
  drag_source : Option AppPtr
  overlay_window : Option Bool
  app_grid : List GridChild
  config_file : Option String

/-- `APPS_PER_PAGE`. -/
def APPS_PER_PAGE : Nat := 30

/-- `GRID_COLUMNS`. -/
def GRID_COLUMNS : Nat := 6

/-- `GRID_ROWS`. -/
def GRID_ROWS : Nat := 5

/-- `BUTTON_SIZE`. -/
def BUTTON_SIZE : Nat := 130

/-- Store through an `AppInfo *`. -/
def store (heap : AppPtr → AppInfo) (p : AppPtr) (a : AppInfo) : AppPtr → AppInfo :=
  fun q => if q = p then a else heap q

/-- Store through a `FolderInfo *`. -/
def modify_folder (f : FolderInfo → FolderInfo) : List FolderInfo → Nat → List FolderInfo
  | [], _ => []
  | x :: xs, 0 => f x :: xs
  | x :: xs, n + 1 => x :: modify_folder f xs n

/-! ## Folders (`folders.c`) -/

/-- `create_folder`; `now` is the value of `g_get_monotonic_time ()`. -/
def create_folder (now : Int) (name : String) : FolderInfo :=
  { id := "folder_" ++ fmt_d now
    name := name
    icon := "folder"
    apps := []
    is_open := false }

/-- The loop of `find_folder_by_id` over a folder list: the position of the
first folder whose id is `folder_id`. -/
def find_folder_index : List FolderInfo → String → Option Nat
  | [], _ => none
  | folder :: rest, folder_id =>
    if folder.id = folder_id then some 0
    else (find_folder_index rest folder_id).map (· + 1)

/-- `find_folder_by_id`. -/
def find_folder_by_id (launcher : LauncherPlugin) (folder_id : String) : Option Nat :=
  find_folder_index launcher.folder_list folder_id

/-- `add_app_to_folder`; `app` is `none` for a NULL pointer. -/
def add_app_to_folder (launcher : LauncherPlugin) (app : Option AppPtr) (folder_id : String) :
    LauncherPlugin :=
  match find_folder_by_id launcher folder_id, app with
  | some folder, some app =>
    /- Remove from any existing folder -/
    let folder_list :=
      match (launcher.heap app).folder_id with
      | some old_id =>
        match find_folder_by_id launcher old_id with
        | some old_folder =>
          modify_folder (fun f => { f with apps := g_list_remove f.apps app })
            launcher.folder_list old_folder
        | none => launcher.folder_list
      | none => launcher.folder_list
    /- Add to new folder -/
    { launcher with
      heap := store launcher.heap app { launcher.heap app with folder_id := some folder_id }
      folder_list :=
        modify_folder (fun f => { f with apps := g_list_append f.apps app }) folder_list folder }
  | _, _ => launcher

/-- `remove_app_from_folder`; `app` is `none` for a NULL pointer. -/
def remove_app_from_folder (launcher : LauncherPlugin) (app : Option AppPtr) : LauncherPlugin :=
  match app with
  | some app =>
    match (launcher.heap app).folder_id with
    | some old_id =>
      let folder_list :=
        match find_folder_by_id launcher old_id with
        | some folder =>
          modify_folder (fun f => { f with apps := g_list_remove f.apps app })
            launcher.folder_list folder
        | none => launcher.folder_list
      { launcher with
        heap := store launcher.heap app { launcher.heap app with folder_id := none }
        folder_list := folder_list }
    | none => launcher
  | none => launcher

/-! ## Positions (`application.c`) -/

/-- Body of the loop of `recalculate_positions`: the state is the memory and
the counter `i`. -/
def recalculate_step (st : (AppPtr → AppInfo) × Int) (app : AppPtr) :
    (AppPtr → AppInfo) × Int :=
  (store st.1 app { st.1 app with position := st.2 }, wrap32 (st.2 + 1))

/-- `recalculate_positions`. -/
def recalculate_positions (launcher : LauncherPlugin) : LauncherPlugin :=
  { launcher with heap := (launcher.app_list.foldl recalculate_step (launcher.heap, 0)).1 }

/-! ## Grid and page indicator (`ui.c`) -/

/-- The loop "Display folders" of `populate_current_page`: one button per
folder, whatever the page; the state is the grid and `grid_index`. -/
def populate_folders (folder_count : Nat) : List GridChild × Int :=
  (List.range folder_count).foldl
    (fun st i =>
      (st.1 ++ [{ left := Int.tmod st.2 GRID_COLUMNS, top := Int.tdiv st.2 GRID_COLUMNS,
                  widget := GridWidget.folder_button i }],
       wrap32 (st.2 + 1)))
    ([], 0)

/-- The test at the head of the loop "Display applications": in the root view
hidden and foldered applications are skipped (and do not advance
`grid_index`). -/
def populate_skips (launcher : LauncherPlugin) (app_info : AppPtr) : Bool :=
  launcher.open_folder.isNone &&
    ((launcher.heap app_info).is_hidden || (launcher.heap app_info).folder_id.isSome)

/-- Body of the loop "Display applications". -/
def populate_app_step (launcher : LauncherPlugin) (start_index : Int)
    (st : List GridChild × Int) (app_info : AppPtr) : List GridChild × Int :=
  if populate_skips launcher app_info then st
  else
    let grid :=
      if start_index ≤ st.2 ∧
          (launcher.open_folder.isSome ∨ st.2 < wrap32 (start_index + APPS_PER_PAGE)) then
        st.1 ++ [{ left := Int.tmod st.2 GRID_COLUMNS, top := Int.tdiv st.2 GRID_COLUMNS,
                   widget := GridWidget.app_button app_info }]
      else st.1
    (grid, wrap32 (st.2 + 1))

/-- The list `apps_to_display` of `populate_current_page`. -/
def apps_to_display (launcher : LauncherPlugin) : List AppPtr :=
  match launcher.open_folder with
  | some folder =>
    match launcher.folder_list.get? folder with
    | some f => f.apps
    | none => []
  | none => launcher.filtered_list

/-- `populate_current_page`: the grid is emptied and filled again. -/
def populate_current_page (launcher : LauncherPlugin) : LauncherPlugin :=
  let start_index := wrap32 (launcher.current_page * APPS_PER_PAGE)
  { launcher with
    app_grid :=
      ((apps_to_display launcher).foldl (populate_app_step launcher start_index)
        (populate_folders launcher.folder_list.length)).1 }

/-- `update_page_dots`: `total_pages` is computed in `guint` arithmetic from
`g_list_length (filtered_list)`; one dot is created per page. -/
def update_page_dots (launcher : LauncherPlugin) : LauncherPlugin :=
  { launcher with
    total_pages :=
      (((g_list_length launcher.filtered_list + APPS_PER_PAGE - 1) % 2 ^ 32 / APPS_PER_PAGE
        : Nat) : Int) }

/-- `hide_overlay`. -/
def hide_overlay (launcher : LauncherPlugin) : LauncherPlugin :=
  match launcher.overlay_window with
  | some _ =>
    { launcher with
      overlay_window := some false
      filtered_list := g_list_copy launcher.app_list
      current_page := 0 }
  | none => launcher

/-! ## Configuration file (`config.c`): writing -/

/-- Body of the loop "Save folders". -/
def save_folder_step (xml : String) (folder : FolderInfo) : String :=
  xml ++ "    <folder id=\"" ++ folder.id ++ "\" name=\"" ++ folder.name ++ "\" icon=\"" ++
    folder.icon ++ "\"/>\n"

/-- Body of the loop "Save app states": nothing is written unless the
application is hidden, foldered or positioned. -/
def save_app_step (xml : String) (app : AppInfo) : String :=
  if app.is_hidden ∨ app.folder_id.isSome ∨ app.position ≠ -1 then
    let xml := xml ++ "    <app name=\"" ++ app.name ++ "\" hidden=\"" ++
      (if app.is_hidden then "true" else "false") ++ "\" position=\"" ++ fmt_d app.position ++
      "\""
    let xml :=
      match app.folder_id with
      | some folder_id => xml ++ " folder=\"" ++ folder_id ++ "\""
      | none => xml
    xml ++ "/>\n"
  else xml

/-- The XML content `save_configuration` builds.  The strings are written with
`%s` as they are. -/
def save_configuration_xml (launcher : LauncherPlugin) : String :=
  let xml := "<?xml version=\"1.0\" encoding=\"UTF-8\"?>\n"
  let xml := xml ++ "<launcher-config>\n"
  let xml := xml ++ "  <folders>\n"
  let xml := launcher.folder_list.foldl save_folder_step xml
  let xml := xml ++ "  </folders>\n"
  let xml := xml ++ "  <apps>\n"
  let xml := launcher.app_list.foldl (fun xml app => save_app_step xml (launcher.heap app)) xml
  let xml := xml ++ "  </apps>\n"
  xml ++ "</launcher-config>\n"

/-- `save_configuration`: the file is rewritten as a whole. -/
def save_configuration (launcher : LauncherPlugin) : LauncherPlugin :=
  { launcher with config_file := some (save_configuration_xml launcher) }

/-! ## GLib markup reader

`load_configuration` hands the file to `g_markup_parse_context_parse` with a
`start_element` and an `end_element` callback.  The reader is modelled here as
the character-driven state machine it is, after GLib's `gmarkup.c`; it yields
the callback invocations in order and tells whether an error stopped it.
Character references are read as plain decimal or hexadecimal digits.  Lean
strings are valid Unicode, so the UTF-8 validation always passes. -/

/-- `xml_isspace`. -/
def xml_isspace (c : Char) : Bool := c = ' ' || c = '\t' || c = '\n' || c = '\r'

/-- `IS_COMMON_NAME_END_CHAR`. -/
def is_common_name_end_char (c : Char) : Bool := c = '=' || c = '/' || c = '>' || c = ' '

/-- `g_ascii_isalpha`. -/
def g_ascii_isalpha (c : Char) : Bool := ('a' ≤ c && c ≤ 'z') || ('A' ≤ c && c ≤ 'Z')

/-- `g_ascii_isalnum`. -/
def g_ascii_isalnum (c : Char) : Bool := g_ascii_isalpha c || ('0' ≤ c && c ≤ '9')

/-- `name_validate`; `g_unichar_isalpha` is the Unicode property. -/
def name_validate (g_unichar_isalpha : Char → Bool) : List Char → Bool
  | [] => false
  | c :: rest =>
    (g_ascii_isalpha c ||
      (!is_common_name_end_char c && (c = '_' || c = ':' || g_unichar_isalpha c))) &&
    rest.all (fun c =>
      g_ascii_isalnum c ||
        (!is_common_name_end_char c &&
          (c = '.' || c = '-' || c = '_' || c = ':' || g_unichar_isalpha c)))

/-- Where `unescape_gstring_inplace` stands in its input. -/
inductive UnescapeState where
  | plain
  | after_cr
  | entity (acc : List Char)
  | failed
  deriving DecidableEq, Repr

/-- Value of a hexadecimal digit character. -/
def hex_value (c : Char) : Option Nat :=
  if '0' ≤ c ∧ c ≤ '9' then some (c.toNat - 48)
  else if 'a' ≤ c ∧ c ≤ 'f' then some (c.toNat - 87)
  else if 'A' ≤ c ∧ c ≤ 'F' then some (c.toNat - 55)
  else none

/-- Number written with the given digits, `none` when a character is no digit
or there is none. -/
def read_number (base : Nat) (digit : Char → Option Nat) (s : List Char) : Option Nat :=
  if s.isEmpty then none
  else s.foldl (fun acc c => acc.bind (fun n => (digit c).map (fun d => n * base + d))) (some 0)

/-- The character a reference `&name;` stands for. -/
def entity_char (name : List Char) : Option Char :=
  if name = ['l', 't'] then some '<'
  else if name = ['g', 't'] then some '>'
  else if name = ['a', 'm', 'p'] then some '&'
  else if name = ['q', 'u', 'o', 't'] then some '"'
  else if name = ['a', 'p', 'o', 's'] then some '\x27'
  else
    match name with
    | '#' :: 'x' :: digits =>
      (read_number 16 hex_value digits).bind (fun l =>
        if (0 < l ∧ l ≤ 0xD7FF) ∨ (0xE000 ≤ l ∧ l ≤ 0xFFFD) ∨ (0x10000 ≤ l ∧ l ≤ 0x10FFFF)
        then some (Char.ofNat l) else none)
    | '#' :: digits =>
      (read_number 10 digit_value digits).bind (fun l =>
        if (0 < l ∧ l ≤ 0xD7FF) ∨ (0xE000 ≤ l ∧ l ≤ 0xFFFD) ∨ (0x10000 ≤ l ∧ l ≤ 0x10FFFF)
        then some (Char.ofNat l) else none)
    | _ => none

/-- One character of `unescape_gstring_inplace`; the state carries the output. -/
def unescape_step (normalize_attribute : Bool) (st : UnescapeState × List Char) (c : Char) :
    UnescapeState × List Char :=
  match st.1 with
  | UnescapeState.failed => st
  | UnescapeState.entity acc =>
    if c = ';' then
      match entity_char acc with
      | some r => (UnescapeState.plain, st.2 ++ [r])
      | none => (UnescapeState.failed, st.2)
    else (UnescapeState.entity (acc ++ [c]), st.2)
  | UnescapeState.after_cr =>
    if c = '\n' then (UnescapeState.plain, st.2)
    else if c = '\r' then
      (UnescapeState.after_cr, st.2 ++ [if normalize_attribute then ' ' else '\n'])
    else if c = '&' then (UnescapeState.entity [], st.2)
    else if normalize_attribute ∧ c = '\t' then (UnescapeState.plain, st.2 ++ [' '])
    else (UnescapeState.plain, st.2 ++ [c])
  | UnescapeState.plain =>
    if c = '\r' then
      (UnescapeState.after_cr, st.2 ++ [if normalize_attribute then ' ' else '\n'])
    else if c = '&' then (UnescapeState.entity [], st.2)
    else if normalize_attribute ∧ (c = '\t' ∨ c = '\n') then (UnescapeState.plain, st.2 ++ [' '])
    else (UnescapeState.plain, st.2 ++ [c])

/-- `unescape_gstring_inplace`: `none` on an error. -/
def unescape_gstring (normalize_attribute : Bool) (s : List Char) : Option (List Char) :=
  match s.foldl (unescape_step normalize_attribute) (UnescapeState.plain, []) with
  | (UnescapeState.plain, out) => some out
  | (UnescapeState.after_cr, out) => some out
  | _ => none

/-- A callback invocation. -/
inductive MarkupEvent where
  | start_element (element_name : String) (attributes : List (String × String))
  | end_element (element_name : String)
  deriving DecidableEq, Repr

/-- `GMarkupParseState`, with the text collected so far where there is one. -/
inductive MarkupState where
  | start
  | after_open_angle
  | after_elision_slash
  | inside_open_tag_name (acc : List Char)
  | inside_attribute_name (acc : List Char)
  | after_attribute_name (name : String)
  | between_attributes
  | after_attribute_equals_sign (name : String)
  | inside_attribute_value_sq (name : String) (acc : List Char)
  | inside_attribute_value_dq (name : String) (acc : List Char)
  | inside_text (acc : List Char)
  | after_close_tag_slash
  | inside_close_tag_name (acc : List Char)
  | after_close_tag_name (name : String)
  | inside_passthrough (acc : List Char) (balance : Int)
  | error
  deriving DecidableEq, Repr

/-- `GMarkupParseContext`: state, open elements (innermost first), attributes
of the tag being read, and the callbacks invoked so far. -/
structure MarkupContext where
  state : MarkupState
  tag_stack : List String
  attributes : List (String × String)
  events : List MarkupEvent
  deriving DecidableEq, Repr

/-- The reader stops with an error. -/
def markup_fail (ctx : MarkupContext) : MarkupContext :=
  { ctx with state := MarkupState.error }

/-- `STATE_AFTER_CLOSE_ANGLE`: text follows inside an element, otherwise the
reader is back at `STATE_START`. -/
def after_close_angle (ctx : MarkupContext) : MarkupContext :=
  { ctx with
    state := if ctx.tag_stack.isEmpty then MarkupState.start else MarkupState.inside_text [] }

/-- `emit_start_element` for the element on top of the tag stack. -/
def emit_start_element (ctx : MarkupContext) : MarkupContext :=
  { ctx with
    events := ctx.events ++
      [MarkupEvent.start_element (ctx.tag_stack.headD "") ctx.attributes] }

/-- `emit_end_element`: the callback, then the element is popped. -/
def emit_end_element (ctx : MarkupContext) : MarkupContext :=
  { ctx with
    events := ctx.events ++ [MarkupEvent.end_element (ctx.tag_stack.headD "")]
    tag_stack := ctx.tag_stack.tail }

/-- `STATE_BETWEEN_ATTRIBUTES`. -/
def step_between_attributes (ctx : MarkupContext) (c : Char) : MarkupContext :=
  if xml_isspace c then ctx
  else if c = '/' then
    emit_start_element { ctx with state := MarkupState.after_elision_slash }
  else if c = '>' then
    after_close_angle (emit_start_element ctx)
  else if !is_common_name_end_char c then
    { ctx with state := MarkupState.inside_attribute_name [c] }
  else markup_fail ctx

/-- `STATE_AFTER_ATTRIBUTE_NAME`. -/
def step_after_attribute_name (ctx : MarkupContext) (name : String) (c : Char) :
    MarkupContext :=
  if xml_isspace c then { ctx with state := MarkupState.after_attribute_name name }
  else if c = '=' then { ctx with state := MarkupState.after_attribute_equals_sign name }
  else markup_fail ctx

/-- `STATE_AFTER_CLOSE_TAG_NAME`. -/
def step_after_close_tag_name (ctx : MarkupContext) (name : String) (c : Char) :
    MarkupContext :=
  if xml_isspace c then { ctx with state := MarkupState.after_close_tag_name name }
  else if c = '>' then
    match ctx.tag_stack with
    | [] => markup_fail ctx
    | open_name :: _ =>
      if open_name = name then after_close_angle (emit_end_element ctx)
      else markup_fail ctx
  else markup_fail ctx

/-- End of an attribute value: it is unescaped and stored. -/
def finish_attribute_value (ctx : MarkupContext) (name : String) (acc : List Char) :
    MarkupContext :=
  match unescape_gstring true acc with
  | some value =>
    { ctx with
      attributes := ctx.attributes ++ [(name, String.mk value)]
      state := MarkupState.between_attributes }
  | none => markup_fail ctx

/-- Whether a passthrough that has read `acc` ends at a `>`; `balance` counts
the angle brackets still open, this `>` included. -/
def passthrough_ends (acc : List Char) (balance : Int) : Bool :=
  (acc.get? 1 = some '?' && acc.getLast? = some '?') ||
  (acc.take 4 = ['<', '!', '-', '-'] && acc.drop (acc.length - 2) = ['-', '-']) ||
  (acc.take 9 = ['<', '!', '[', 'C', 'D', 'A', 'T', 'A', '['] &&
    acc.drop (acc.length - 2) = [']', ']']) ||
  (acc.take 9 = ['<', '!', 'D', 'O', 'C', 'T', 'Y', 'P', 'E'] && balance = 0)

/-- One character of `g_markup_parse_context_parse`. -/
def markup_step (g_unichar_isalpha : Char → Bool) (ctx : MarkupContext) (c : Char) :
    MarkupContext :=
  match ctx.state with
  | MarkupState.error => ctx
  | MarkupState.start =>
    if xml_isspace c then ctx
    else if c = '<' then { ctx with state := MarkupState.after_open_angle }
    else markup_fail ctx
  | MarkupState.after_open_angle =>
    if c = '?' ∨ c = '!' then { ctx with state := MarkupState.inside_passthrough ['<', c] 1 }
    else if c = '/' then { ctx with state := MarkupState.after_close_tag_slash }
    else if !is_common_name_end_char c then
      { ctx with state := MarkupState.inside_open_tag_name [c] }
    else markup_fail ctx
  | MarkupState.after_elision_slash =>
    if c = '>' then after_close_angle (emit_end_element ctx)
    else markup_fail ctx
  | MarkupState.inside_open_tag_name acc =>
    if is_common_name_end_char c || xml_isspace c then
      if name_validate g_unichar_isalpha acc then
        step_between_attributes
          { ctx with
            state := MarkupState.between_attributes
            tag_stack := String.mk acc :: ctx.tag_stack
            attributes := [] } c
      else markup_fail ctx
    else { ctx with state := MarkupState.inside_open_tag_name (acc ++ [c]) }
  | MarkupState.inside_attribute_name acc =>
    if is_common_name_end_char c || xml_isspace c then
      if name_validate g_unichar_isalpha acc then
        step_after_attribute_name ctx (String.mk acc) c
      else markup_fail ctx
    else { ctx with state := MarkupState.inside_attribute_name (acc ++ [c]) }
  | MarkupState.after_attribute_name name => step_after_attribute_name ctx name c
  | MarkupState.between_attributes => step_between_attributes ctx c
  | MarkupState.after_attribute_equals_sign name =>
    if xml_isspace c then ctx
    else if c = '"' then { ctx with state := MarkupState.inside_attribute_value_dq name [] }
    else if c = '\x27' then { ctx with state := MarkupState.inside_attribute_value_sq name [] }
    else markup_fail ctx
  | MarkupState.inside_attribute_value_sq name acc =>
    if c = '\x27' then finish_attribute_value ctx name acc
    else { ctx with state := MarkupState.inside_attribute_value_sq name (acc ++ [c]) }
  | MarkupState.inside_attribute_value_dq name acc =>
    if c = '"' then finish_attribute_value ctx name acc
    else { ctx with state := MarkupState.inside_attribute_value_dq name (acc ++ [c]) }
  | MarkupState.inside_text acc =>
    if c = '<' then
      match unescape_gstring false acc with
      | some _ => { ctx with state := MarkupState.after_open_angle }
      | none => markup_fail ctx
    else { ctx with state := MarkupState.inside_text (acc ++ [c]) }
  | MarkupState.after_close_tag_slash =>
    if !is_common_name_end_char c then
      { ctx with state := MarkupState.inside_close_tag_name [c] }
    else markup_fail ctx
  | MarkupState.inside_close_tag_name acc =>
    if is_common_name_end_char c || xml_isspace c then
      step_after_close_tag_name ctx (String.mk acc) c
    else { ctx with state := MarkupState.inside_close_tag_name (acc ++ [c]) }
  | MarkupState.after_close_tag_name name => step_after_close_tag_name ctx name c
  | MarkupState.inside_passthrough acc balance =>
    if c = '<' then
      { ctx with state := MarkupState.inside_passthrough (acc ++ [c]) (balance + 1) }
    else if c = '>' then
      if passthrough_ends acc (balance - 1) then after_close_angle ctx
      else { ctx with state := MarkupState.inside_passthrough (acc ++ [c]) (balance - 1) }
    else { ctx with state := MarkupState.inside_passthrough (acc ++ [c]) balance }

/-- A freshly created parse context. -/
def markup_context_new : MarkupContext :=
  { state := MarkupState.start, tag_stack := [], attributes := [], events := [] }

/-- `g_markup_parse_context_parse` on a whole document: the callbacks invoked,
in order, and `false` if an error stopped the reader.  Callbacks invoked before
the error have run. -/
def g_markup_parse (g_unichar_isalpha : Char → Bool) (text : String) :
    List MarkupEvent × Bool :=
  let ctx := text.data.foldl (markup_step g_unichar_isalpha) markup_context_new
  (ctx.events, decide (ctx.state ≠ MarkupState.error))

/-! ## Configuration file (`config.c`): reading -/

/-- `ParserData` without the launcher pointer. -/
structure ParserData where
  in_folders : Bool
  in_apps : Bool
  deriving DecidableEq, Repr

/-- The loops over `attribute_names` in `start_element`: the value of the last
attribute called `key`, `none` when there is none. -/
def attribute_value (attributes : List (String × String)) (key : String) : Option String :=
  attributes.foldl (fun found a => if a.1 = key then some a.2 else found) none

/-- `start_element`. -/
def start_element (st : LauncherPlugin × ParserData) (element_name : String)
    (attributes : List (String × String)) : LauncherPlugin × ParserData :=
  let launcher := st.1
  let data := st.2
  if element_name = "folders" then (launcher, { data with in_folders := true })
  else if element_name = "apps" then (launcher, { data with in_apps := true })
  else if element_name = "folder" ∧ data.in_folders then
    match attribute_value attributes "id", attribute_value attributes "name" with
    | some id, some name =>
      /- the time-based id `create_folder` makes is replaced at once -/
      let folder := { create_folder 0 name with id := id }
      let folder :=
        match attribute_value attributes "icon" with
        | some icon => { folder with icon := icon }
        | none => folder
      ({ launcher with folder_list := g_list_append launcher.folder_list folder }, data)
    | _, _ => st
  else if element_name = "app" ∧ data.in_apps then
    match attribute_value attributes "name" with
    | some name =>
      match launcher.app_list.find? (fun app => (launcher.heap app).name = name) with
      | some app =>
        let a := launcher.heap app
        let a :=
          if attribute_value attributes "hidden" = some "true" then { a with is_hidden := true }
          else a
        let a :=
          match attribute_value attributes "folder" with
          | some folder => { a with folder_id := some folder }
          | none => a
        let a :=
          match attribute_value attributes "position" with
          | some position => { a with position := atoi position }
          | none => a
        ({ launcher with heap := store launcher.heap app a }, data)
      | none => st
    | none => st
  else st

/-- `end_element`. -/
def end_element (st : LauncherPlugin × ParserData) (element_name : String) :
    LauncherPlugin × ParserData :=
  if element_name = "folders" then (st.1, { st.2 with in_folders := false })
  else if element_name = "apps" then (st.1, { st.2 with in_apps := false })
  else st

/-- One callback invocation. -/
def run_callback (st : LauncherPlugin × ParserData) : MarkupEvent → LauncherPlugin × ParserData
  | MarkupEvent.start_element element_name attributes => start_element st element_name attributes
  | MarkupEvent.end_element element_name => end_element st element_name

/-- `sort_apps_by_position`; `app_a` and `app_b` are the records
`*(const AppInfo **)a` and `*(const AppInfo **)b` denote. -/
def sort_apps_by_position (g_utf8_collate : String → String → Int) (app_a app_b : AppInfo) :
    Int :=
  if app_a.position = -1 ∧ app_b.position = -1 then g_utf8_collate app_a.name app_b.name
  else if app_a.position = -1 then 1
  else if app_b.position = -1 then -1
  else wrap32 (app_a.position - app_b.position)

/-- `load_configuration`.

The final `g_list_sort` hands each `AppInfo *` of `app_list` itself to
`sort_apps_by_position`, which dereferences its arguments once more
(`*(const AppInfo **)a`): the record it compares is whatever the memory at the
address stored in the first field (`name`) reads as.  That reading is the
parameter `reread`, a function of the memory and the pointer; a comparator
handed pointers to the list data, as `sort_apps_by_position` expects, is
`reread = fun heap app => heap app`. -/
def load_configuration (g_utf8_collate : String → String → Int)
    (g_unichar_isalpha : Char → Bool) (reread : (AppPtr → AppInfo) → AppPtr → AppInfo)
    (launcher : LauncherPlugin) : LauncherPlugin :=
  match launcher.config_file with
  | none => launcher
  | some contents =>
    let events := (g_markup_parse g_unichar_isalpha contents).1
    let parsed :=
      (events.foldl run_callback (launcher, { in_folders := false, in_apps := false })).1
    { parsed with
      app_list :=
        g_list_sort parsed.app_list
          (fun a b =>
            sort_apps_by_position g_utf8_collate (reread parsed.heap a) (reread parsed.heap b)) }

/-! ## Event handlers (`events.c`, `application.c`, `plugin.c`, `application-loader.c`) -/

/-- The key values `on_key_press` tells apart. -/
inductive KeyVal where
  | escape
  | right
  | left
  | other
  deriving DecidableEq, Repr

/-- `on_key_press`. -/
def on_key_press (launcher : LauncherPlugin) : KeyVal → LauncherPlugin
  | KeyVal.escape => hide_overlay launcher
  | KeyVal.right =>
    if launcher.current_page < launcher.total_pages - 1 then
      update_page_dots
        (populate_current_page { launcher with current_page := launcher.current_page + 1 })
    else launcher
  | KeyVal.left =>
    if launcher.current_page > 0 then
      update_page_dots
        (populate_current_page { launcher with current_page := launcher.current_page - 1 })
    else launcher
  | KeyVal.other => launcher

/-- `strstr (haystack, needle) != NULL`. -/
def strstr : List Char → List Char → Bool
  | [], needle => needle.isEmpty
  | c :: haystack, needle => needle.isPrefixOf (c :: haystack) || strstr haystack needle

/-- Body of the filter loop of `on_search_changed`. -/
def search_step (g_utf8_strdown : String → String) (launcher : LauncherPlugin)
    (search_lower : String) (filtered_list : List AppPtr) (app_info : AppPtr) : List AppPtr :=
  if !(launcher.heap app_info).is_hidden then
    if strstr (g_utf8_strdown (launcher.heap app_info).name).data search_lower.data then
      g_list_append filtered_list app_info
    else filtered_list
  else filtered_list

/-- `on_search_changed`; `search_text` is the text of the entry. -/
def on_search_changed (g_utf8_strdown : String → String) (launcher : LauncherPlugin)
    (search_text : String) : LauncherPlugin :=
  let filtered_list :=
    if search_text.length = 0 then g_list_copy launcher.app_list
    else
      launcher.app_list.foldl (search_step g_utf8_strdown launcher (g_utf8_strdown search_text))
        []
  update_page_dots
    (populate_current_page { launcher with filtered_list := filtered_list, current_page := 0 })

/-- `on_dot_clicked`; `page_index` is the dot's `page-index` data. -/
def on_dot_clicked (launcher : LauncherPlugin) (page_index : Int) : LauncherPlugin :=
  if page_index ≠ launcher.current_page then
    update_page_dots (populate_current_page { launcher with current_page := page_index })
  else launcher

/-- `GdkScrollDirection`. -/
inductive GdkScrollDirection where
  | up
  | down
  | left
  | right
  | smooth
  deriving DecidableEq, Repr

/-- The fields of `GdkEventScroll` that `on_scroll_event` reads; the deltas are
given as rationals. -/
structure GdkEventScroll where
  direction : GdkScrollDirection
  delta_x : ℚ
  delta_y : ℚ

/-- Previous page, if there is one: whether the page changed. -/
def page_back (launcher : LauncherPlugin) : LauncherPlugin × Bool :=
  if launcher.current_page > 0 then
    ({ launcher with current_page := launcher.current_page - 1 }, true)
  else (launcher, false)

/-- Next page, if there is one: whether the page changed. -/
def page_forward (launcher : LauncherPlugin) : LauncherPlugin × Bool :=
  if launcher.current_page < launcher.total_pages - 1 then
    ({ launcher with current_page := launcher.current_page + 1 }, true)
  else (launcher, false)

/-- The tail of the scroll and swipe handlers. -/
def refresh_if_changed (r : LauncherPlugin × Bool) : LauncherPlugin :=
  if r.2 then update_page_dots (populate_current_page r.1) else r.1

/-- `on_scroll_event`. -/
def on_scroll_event (launcher : LauncherPlugin) (event : GdkEventScroll) : LauncherPlugin :=
  refresh_if_changed
    (match event.direction with
     | GdkScrollDirection.left => page_back launcher
     | GdkScrollDirection.up => page_back launcher
     | GdkScrollDirection.right => page_forward launcher
     | GdkScrollDirection.down => page_forward launcher
     | GdkScrollDirection.smooth =>
       if |event.delta_x| > |event.delta_y| then
         if event.delta_x < -(3 / 10) then page_back launcher
         else if event.delta_x > 3 / 10 then page_forward launcher
         else (launcher, false)
       else
         if event.delta_y < -(3 / 10) then page_back launcher
         else if event.delta_y > 3 / 10 then page_forward launcher
         else (launcher, false))

/-- `on_swipe_gesture`. -/
def on_swipe_gesture (launcher : LauncherPlugin) (velocity_x _velocity_y : ℚ) :
    LauncherPlugin :=
  refresh_if_changed
    (if velocity_x > 0 ∧ launcher.current_page > 0 then
       ({ launcher with current_page := launcher.current_page - 1 }, true)
     else if velocity_x < 0 ∧ launcher.current_page < launcher.total_pages - 1 then
       ({ launcher with current_page := launcher.current_page + 1 }, true)
     else (launcher, false))

/-- `hide_application`. -/
def hide_application (launcher : LauncherPlugin) (app_info : AppPtr) : LauncherPlugin :=
  save_configuration
    (update_page_dots
      (populate_current_page
        { launcher with
          heap := store launcher.heap app_info
            { launcher.heap app_info with is_hidden := true } }))

/-- `on_folder_clicked`; a folder button always carries a folder of
`folder_list`. -/
def on_folder_clicked (launcher : LauncherPlugin) (folder_info : Nat) : LauncherPlugin :=
  match launcher.folder_list.get? folder_info with
  | some folder =>
    update_page_dots
      (populate_current_page
        { launcher with
          open_folder := some folder_info
          filtered_list := g_list_copy folder.apps
          current_page := 0 })
  | none => launcher

/-- `on_back_button_clicked`. -/
def on_back_button_clicked (launcher : LauncherPlugin) : LauncherPlugin :=
  update_page_dots
    (populate_current_page
      { launcher with
        open_folder := none
        filtered_list := g_list_copy launcher.app_list
        current_page := 0 })

/-- `on_drag_begin`; `app_info` is the `app-info` data of the dragged widget. -/
def on_drag_begin (launcher : LauncherPlugin) (app_info : Option AppPtr) : LauncherPlugin :=
  match app_info with
  | some app => { launcher with drag_source := some app }
  | none => launcher

/-- `on_drag_data_received`; `app_info` is the `app-info` data of the widget
and `data` the text of the selection. -/
def on_drag_data_received (launcher : LauncherPlugin) (app_info : Option AppPtr)
    (data : Option String) : LauncherPlugin :=
  match app_info, data.bind (find_folder_by_id launcher) with
  | some app, some folder =>
    match launcher.folder_list.get? folder with
    | some folder_info =>
      populate_current_page (add_app_to_folder launcher (some app) folder_info.id)
    | none => launcher
  | _, _ => launcher

/-- `gtk_grid_get_child_at`: the children are searched most recently attached
first. -/
def gtk_grid_get_child_at (grid : List GridChild) (left top : Int) : Option GridWidget :=
  (grid.reverse.find? (fun child => child.left = left ∧ child.top = top)).map (·.widget)

/-- The branch "Dropped on empty space -> reorder" of `on_drag_drop`. -/
def drop_reorder (launcher : LauncherPlugin) (drag_source : AppPtr) (x y : Int) :
    LauncherPlugin :=
  let page_offset := wrap32 (launcher.current_page * APPS_PER_PAGE)
  let new_index :=
    wrap32 (wrap32 (wrap32 (Int.tdiv y BUTTON_SIZE * GRID_COLUMNS) + Int.tdiv x BUTTON_SIZE)
      + page_offset)
  let app_list := g_list_remove launcher.app_list drag_source
  let app_list := g_list_insert app_list drag_source new_index
  recalculate_positions { launcher with app_list := app_list }

/-- `on_drag_drop`; `now` is the value `g_get_monotonic_time ()` has when a
folder is created.  The result carries the return value. -/
def on_drag_drop (launcher : LauncherPlugin) (now : Int) (x y : Int) : LauncherPlugin × Bool :=
  match launcher.drag_source with
  | none => (launcher, false)
  | some drag_source =>
    let target_widget :=
      gtk_grid_get_child_at launcher.app_grid (Int.tdiv x BUTTON_SIZE) (Int.tdiv y BUTTON_SIZE)
    let target_app :=
      match target_widget with
      | some (GridWidget.app_button app) => some app
      | _ => none
    let target_folder :=
      match target_widget with
      | some (GridWidget.folder_button folder) => launcher.folder_list.get? folder
      | _ => none
    let launcher :=
      if target_app.isSome ∧ some drag_source ≠ target_app then
        /- Dropped on another app -> create a folder -/
        let folder := create_folder now "New Folder"
        let launcher :=
          { launcher with folder_list := g_list_append launcher.folder_list folder }
        let launcher := add_app_to_folder launcher (some drag_source) folder.id
        add_app_to_folder launcher target_app folder.id
      else
        match target_folder with
        | some folder =>
          /- Dropped on a folder -> add to folder -/
          add_app_to_folder launcher (some drag_source) folder.id
        | none =>
          /- Dropped on empty space -> reorder -/
          drop_reorder launcher drag_source x y
    (save_configuration (update_page_dots (populate_current_page launcher)), true)

/-- The records of a fresh scan are placed at the addresses from `heap_top` on
and `app_list` points to them; the records of the previous list are freed. -/
def install_applications (launcher : LauncherPlugin) (records : List AppInfo) :
    LauncherPlugin :=
  { launcher with
    heap := fun p =>
      if launcher.heap_top ≤ p then
        match records.get? (p - launcher.heap_top) with
        | some a => a
        | none => launcher.heap p
      else launcher.heap p
    heap_top := launcher.heap_top + records.length
    app_list := (List.range records.length).map (fun i => launcher.heap_top + i) }

/-- `GFileMonitorEvent`. -/
inductive GFileMonitorEvent where
  | changed
  | changes_done_hint
  | deleted
  | created
  | attribute_changed
  | pre_unmount
  | unmounted
  | moved
  | renamed
  | moved_in
  | moved_out
  deriving DecidableEq, Repr

/-- `on_directory_changed`; `basename` is `g_file_get_basename (file)` and
`src` what the scan finds at that moment. -/
def on_directory_changed (g_utf8_collate : String → String → Int) (launcher : LauncherPlugin)
    (event_type : GFileMonitorEvent) (basename : Option String) (src : Sources) :
    LauncherPlugin :=
  if event_type = GFileMonitorEvent.created ∨ event_type = GFileMonitorEvent.deleted ∨
      event_type = GFileMonitorEvent.changed then
    match basename with
    | some name =>
      if g_str_has_suffix name ".desktop" then
        let launcher :=
          install_applications launcher (load_applications_enhanced g_utf8_collate src)
        let launcher := { launcher with filtered_list := g_list_copy launcher.app_list }
        if launcher.overlay_window = some true then
          update_page_dots (populate_current_page launcher)
        else launcher
      else launcher
    | none => launcher
  else launcher

/-- `launcher_button_clicked`. -/
def launcher_button_clicked (launcher : LauncherPlugin) : LauncherPlugin :=
  match launcher.overlay_window with
  | some _ =>
    { update_page_dots (populate_current_page { launcher with current_page := 0 }) with
      overlay_window := some true }
  | none => launcher

/-- The plugin structure after `g_slice_new0`, with the configuration file as
found on disk. -/
def launcher_new (config_file : Option String) : LauncherPlugin :=
  { heap := fun _ => default
    heap_top := 0
    app_list := []
    filtered_list := []
    folder_list := []
    open_folder := none
    current_page := 0
    total_pages := 0
    drag_source := none
    overlay_window := none
    app_grid := []
    config_file := config_file }

/-- `launcher_construct`, as far as the catalog goes: scan, load the
configuration, create the (hidden) overlay window. -/
def launcher_construct (g_utf8_collate : String → String → Int)
    (g_unichar_isalpha : Char → Bool) (reread : (AppPtr → AppInfo) → AppPtr → AppInfo)
    (src : Sources) (config_file : Option String) : LauncherPlugin :=
  let launcher :=
    install_applications (launcher_new config_file)
      (load_applications_enhanced g_utf8_collate src)
  let launcher := load_configuration g_utf8_collate g_unichar_isalpha reread launcher
  let launcher :=
    { launcher with filtered_list := g_list_copy launcher.app_list, current_page := 0 }
  /- create_overlay_window -/
  update_page_dots (populate_current_page { launcher with overlay_window := some false })

/-! ## The plugin as an event-driven system -/

/-- The library functions whose result depends on the locale, and the reading
of memory `load_configuration` depends on. -/
structure Env where
  g_utf8_collate : String → String → Int
  g_utf8_strdown : String → String
  g_unichar_isalpha : Char → Bool
  reread : (AppPtr → AppInfo) → AppPtr → AppInfo

/-- The events the plugin reacts to, with the data the toolkit hands over. -/
inductive Event where
  | button_clicked
  | key_press (keyval : KeyVal)
  | search_changed (search_text : String)
  | dot_clicked (page_index : Int)
  | scroll (event : GdkEventScroll)
  | swipe (velocity_x velocity_y : ℚ)
  | folder_clicked (folder_info : Nat)
  | back_clicked
  | hide (app_info : AppPtr)
  | drag_begin (app_info : Option AppPtr)
  | drag_data_received (app_info : Option AppPtr) (data : Option String)
  | drag_drop (now x y : Int)
  | directory_changed (event_type : GFileMonitorEvent) (basename : Option String)
      (src : Sources)

/-- The handler connected to each event. -/
def handle (env : Env) (launcher : LauncherPlugin) : Event → LauncherPlugin
  | Event.button_clicked => launcher_button_clicked launcher
  | Event.key_press keyval => on_key_press launcher keyval
  | Event.search_changed search_text =>
    on_search_changed env.g_utf8_strdown launcher search_text
  | Event.dot_clicked page_index => on_dot_clicked launcher page_index
  | Event.scroll event => on_scroll_event launcher event
  | Event.swipe velocity_x velocity_y => on_swipe_gesture launcher velocity_x velocity_y
  | Event.folder_clicked folder_info => on_folder_clicked launcher folder_info
  | Event.back_clicked => on_back_button_clicked launcher
  | Event.hide app_info => hide_application launcher app_info
  | Event.drag_begin app_info => on_drag_begin launcher app_info
  | Event.drag_data_received app_info data => on_drag_data_received launcher app_info data
  | Event.drag_drop now x y => (on_drag_drop launcher now x y).1
  | Event.directory_changed event_type basename src =>
    on_directory_changed env.g_utf8_collate launcher event_type basename src

/-- The events the toolkit can deliver in a state.  The panel button and the
file monitors are always live, and the search entry also reports the clearing
done by `hide_overlay`; everything else lives in the overlay window and needs
it shown.  A page dot exists for each index below `total_pages`. -/
def deliverable (launcher : LauncherPlugin) : Event → Prop
  | Event.button_clicked => True
  | Event.directory_changed _ _ _ => True
  | Event.search_changed _ => True
  | Event.dot_clicked page_index =>
    launcher.overlay_window = some true ∧ 0 ≤ page_index ∧ page_index < launcher.total_pages
  | _ => launcher.overlay_window = some true

/-- A file-monitor event that arrives while the overlay is shown. -/
def rescan_while_shown (launcher : LauncherPlugin) : Event → Prop
  | Event.directory_changed _ _ _ => launcher.overlay_window = some true
  | _ => False

/-- The states the plugin reaches from its start on the scan `src` and the
configuration file `config_file`.  With `calm` set, file-monitor events
that arrive while the overlay is shown are left out. -/
inductive Reachable (env : Env) (src : Sources) (config_file : Option String) (calm : Bool) :
    LauncherPlugin → Prop where
  | start :
    Reachable env src config_file calm
      (launcher_construct env.g_utf8_collate env.g_unichar_isalpha env.reread src config_file)
  | step (launcher : LauncherPlugin) (event : Event) :
    Reachable env src config_file calm launcher →
    deliverable launcher event →
    (calm = true → ¬ rescan_while_shown launcher event) →
    Reachable env src config_file calm (handle env launcher event)

/-- The page count `update_page_dots` computes from a filtered list. -/
def page_count (filtered_list : List AppPtr) : Int :=
  (((g_list_length filtered_list + APPS_PER_PAGE - 1) % 2 ^ 32 / APPS_PER_PAGE : Nat) : Int)

/-- What the page handlers keep: the page index is not negative; while the
overlay is shown `total_pages` is the page count of `filtered_list` and the
page index is below it (or 0); while it is not shown the page index is 0. -/
def page_invariant (launcher : LauncherPlugin) : Prop :=
  0 ≤ launcher.current_page ∧
  (launcher.overlay_window = some true →
    launcher.total_pages = page_count launcher.filtered_list ∧
    launcher.current_page ≤ max 0 (launcher.total_pages - 1)) ∧
  (launcher.overlay_window ≠ some true → launcher.current_page = 0)

/-! ## Properties of catalogs -/

/-- The folder invariant: forward references and member lists agree. -/
def folder_invariant (launcher : LauncherPlugin) : Prop :=
  ∀ folder ∈ launcher.folder_list, ∀ app : AppPtr,
    (launcher.heap app).folder_id = some folder.id ↔ app ∈ folder.apps

/-- Folder ids are pairwise distinct. -/
def folder_ids_distinct (launcher : LauncherPlugin) : Prop :=
  (launcher.folder_list.map (·.id)).Nodup

/-- No member list holds the same application twice. -/
def members_distinct (launcher : LauncherPlugin) : Prop :=
  ∀ folder ∈ launcher.folder_list, folder.apps.Nodup

/-- What `add_app_to_folder` does to each folder when it acts (distinct ids):
the application leaves the member list of the folder it refers to and joins
the end of the member list of the folder called `folder_id`. -/
def add_to_folder_apps (launcher : LauncherPlugin) (app : AppPtr) (folder_id : String)
    (F : FolderInfo) : FolderInfo :=
  { F with
    apps :=
      if F.id = folder_id then
        g_list_append
          (if (launcher.heap app).folder_id = some F.id then g_list_remove F.apps app
           else F.apps) app
      else if (launcher.heap app).folder_id = some F.id then g_list_remove F.apps app
      else F.apps }

/-- What `remove_app_from_folder` does to each folder when it acts (distinct
ids). -/
def remove_from_folder_apps (launcher : LauncherPlugin) (app : AppPtr) (F : FolderInfo) :
    FolderInfo :=
  { F with
    apps :=
      if (launcher.heap app).folder_id = some F.id then g_list_remove F.apps app else F.apps }

/-- The three properties the folder operations keep together. -/
def folders_consistent (launcher : LauncherPlugin) : Prop :=
  folder_ids_distinct launcher ∧ folder_invariant launcher ∧ members_distinct launcher

/-- A call of one of the two folder operations. -/
inductive FolderOp where
  | add (app : Option AppPtr) (folder_id : String)
  | remove (app : Option AppPtr)
  deriving DecidableEq, Repr

/-- Performs one call. -/
def run_folder_op (launcher : LauncherPlugin) : FolderOp → LauncherPlugin
  | FolderOp.add app folder_id => add_app_to_folder launcher app folder_id
  | FolderOp.remove app => remove_app_from_folder launcher app

/-! ## The view -/

/-- The applications that pass the skip test of `populate_current_page`, in the
order of `apps_to_display`: the applications the current view offers, before
they are cut into pages. -/
def shown_apps (launcher : LauncherPlugin) : List AppPtr :=
  (apps_to_display launcher).filter (fun app => !populate_skips launcher app)

/-! ## The written configuration file and what the reader makes of it -/

/-- The reader run over a piece of text. -/
def markup_run (isalpha : Char → Bool) (ctx : MarkupContext) (cs : List Char) : MarkupContext :=
  cs.foldl (markup_step isalpha) ctx

/-- A character that can be written into an attribute as it is. -/
def plain_char (c : Char) : Bool :=
  c != '"' && c != '&' && c != '<' && c != '>' && c != '\t' && c != '\n' && c != '\r'

/-- A string that can be written into an attribute as it is: it holds none of
the characters `"`, `&`, `<`, `>`, and no tab, line feed or carriage return. -/
def attr_plain (s : String) : Bool := s.data.all plain_char

/-- The callbacks a folder line gives rise to. -/
def folder_events (folder : FolderInfo) : List MarkupEvent :=
  [MarkupEvent.start_element "folder"
      [("id", folder.id), ("name", folder.name), ("icon", folder.icon)],
   MarkupEvent.end_element "folder"]

/-- The attributes written for an application. -/
def app_attributes (app : AppInfo) : List (String × String) :=
  [("name", app.name), ("hidden", if app.is_hidden then "true" else "false"),
   ("position", fmt_d app.position)] ++
  (match app.folder_id with
   | some folder_id => [("folder", folder_id)]
   | none => [])

/-- The callbacks the text written for an application gives rise to. -/
def app_events (app : AppInfo) : List MarkupEvent :=
  if app.is_hidden ∨ app.folder_id.isSome ∨ app.position ≠ -1 then
    [MarkupEvent.start_element "app" (app_attributes app), MarkupEvent.end_element "app"]
  else []

/-- The callbacks the reader makes on the file `save_configuration` writes for a
catalog whose strings are plain. -/
def saved_events (launcher : LauncherPlugin) : List MarkupEvent :=
  [MarkupEvent.start_element "launcher-config" [], MarkupEvent.start_element "folders" []] ++
  (launcher.folder_list.map folder_events).flatten ++
  [MarkupEvent.end_element "folders", MarkupEvent.start_element "apps" []] ++
  (launcher.app_list.map (fun app => app_events (launcher.heap app))).flatten ++
  [MarkupEvent.end_element "apps", MarkupEvent.end_element "launcher-config"]

/-- Every string `save_configuration` writes for the catalog is plain. -/
def catalog_plain (launcher : LauncherPlugin) : Prop :=
  (∀ folder ∈ launcher.folder_list,
    attr_plain folder.id = true ∧ attr_plain folder.name = true ∧
      attr_plain folder.icon = true) ∧
  (∀ app ∈ launcher.app_list,
    attr_plain (launcher.heap app).name = true ∧
      (launcher.heap app).folder_id.all attr_plain = true)

/-- The characters `save_configuration` writes for one folder. -/
def folder_text (folder : FolderInfo) : List Char :=
  "    <folder id=\"".data ++ (folder.id.data ++ ['"']) ++
    (" name=\"".data ++ (folder.name.data ++ ['"'])) ++
    (" icon=\"".data ++ (folder.icon.data ++ ['"'])) ++ "/>\n".data

/-- The characters `save_configuration` writes for one application. -/
def app_text (app : AppInfo) : List Char :=
  if app.is_hidden ∨ app.folder_id.isSome ∨ app.position ≠ -1 then
    "    <app name=\"".data ++ (app.name.data ++ ['"']) ++
      (" hidden=\"".data ++ ((if app.is_hidden then "true" else "false").data ++ ['"'])) ++
      (" position=\"".data ++ ((fmt_d app.position).data ++ ['"'])) ++
      (match app.folder_id with
       | some folder_id => " folder=\"".data ++ (folder_id.data ++ ['"'])
       | none => []) ++
      "/>\n".data
  else []

/-- What the callbacks for one written application do to the memory: the first
record of `app_list` with that name takes over the written attributes. -/
def apply_saved (app_list : List AppPtr) (heap : AppPtr → AppInfo) (a : AppInfo) :
    AppPtr → AppInfo :=
  if a.is_hidden ∨ a.folder_id.isSome ∨ a.position ≠ -1 then
    match app_list.find? (fun app => (heap app).name = a.name) with
    | some q =>
      store heap q
        { heap q with
          is_hidden := if a.is_hidden then true else (heap q).is_hidden
          folder_id := match a.folder_id with
            | some folder_id => some folder_id
            | none => (heap q).folder_id
          position := atoi (fmt_d a.position) }
    | none => heap
  else heap

/-- A folder as `start_element` creates it from its line. -/
def restored_folder (folder : FolderInfo) : FolderInfo :=
  { id := folder.id, name := folder.name, icon := folder.icon, apps := [], is_open := false }

/-- The attribute lists of the `folder` elements the reader reports, in file
order. -/
def folder_entries (events : List MarkupEvent) : List (List (String × String)) :=
  events.filterMap (fun e =>
    match e with
    | MarkupEvent.start_element element_name attributes =>
      if element_name = "folder" then some attributes else none
    | MarkupEvent.end_element _ => none)

/-- The attribute lists of the `app` elements the reader reports, in file
order. -/
def app_entries (events : List MarkupEvent) : List (List (String × String)) :=
  events.filterMap (fun e =>
    match e with
    | MarkupEvent.start_element element_name attributes =>
      if element_name = "app" then some attributes else none
    | MarkupEvent.end_element _ => none)

/-- Every folder reference that is set names a folder of `folder_list`. -/
def folder_refs_resolve (launcher : LauncherPlugin) : Prop :=
  ∀ (q : AppPtr) (id : String), (launcher.heap q).folder_id = some id →
    (find_folder_by_id launcher id).isSome = true

/-- The applications whose buttons a grid holds, in the order of attachment. -/
def grid_apps (grid : List GridChild) : List AppPtr :=
  grid.filterMap (fun child =>
    match child.widget with
    | GridWidget.app_button app_info => some app_info
    | GridWidget.folder_button _ => none)

/-- The folders whose buttons a grid holds, in the order of attachment. -/
def grid_folders (grid : List GridChild) : List Nat :=
  grid.filterMap (fun child =>
    match child.widget with
    | GridWidget.folder_button folder_info => some folder_info
    | GridWidget.app_button _ => none)

/-! ## Example data -/

/-- A native-registry record called Firefox. -/
def ex_firefox_native : GAppInfo :=
  { display_name := "Firefox", commandline := some "firefox",
    themed_icon_names := some ["firefox"], should_show := true }

/-- A flatpak record of the same name. -/
def ex_firefox_flatpak : GAppInfo :=
  { display_name := "Firefox", commandline := some "flatpak run org.mozilla.firefox",
    themed_icon_names := some ["org.mozilla.firefox"], should_show := true }

/-- A snap record of the same name. -/
def ex_firefox_snap : GAppInfo :=
  { display_name := "Firefox", commandline := some "snap run firefox",
    themed_icon_names := some ["snap.firefox"], should_show := true }

/-- The native registry and the flatpak directory both yield a Firefox. -/
def ex_sources_native_flatpak : Sources :=
  { all := [ex_firefox_native]
    snap_dir := none
    flatpak_dir := some [{ filename := "org.mozilla.firefox.desktop",
                           desktop_info := some ex_firefox_flatpak }]
    user_flatpak_dir := none }

/-- The native registry and the snap directory both yield a Firefox. -/
def ex_sources_native_snap : Sources :=
  { all := [ex_firefox_native]
    snap_dir := some [{ filename := "firefox_firefox.desktop",
                        desktop_info := some ex_firefox_snap }]
    flatpak_dir := none
    user_flatpak_dir := none }

/-- A collation that treats all names alike. -/
def ex_collate : String → String → Int := fun _ _ => 0

/-- A catalog with two folders in which the member list of the first names the
application at address 7 twice. -/
def ex_twice_in_folder : LauncherPlugin :=
  { launcher_new none with
    heap := fun p =>
      if p = 7 then { new_app_info ex_firefox_native with folder_id := some "f1" } else default
    heap_top := 8
    app_list := [7]
    folder_list :=
      [{ id := "f1", name := "One", icon := "folder", apps := [7, 7], is_open := false },
       { id := "f2", name := "Two", icon := "folder", apps := [], is_open := false }] }

/-- A catalog with two empty folders and one application outside them. -/
def ex_two_folders : LauncherPlugin :=
  { launcher_new none with
    heap := fun p => if p = 7 then new_app_info ex_firefox_native else default
    heap_top := 8
    app_list := [7]
    folder_list :=
      [{ id := "f1", name := "One", icon := "folder", apps := [], is_open := false },
       { id := "f2", name := "Two", icon := "folder", apps := [], is_open := false }] }

/-- Lowercasing of the ASCII letters, as `g_utf8_strdown` does on ASCII text. -/
def ex_strdown (s : String) : String := String.mk (s.data.map Char.toLower)

/-- A record with the given display name. -/
def ex_app (name : String) : GAppInfo :=
  { display_name := name, commandline := some name, themed_icon_names := none,
    should_show := true }

/-- A native registry with Calculator, Firefox and GIMP. -/
def ex_sources_three : Sources :=
  { all := [ex_app "Calculator", ex_app "Firefox", ex_app "GIMP"]
    snap_dir := none, flatpak_dir := none, user_flatpak_dir := none }

/-- The plugin started on that registry without a configuration file, the
overlay opened: `app_list` is `[0, 1, 2]`. -/
def ex_three_apps : LauncherPlugin :=
  launcher_button_clicked
    (launcher_construct ex_collate (fun _ => false) (fun heap app => heap app)
      ex_sources_three none)

/-- An environment for the examples: all names collate alike, ASCII
lowercasing, no letters outside ASCII, and the comparator of
`load_configuration` sees the records themselves. -/
def ex_env : Env :=
  { g_utf8_collate := ex_collate
    g_utf8_strdown := ex_strdown
    g_unichar_isalpha := fun _ => false
    reread := fun heap app => heap app }

/-- A system without any application to show. -/
def ex_sources_none : Sources :=
  { all := [], snap_dir := none, flatpak_dir := none, user_flatpak_dir := none }

/-- A native registry with 31 applications `app0` ... `app30`. -/
def ex_sources_31 : Sources :=
  { all := (List.range 31).map (fun i => ex_app ("app" ++ fmt_d i))
    snap_dir := none, flatpak_dir := none, user_flatpak_dir := none }

/-- The plugin started on `ex_sources_31` without a configuration file. -/
def ex_start_31 : LauncherPlugin :=
  launcher_construct ex_env.g_utf8_collate ex_env.g_unichar_isalpha ex_env.reread
    ex_sources_31 none

/-- Started with 31 applications, the overlay is opened and the right arrow
key leads to the second page. -/
def ex_second_page : LauncherPlugin :=
  handle ex_env (handle ex_env ex_start_31 Event.button_clicked) (Event.key_press KeyVal.right)

/-- On the second page, the installation of a desktop file is noticed when only
Calculator, Firefox and GIMP are left. -/
def ex_after_rescan : LauncherPlugin :=
  handle ex_env ex_second_page
    (Event.directory_changed GFileMonitorEvent.created (some "gimp.desktop") ex_sources_three)

/-- The plugin started on a system without applications and without a
configuration file. -/
def ex_start_none : LauncherPlugin :=
  launcher_construct ex_env.g_utf8_collate ex_env.g_unichar_isalpha ex_env.reread
    ex_sources_none none

/-- A fresh scan of Calculator, Firefox and GIMP next to the configuration file
`config_file`, before `load_configuration`. -/
def ex_fresh_three (config_file : Option String) : LauncherPlugin :=
  install_applications (launcher_new config_file)
    (load_applications_enhanced ex_collate ex_sources_three)

/-- In the three-application catalog Calculator is dragged to the empty space
at the end of the first row, which makes the order Firefox, GIMP, Calculator
and numbers the positions. -/
def ex_reordered : LauncherPlugin :=
  (on_drag_drop (on_drag_begin ex_three_apps (some 0)) 12345 650 0).1

/-- After that, GIMP is dropped onto Calculator, which creates a folder for the
two, and Firefox is hidden. -/
def ex_arranged : LauncherPlugin :=
  hide_application (on_drag_drop (on_drag_begin ex_reordered (some 2)) 12345 0 0).1 1

/-- The catalog `ex_arranged` saved and loaded again at the next start, with a
comparator that sees the records themselves. -/
def ex_arranged_reloaded : LauncherPlugin :=
  load_configuration ex_collate (fun _ => false) (fun heap app => heap app)
    (ex_fresh_three (some (save_configuration_xml ex_arranged)))

/-- The catalog `ex_reordered` saved and loaded again at the next start; the
memory behind the name strings, which the comparator of the final sort reads,
holds zeros. -/
def ex_reordered_reloaded : LauncherPlugin :=
  load_configuration ex_collate (fun _ => false) (fun _ _ => default)
    (ex_fresh_three (some (save_configuration_xml ex_reordered)))

/-- The same with a comparator that sees the records themselves. -/
def ex_reordered_reloaded_intended : LauncherPlugin :=
  load_configuration ex_collate (fun _ => false) (fun heap app => heap app)
    (ex_fresh_three (some (save_configuration_xml ex_reordered)))

/-- A native registry with one application whose name holds an ampersand. -/
def ex_sources_ampersand : Sources :=
  { all := [ex_app "Calculator", ex_app "R&D Tool"]
    snap_dir := none, flatpak_dir := none, user_flatpak_dir := none }

/-- Both applications of `ex_sources_ampersand` are hidden by the user. -/
def ex_ampersand_hidden : LauncherPlugin :=
  hide_application
    (hide_application
      (launcher_button_clicked
        (launcher_construct ex_collate (fun _ => false) (fun heap app => heap app)
          ex_sources_ampersand none)) 1) 0

/-- The next start of the plugin on the file written for `ex_ampersand_hidden`. -/
def ex_ampersand_reloaded : LauncherPlugin :=
  launcher_construct ex_collate (fun _ => false) (fun heap app => heap app)
    ex_sources_ampersand ex_ampersand_hidden.config_file

/-- A configuration file with two folders of the same id, as it comes about when
the clock value a folder id is made from repeats after a restart of the
machine. -/
def ex_config_same_id : String :=
  "<launcher-config><folders><folder id=\"folder_1\" name=\"One\" icon=\"folder\"/>" ++
  "<folder id=\"folder_1\" name=\"Two\" icon=\"folder\"/></folders></launcher-config>"

/-- The plugin started on Calculator, Firefox and GIMP with that file, the
overlay opened: the grid shows the buttons of the two folders, then the three
applications. -/
def ex_same_id : LauncherPlugin :=
  launcher_button_clicked
    (launcher_construct ex_collate (fun _ => false) (fun heap app => heap app)
      ex_sources_three (some ex_config_same_id))

/-- Calculator, once in folder `f1`, of the catalog `ex_two_folders`. -/
def ex_in_first_folder : LauncherPlugin :=
  add_app_to_folder ex_two_folders (some 7) "f1"

/-- A configuration file that gives GIMP the position 0 and Firefox the
position 1. -/
def ex_config_positions : String :=
  "<launcher-config><apps><app name=\"GIMP\" hidden=\"false\" position=\"0\"/>" ++
  "<app name=\"Firefox\" hidden=\"false\" position=\"1\"/></apps></launcher-config>"

/-- A start on Calculator, Firefox and GIMP with that file; the memory behind
the name strings, which the comparator of the final sort reads, holds zeros. -/
def ex_positions_loaded : LauncherPlugin :=
  load_configuration ex_collate (fun _ => false) (fun _ _ => default)
    (ex_fresh_three (some ex_config_positions))

/-- The same with a comparator that sees the records themselves. -/
def ex_positions_loaded_intended : LauncherPlugin :=
  load_configuration ex_collate (fun _ => false) (fun heap app => heap app)
    (ex_fresh_three (some ex_config_positions))

/-- A collation by code points, as `g_utf8_collate` gives in the C locale. -/
def ex_collate_codepoint (a b : String) : Int :=
  if a.data.map Char.toNat < b.data.map Char.toNat then -1
  else if a.data.map Char.toNat = b.data.map Char.toNat then 0
  else 1

/-- A native registry that yields GIMP, Calculator and Firefox in this order. -/
def ex_sources_unsorted : Sources :=
  { all := [ex_app "GIMP", ex_app "Calculator", ex_app "Firefox"]
    snap_dir := none, flatpak_dir := none, user_flatpak_dir := none }

/-- Firefox of the three-application catalog is hidden by the user. -/
def ex_one_hidden : LauncherPlugin := hide_application ex_three_apps 1

/-- Calculator of the three-application catalog is being dragged when the
installation of a desktop file is noticed: the catalog is rebuilt from the same
three applications, at the addresses 3, 4 and 5, and the grid is filled again. -/
def ex_rescan_mid_drag : LauncherPlugin :=
  handle ex_env (on_drag_begin ex_three_apps (some 0))
    (Event.directory_changed GFileMonitorEvent.created (some "gimp.desktop") ex_sources_three)

/-- A configuration file that names a folder, hides Firefox and places it first,
and in which the entry of GIMP is not closed. -/
def ex_config_broken : String :=
  "<launcher-config><folders><folder id=\"f1\" name=\"Work\"/></folders><apps>" ++
  "<app name=\"Firefox\" hidden=\"true\" position=\"0\"/>" ++
  "<app name=\"GIMP\" hidden=\"true\"</apps></launcher-config>"

/-- A start on Calculator, Firefox and GIMP with that file, with a comparator
that sees the records themselves. -/
def ex_broken_loaded : LauncherPlugin :=
  load_configuration ex_collate (fun _ => false) (fun heap app => heap app)
    (ex_fresh_three (some ex_config_broken))

/-- The catalog `ex_arranged` at the moment the installation of a desktop file
is noticed: the same three applications are found again. -/
def ex_arranged_rescanned : LauncherPlugin :=
  handle ex_env ex_arranged
    (Event.directory_changed GFileMonitorEvent.created (some "gimp.desktop") ex_sources_three)

/-- A restart of the plugin on the file `ex_arranged` has written. -/
def ex_arranged_restarted : LauncherPlugin :=
  launcher_construct ex_collate (fun _ => false) (fun heap app => heap app) ex_sources_three
    ex_arranged.config_file

/-- A configuration file that puts Firefox into a folder it does not name. -/
def ex_config_dangling : String :=
  "<launcher-config><folders></folders><apps>" ++
  "<app name=\"Firefox\" hidden=\"false\" position=\"-1\" folder=\"folder_9\"/>" ++
  "</apps></launcher-config>"

/-- A start on Calculator, Firefox and GIMP with that file. -/
def ex_dangling_loaded : LauncherPlugin :=
  load_configuration ex_collate (fun _ => false) (fun heap app => heap app)
    (ex_fresh_three (some ex_config_dangling))

/-- A configuration file that names one folder, Work. -/
def ex_config_one_folder : String :=
  "<launcher-config><folders><folder id=\"f1\" name=\"Work\"/></folders></launcher-config>"

/-- The plugin started on Calculator, Firefox and GIMP with that file, the
overlay opened. -/
def ex_one_folder : LauncherPlugin :=
  launcher_button_clicked
    (launcher_construct ex_collate (fun _ => false) (fun heap app => heap app)
      ex_sources_three (some ex_config_one_folder))

/-- A native registry with 30 applications `app0` ... `app29`. -/
def ex_sources_30 : Sources :=
  { all := (List.range 30).map (fun i => ex_app ("app" ++ fmt_d i))
    snap_dir := none, flatpak_dir := none, user_flatpak_dir := none }

/-- The plugin started on these 30 applications with the folder Work, the overlay
opened. -/
def ex_thirty_and_folder : LauncherPlugin :=
  launcher_button_clicked
    (launcher_construct ex_collate (fun _ => false) (fun heap app => heap app)
      ex_sources_30 (some ex_config_one_folder))

/-- The plugin started on the 31 applications of `ex_sources_31` with the folder
Work, the overlay opened. -/
def ex_thirty_one_and_folder : LauncherPlugin :=
  launcher_button_clicked
    (launcher_construct ex_collate (fun _ => false) (fun heap app => heap app)
      ex_sources_31 (some ex_config_one_folder))

/-- A catalog whose folder lists the application at address 7 once, while the
record does not refer to the folder. -/
def ex_member_without_reference : LauncherPlugin :=
  { launcher_new none with
    heap := fun p => if p = 7 then new_app_info ex_firefox_native else default
    heap_top := 8
    app_list := [7]
    folder_list :=
      [{ id := "f1", name := "One", icon := "folder", apps := [7], is_open := false }] }

/-- A record with the given position. -/
def ex_positioned (position : Int) : AppInfo :=
  { new_app_info (ex_app "app") with position := position }

/-- A configuration file that gives Firefox the position 2147483647 and GIMP the
position -2. -/
def ex_config_extreme : String :=
  "<launcher-config><apps><app name=\"Firefox\" hidden=\"false\" position=\"2147483647\"/>" ++
  "<app name=\"GIMP\" hidden=\"false\" position=\"-2\"/></apps></launcher-config>"

/-- A start on Calculator, Firefox and GIMP with that file, with a comparator
that sees the records themselves. -/
def ex_extreme_loaded : LauncherPlugin :=
  load_configuration ex_collate (fun _ => false) (fun heap app => heap app)
    (ex_fresh_three (some ex_config_extreme))

/-! # Theorems -/

/-! ## GLib list sort: the result is a rearrangement -/

theorem g_list_sort_merge_perm {α : Type} (cmp : α → α → Int) (l1 l2 : List α) :
    (g_list_sort_merge cmp l1 l2).Perm (l1 ++ l2) := by
  induction l1 generalizing l2 with
  | nil => simp [g_list_sort_merge]
  | cons a l1 ih =>
    simp only [g_list_sort_merge]
    induction l2 with
    | nil => simp [g_list_sort_merge_from]
    | cons b l2 ih2 =>
      simp only [g_list_sort_merge_from]
      split
      · exact (ih (b :: l2)).cons a
      · refine ((ih2).cons b).trans ?_
        simpa using (@List.perm_middle _ b (a :: l1) l2).symm

theorem g_list_sort_real_perm {α : Type} (cmp : α → α → Int) (depth : Nat) (l : List α) :
    (g_list_sort_real cmp depth l).Perm l := by
  induction depth generalizing l with
  | zero => simp [g_list_sort_real]
  | succ d ih =>
    simp only [g_list_sort_real]
    split
    · exact List.Perm.refl _
    · refine (g_list_sort_merge_perm cmp _ _).trans ?_
      refine ((ih _).append (ih _)).trans ?_
      rw [List.take_append_drop]

theorem g_list_sort_perm {α : Type} (cmp : α → α → Int) (l : List α) :
    (g_list_sort l cmp).Perm l :=
  g_list_sort_real_perm cmp l.length l

/-! ## Discovery -/

theorem foldl_load_standard_entry (l : List GAppInfo) (acc : List AppInfo) :
    l.foldl load_standard_entry acc
      = ((l.filter (·.should_show)).reverse.map new_app_info) ++ acc := by
  induction l generalizing acc with
  | nil => simp
  | cons g l ih =>
    simp only [List.foldl_cons, ih, load_standard_entry, g_list_prepend]
    by_cases h : g.should_show <;> simp [h, List.filter_cons]

theorem load_dir_eq (dir : Option (List DirEntry)) (acc : List AppInfo) :
    load_dir dir acc = ((dir_yield dir).reverse.map new_app_info) ++ acc := by
  cases dir with
  | none => simp [load_dir, dir_yield]
  | some entries =>
    simp only [load_dir, dir_yield]
    induction entries generalizing acc with
    | nil => simp
    | cons e l ih =>
      simp only [List.foldl_cons, ih, load_dir_entry, g_list_prepend, List.filterMap_cons]
      by_cases h : g_str_has_suffix e.filename ".desktop"
      · cases hd : e.desktop_info with
        | none => simp [h]
        | some g => by_cases hs : g.should_show <;> simp [h, hs]
      · simp [h]

/-- The list the duplicate-removal loop walks is the adapters' output in
reverse: every adapter prepends. -/
theorem load_all_sources_eq (src : Sources) :
    load_all_sources src = (adapter_output src).reverse.map new_app_info := by
  simp [load_all_sources, load_flatpak_applications, load_snap_applications, load_dir_eq,
    foldl_load_standard_entry, adapter_output, native_yield, snap_yield, flatpak_yield]

theorem dedup_seen_eq (l : List AppInfo) (st : List String × List AppInfo)
    (h : st.1 = st.2.map (·.name)) :
    (l.foldl dedup_step st).1 = (l.foldl dedup_step st).2.map (·.name) := by
  induction l generalizing st with
  | nil => simpa using h
  | cons a l ih =>
    simp only [List.foldl_cons]
    apply ih
    unfold dedup_step
    split
    · exact h
    · simp [g_list_prepend, h]

theorem dedup_nodup (l : List AppInfo) (st : List String × List AppInfo)
    (h : st.1 = st.2.map (·.name)) (hn : (st.2.map (·.name)).Nodup) :
    ((l.foldl dedup_step st).2.map (·.name)).Nodup := by
  induction l generalizing st with
  | nil => simpa using hn
  | cons a l ih =>
    simp only [List.foldl_cons]
    by_cases hm : a.name ∈ st.1
    · have : dedup_step st a = st := by simp [dedup_step, hm]
      rw [this]; exact ih st h hn
    · have e : dedup_step st a = (a.name :: st.1, a :: st.2) := by
        simp [dedup_step, hm, g_list_prepend]
      rw [e]
      apply ih
      · simp [h]
      · rw [h] at hm
        simpa using And.intro hm hn

/-- Every record kept by the duplicate-removal loop is the first record of its
name in the list the loop walks (or was kept before). -/
theorem dedup_first (l : List AppInfo) (st : List String × List AppInfo)
    (h : st.1 = st.2.map (·.name)) (a : AppInfo) :
    a ∈ (l.foldl dedup_step st).2 ↔
      a ∈ st.2 ∨ (a.name ∉ st.1 ∧ l.find? (fun b => b.name = a.name) = some a) := by
  induction l generalizing st with
  | nil => simp
  | cons b l ih =>
    simp only [List.foldl_cons]
    by_cases hm : b.name ∈ st.1
    · have e : dedup_step st b = st := by simp [dedup_step, hm]
      rw [e, ih st h]
      by_cases hb : b.name = a.name
      · have hb1 : a.name ∈ st.1 := hb ▸ hm
        simp [hb1]
      · simp [List.find?_cons, hb]
    · have e : dedup_step st b = (b.name :: st.1, b :: st.2) := by
        simp [dedup_step, hm, g_list_prepend]
      rw [e, ih _ (by simp [h])]
      by_cases hb : b.name = a.name
      · have hna : a.name ∉ st.1 := hb ▸ hm
        have hnot : a ∉ st.2 := by
          intro hmem
          apply hna
          rw [h]
          exact List.mem_map_of_mem _ hmem
        simp only [List.mem_cons, hb, true_or, not_true_eq_false, false_and, or_false,
          List.find?_cons, decide_True, Option.some.injEq, hna, not_false_eq_true, true_and,
          hnot, false_or]
        exact ⟨fun h1 => h1.symm, fun h1 => h1.symm⟩
      · have hab : ¬ a = b := fun hh => hb (by rw [hh])
        have hnb : ¬ a.name = b.name := fun hh => hb hh.symm
        simp [List.find?_cons, hb, hab, hnb]

theorem dedup_names (l : List AppInfo) (st : List String × List AppInfo) (n : String) :
    n ∈ (l.foldl dedup_step st).1 ↔ n ∈ st.1 ∨ n ∈ l.map (·.name) := by
  induction l generalizing st with
  | nil => simp
  | cons b l ih =>
    simp only [List.foldl_cons, ih]
    by_cases hm : b.name ∈ st.1
    · have e : dedup_step st b = st := by simp [dedup_step, hm]
      rw [e]
      simp only [List.map_cons, List.mem_cons]
      constructor
      · rintro (h1 | h1)
        · exact Or.inl h1
        · exact Or.inr (Or.inr h1)
      · rintro (h1 | h1 | h1)
        · exact Or.inl h1
        · exact Or.inl (h1 ▸ hm)
        · exact Or.inr h1
    · have e : dedup_step st b = (b.name :: st.1, b :: st.2) := by
        simp [dedup_step, hm, g_list_prepend]
      rw [e]
      simp only [List.map_cons, List.mem_cons]
      tauto

/-- The records `load_applications_enhanced` returns are exactly the records
the duplicate-removal loop keeps. -/
theorem mem_load_applications_enhanced (collate : String → String → Int) (src : Sources)
    (a : AppInfo) :
    a ∈ load_applications_enhanced collate src ↔
      (load_all_sources src).find? (fun b => b.name = a.name) = some a := by
  unfold load_applications_enhanced
  simp only
  rw [(g_list_sort_perm _ _).mem_iff, dedup_first _ _ rfl]
  simp

/-- Claim C1: the list returned by `load_applications_enhanced` holds no two
records of the same name, and the names in it are exactly the names that occur
in the adapters' output; every returned record is built from a yielded one. -/
theorem load_applications_enhanced_dedup (collate : String → String → Int) (src : Sources) :
    ((load_applications_enhanced collate src).map (·.name)).Nodup ∧
    (∀ n : String, n ∈ (load_applications_enhanced collate src).map (·.name) ↔
        n ∈ (adapter_output src).map (·.display_name)) ∧
    (∀ a ∈ load_applications_enhanced collate src,
        ∃ g ∈ adapter_output src, a = new_app_info g) := by
  have hperm := g_list_sort_perm (compare_app_names collate)
    ((load_all_sources src).foldl dedup_step ([], [])).2
  refine ⟨?_, ?_, ?_⟩
  · unfold load_applications_enhanced
    simp only
    rw [(hperm.map _).nodup_iff]
    exact dedup_nodup _ _ rfl (by simp)
  · intro n
    unfold load_applications_enhanced
    simp only
    rw [(hperm.map _).mem_iff, ← dedup_seen_eq _ _ rfl, dedup_names, load_all_sources_eq]
    simp [new_app_info]
  · intro a ha
    rw [mem_load_applications_enhanced, load_all_sources_eq] at ha
    have hmem := List.mem_of_find?_eq_some ha
    simp only [List.mem_map, List.mem_reverse] at hmem
    obtain ⟨g, hg, rfl⟩ := hmem
    exact ⟨g, hg, rfl⟩

/-- The retained record of a name is built from the last record of that name
the adapters yield. -/
theorem load_applications_enhanced_find (collate : String → String → Int) (src : Sources)
    (a : AppInfo) (ha : a ∈ load_applications_enhanced collate src) :
    (adapter_output src).reverse.find? (fun g => g.display_name = a.name)
        = some a.desktop_info ∧ a = new_app_info a.desktop_info := by
  rw [mem_load_applications_enhanced, load_all_sources_eq, List.find?_map] at ha
  cases hf : (adapter_output src).reverse.find?
      ((fun b : AppInfo => decide (b.name = a.name)) ∘ new_app_info) with
  | none => rw [hf] at ha; simp at ha
  | some g =>
    rw [hf] at ha
    simp only [Option.map_some', Option.some.injEq] at ha
    subst ha
    refine ⟨?_, rfl⟩
    simpa [Function.comp_def, new_app_info] using hf

/-- Claim C2, counterexample: the native registry and the flatpak directory each
yield a Firefox, and so do the native registry and the snap directory; the
record kept is the flatpak one, respectively the snap one, not the native one. -/
theorem load_applications_enhanced_native_loses :
    ex_firefox_native ∈ native_yield ex_sources_native_flatpak ∧
    ex_firefox_flatpak ∈ flatpak_yield ex_sources_native_flatpak ∧
    load_applications_enhanced ex_collate ex_sources_native_flatpak
      = [new_app_info ex_firefox_flatpak] ∧
    new_app_info ex_firefox_native ∉
      load_applications_enhanced ex_collate ex_sources_native_flatpak ∧
    ex_firefox_native ∈ native_yield ex_sources_native_snap ∧
    ex_firefox_snap ∈ snap_yield ex_sources_native_snap ∧
    load_applications_enhanced ex_collate ex_sources_native_snap
      = [new_app_info ex_firefox_snap] := by
  decide

/-- Claim C2, amended: the record `load_applications_enhanced` retains for a
name is the one yielded last.  A flatpak record wins over a snap or native
record of the same name, and a snap record wins over a native one. -/
theorem load_applications_enhanced_last_wins (collate : String → String → Int)
    (src : Sources) (a : AppInfo) (ha : a ∈ load_applications_enhanced collate src) :
    (adapter_output src).reverse.find? (fun g => g.display_name = a.name)
        = some a.desktop_info ∧
    a = new_app_info a.desktop_info ∧
    ((∃ g ∈ flatpak_yield src, g.display_name = a.name) →
        a.desktop_info ∈ flatpak_yield src) ∧
    ((∃ g ∈ snap_yield src, g.display_name = a.name) →
        (¬ ∃ g ∈ flatpak_yield src, g.display_name = a.name) →
        a.desktop_info ∈ snap_yield src) := by
  obtain ⟨hfind, hnew⟩ := load_applications_enhanced_find collate src a ha
  refine ⟨hfind, hnew, ?_, ?_⟩
  · rintro ⟨g, hg, hgn⟩
    simp only [adapter_output, List.reverse_append, List.append_assoc, List.find?_append] at hfind
    cases hf : (flatpak_yield src).reverse.find? (fun g => decide (g.display_name = a.name)) with
    | none =>
      rw [List.find?_eq_none] at hf
      exact absurd (by simpa using hgn) (hf g (by simpa using hg))
    | some g2 =>
      rw [hf] at hfind
      have hfind2 : some g2 = some a.desktop_info := hfind
      rw [← Option.some.inj hfind2]
      simpa using List.mem_of_find?_eq_some hf
  · rintro ⟨g, hg, hgn⟩ hno
    simp only [adapter_output, List.reverse_append, List.append_assoc, List.find?_append] at hfind
    have hf : (flatpak_yield src).reverse.find? (fun g => decide (g.display_name = a.name))
        = none := by
      rw [List.find?_eq_none]
      intro x hx hxn
      exact hno ⟨x, by simpa using hx, by simpa using hxn⟩
    rw [hf] at hfind
    have hfind1 : ((snap_yield src).reverse.find? (fun g => decide (g.display_name = a.name))).or
        ((native_yield src).reverse.find? (fun g => decide (g.display_name = a.name)))
        = some a.desktop_info := hfind
    cases hs : (snap_yield src).reverse.find? (fun g => decide (g.display_name = a.name)) with
    | none =>
      rw [List.find?_eq_none] at hs
      exact absurd (by simpa using hgn) (hs g (by simpa using hg))
    | some g2 =>
      rw [hs] at hfind1
      have hfind2 : some g2 = some a.desktop_info := hfind1
      rw [← Option.some.inj hfind2]
      simpa using List.mem_of_find?_eq_some hs

/-- Claim C2, amended, at the Firefox example. -/
theorem load_applications_enhanced_last_wins_witness :
    new_app_info ex_firefox_flatpak ∈
      load_applications_enhanced ex_collate ex_sources_native_flatpak ∧
    (new_app_info ex_firefox_flatpak).desktop_info ∈ flatpak_yield ex_sources_native_flatpak :=
  ⟨by decide,
   (load_applications_enhanced_last_wins ex_collate ex_sources_native_flatpak
      (new_app_info ex_firefox_flatpak) (by decide)).2.2.1
      ⟨ex_firefox_flatpak, by decide, by decide⟩⟩

/-! ## Folders -/

theorem find_folder_index_none {fl : List FolderInfo} {id : String}
    (h : find_folder_index fl id = none) : ∀ F ∈ fl, F.id ≠ id := by
  induction fl with
  | nil => simp
  | cons x xs ih =>
    simp only [find_folder_index] at h
    split at h
    · simp at h
    · rename_i hx
      simp only [Option.map_eq_none'] at h
      intro F hF
      rcases List.mem_cons.1 hF with rfl | hF
      · exact hx
      · exact ih h F hF

/-- With distinct ids, storing through the pointer `find_folder_by_id` returns
changes exactly the folders of that id. -/
theorem modify_folder_eq_map {fl : List FolderInfo} {id : String} {i : Nat}
    (f : FolderInfo → FolderInfo) (hd : (fl.map (·.id)).Nodup)
    (h : find_folder_index fl id = some i) :
    modify_folder f fl i = fl.map (fun F => if F.id = id then f F else F) := by
  induction fl generalizing i with
  | nil => simp [find_folder_index] at h
  | cons x xs ih =>
    simp only [find_folder_index] at h
    simp only [List.map_cons, List.nodup_cons] at hd
    split at h
    · rename_i hx
      simp only [Option.some.injEq] at h
      subst h
      simp only [modify_folder, List.map_cons, hx, if_true, List.cons.injEq, true_and]
      symm
      calc xs.map (fun F => if F.id = id then f F else F)
          = xs.map (fun F => F) := by
            apply List.map_congr_left
            intro F hF
            have : F.id ≠ id := by
              intro hFid
              apply hd.1
              rw [hx, ← hFid]
              exact List.mem_map_of_mem _ hF
            simp [this]
        _ = xs := by simp
    · rename_i hx
      cases hj : find_folder_index xs id with
      | none => rw [hj] at h; simp at h
      | some j =>
        rw [hj] at h
        simp only [Option.map_some', Option.some.injEq] at h
        subst h
        simp [modify_folder, hx, ih hd.2 hj]

theorem map_if_id_of_none {fl : List FolderInfo} {id : String} (f : FolderInfo → FolderInfo)
    (h : find_folder_index fl id = none) :
    fl.map (fun F => if F.id = id then f F else F) = fl := by
  have hne := find_folder_index_none h
  calc fl.map (fun F => if F.id = id then f F else F)
      = fl.map (fun F => F) := by
        apply List.map_congr_left
        intro F hF
        simp [hne F hF]
    _ = fl := by simp

theorem find_folder_index_map (fl : List FolderInfo) (id : String)
    (g : FolderInfo → FolderInfo) (hg : ∀ F, (g F).id = F.id) :
    find_folder_index (fl.map g) id = find_folder_index fl id := by
  induction fl with
  | nil => rfl
  | cons x xs ih => simp [find_folder_index, hg, ih]

theorem add_to_folder_apps_id (launcher : LauncherPlugin) (app : AppPtr) (folder_id : String)
    (F : FolderInfo) : (add_to_folder_apps launcher app folder_id F).id = F.id := rfl

theorem nodup_append_singleton {α : Type} {l : List α} {a : α} :
    (l ++ [a]).Nodup ↔ a ∉ l ∧ l.Nodup := by
  rw [List.nodup_append_comm, List.singleton_append, List.nodup_cons]

theorem add_app_to_folder_eq (launcher : LauncherPlugin) (app : AppPtr) (folder_id : String)
    (i : Nat) (hd : folder_ids_distinct launcher)
    (h : find_folder_by_id launcher folder_id = some i) :
    add_app_to_folder launcher (some app) folder_id =
      { launcher with
        heap := store launcher.heap app { launcher.heap app with folder_id := some folder_id }
        folder_list := launcher.folder_list.map (add_to_folder_apps launcher app folder_id) } := by
  unfold folder_ids_distinct at hd
  unfold find_folder_by_id at h
  have key : ∀ (f1 : FolderInfo → FolderInfo), (∀ F, (f1 F).id = F.id) →
      modify_folder (fun f => { f with apps := g_list_append f.apps app })
        (launcher.folder_list.map f1) i
      = (launcher.folder_list.map f1).map
          (fun F => if F.id = folder_id then { F with apps := g_list_append F.apps app } else F) := by
    intro f1 hf1
    apply modify_folder_eq_map
    · rw [List.map_map]
      have : ((fun x : FolderInfo => x.id) ∘ f1) = (fun x : FolderInfo => x.id) := by
        funext F; simp [hf1]
      rw [this]; exact hd
    · rw [find_folder_index_map _ _ _ hf1]; exact h
  unfold add_app_to_folder
  simp only [find_folder_by_id, h]
  congr 1
  cases hfo : (launcher.heap app).folder_id with
  | none =>
    simp only
    have := key id (fun _ => rfl)
    simp only [List.map_id] at this
    rw [this]
    apply List.map_congr_left
    intro F _
    cases F with
    | mk fid fname ficon fapps fopen =>
      by_cases h2 : fid = folder_id <;> simp [add_to_folder_apps, hfo, h2]
  | some old_id =>
    simp only
    have hmap : (match find_folder_index launcher.folder_list old_id with
        | some old_folder =>
          modify_folder (fun f => { f with apps := g_list_remove f.apps app })
            launcher.folder_list old_folder
        | none => launcher.folder_list)
        = launcher.folder_list.map
            (fun F => if F.id = old_id then { F with apps := g_list_remove F.apps app } else F) := by
      cases ho : find_folder_index launcher.folder_list old_id with
      | none => simp only; rw [map_if_id_of_none _ ho]
      | some j => simp only; exact modify_folder_eq_map _ hd ho
    rw [hmap, key _ (by intro F; by_cases hF : F.id = old_id <;> simp [hF]), List.map_map]
    apply List.map_congr_left
    intro F _
    cases F with
    | mk fid fname ficon fapps fopen =>
      simp only [Function.comp, add_to_folder_apps, hfo, Option.some.injEq]
      by_cases h1 : fid = old_id
      · subst h1
        by_cases h2 : fid = folder_id
        · subst h2; simp
        · simp [h2]
      · have h1s : ¬ old_id = fid := fun hh => h1 hh.symm
        by_cases h2 : fid = folder_id
        · subst h2; simp [h1, h1s]
        · simp [h1, h1s, h2]

theorem remove_app_from_folder_eq (launcher : LauncherPlugin) (app : AppPtr) (old_id : String)
    (hd : folder_ids_distinct launcher) (h : (launcher.heap app).folder_id = some old_id) :
    remove_app_from_folder launcher (some app) =
      { launcher with
        heap := store launcher.heap app { launcher.heap app with folder_id := none }
        folder_list := launcher.folder_list.map (remove_from_folder_apps launcher app) } := by
  unfold folder_ids_distinct at hd
  unfold remove_app_from_folder
  simp only [h, find_folder_by_id]
  congr 1
  have hmap : (match find_folder_index launcher.folder_list old_id with
      | some old_folder =>
        modify_folder (fun f => { f with apps := g_list_remove f.apps app })
          launcher.folder_list old_folder
      | none => launcher.folder_list)
      = launcher.folder_list.map
          (fun F => if F.id = old_id then { F with apps := g_list_remove F.apps app } else F) := by
    cases ho : find_folder_index launcher.folder_list old_id with
    | none => simp only; rw [map_if_id_of_none _ ho]
    | some j => simp only; exact modify_folder_eq_map _ hd ho
  rw [hmap]
  apply List.map_congr_left
  intro F _
  cases F with
  | mk fid fname ficon fapps fopen =>
    simp only [remove_from_folder_apps, h, Option.some.injEq]
    by_cases h1 : fid = old_id
    · subst h1; simp
    · have h1s : ¬ old_id = fid := fun hh => h1 hh.symm
      simp [h1, h1s]

/-- Membership in a member list after `add_app_to_folder` acted. -/
theorem mem_add_to_folder_apps (launcher : LauncherPlugin) (A B : AppPtr) (folder_id : String)
    (F : FolderInfo) (hF_inv : ∀ app, (launcher.heap app).folder_id = some F.id ↔ app ∈ F.apps)
    (hF_nd : F.apps.Nodup) :
    B ∈ (add_to_folder_apps launcher A folder_id F).apps ↔
      (B = A ∧ F.id = folder_id) ∨ (B ≠ A ∧ B ∈ F.apps) := by
  have herase : ∀ {X : AppPtr}, X ∈ F.apps.erase A ↔ X ≠ A ∧ X ∈ F.apps :=
    fun {X} => hF_nd.mem_erase_iff
  simp only [add_to_folder_apps, g_list_append, g_list_remove]
  by_cases h2 : F.id = folder_id
  · subst h2
    by_cases h1 : (launcher.heap A).folder_id = some F.id
    · simp only [if_true, h1, List.mem_append, List.mem_singleton, herase]
      tauto
    · have hA : A ∉ F.apps := fun hm => h1 ((hF_inv A).2 hm)
      simp only [if_true, h1, if_false, List.mem_append, List.mem_singleton]
      constructor
      · rintro (hm | rfl)
        · exact Or.inr ⟨fun hBA => hA (hBA ▸ hm), hm⟩
        · exact Or.inl ⟨rfl, trivial⟩
      · rintro (⟨rfl, _⟩ | ⟨_, hm⟩)
        · exact Or.inr rfl
        · exact Or.inl hm
  · by_cases h1 : (launcher.heap A).folder_id = some F.id
    · simp only [h2, if_false, h1, if_true, herase]
      tauto
    · have hA : A ∉ F.apps := fun hm => h1 ((hF_inv A).2 hm)
      simp only [h2, if_false, h1]
      constructor
      · intro hm
        exact Or.inr ⟨fun hBA => hA (hBA ▸ hm), hm⟩
      · rintro (⟨_, hf⟩ | ⟨_, hm⟩)
        · exact absurd hf (by simp)
        · exact hm

theorem add_to_folder_apps_nodup (launcher : LauncherPlugin) (A : AppPtr) (folder_id : String)
    (F : FolderInfo) (hF_inv : ∀ app, (launcher.heap app).folder_id = some F.id ↔ app ∈ F.apps)
    (hF_nd : F.apps.Nodup) :
    (add_to_folder_apps launcher A folder_id F).apps.Nodup := by
  simp only [add_to_folder_apps, g_list_append, g_list_remove]
  by_cases h2 : F.id = folder_id
  · subst h2
    by_cases h1 : (launcher.heap A).folder_id = some F.id
    · simp only [if_true, h1]
      rw [nodup_append_singleton]
      refine ⟨?_, hF_nd.erase A⟩
      rw [hF_nd.mem_erase_iff]
      simp
    · have hA : A ∉ F.apps := fun hm => h1 ((hF_inv A).2 hm)
      simp only [if_true, h1, if_false]
      rw [nodup_append_singleton]
      exact ⟨hA, hF_nd⟩
  · by_cases h1 : (launcher.heap A).folder_id = some F.id
    · simp only [h2, if_false, h1, if_true]
      exact hF_nd.erase A
    · simp only [h2, if_false, h1]
      exact hF_nd

theorem add_app_to_folder_consistent (launcher : LauncherPlugin) (app : Option AppPtr)
    (folder_id : String) (h : folders_consistent launcher) :
    folders_consistent (add_app_to_folder launcher app folder_id) := by
  obtain ⟨hd, hinv, hnd⟩ := h
  cases hfind : find_folder_by_id launcher folder_id with
  | none =>
    have : add_app_to_folder launcher app folder_id = launcher := by
      unfold add_app_to_folder; simp [hfind]
    rw [this]; exact ⟨hd, hinv, hnd⟩
  | some i =>
    cases app with
    | none =>
      have : add_app_to_folder launcher none folder_id = launcher := by
        unfold add_app_to_folder; simp [hfind]
      rw [this]; exact ⟨hd, hinv, hnd⟩
    | some A =>
      rw [add_app_to_folder_eq launcher A folder_id i hd hfind]
      refine ⟨?_, ?_, ?_⟩
      · unfold folder_ids_distinct
        simp only [List.map_map]
        have : ((fun x : FolderInfo => x.id) ∘ add_to_folder_apps launcher A folder_id)
            = (fun x : FolderInfo => x.id) := by
          funext F; rfl
        rw [this]; exact hd
      · intro F' hF' B
        simp only [List.mem_map] at hF'
        obtain ⟨F, hF, rfl⟩ := hF'
        rw [add_to_folder_apps_id, mem_add_to_folder_apps launcher A B folder_id F (hinv F hF)
          (hnd F hF)]
        by_cases hB : B = A
        · subst hB
          simp only [store, if_true, Option.some.injEq, true_and, ne_eq, not_true_eq_false,
            false_and, or_false]
          exact ⟨fun hh => hh.symm, fun hh => hh.symm⟩
        · simp only [store, hB, if_false, false_and, ne_eq, not_false_eq_true, true_and,
            false_or]
          exact hinv F hF B
      · intro F' hF'
        simp only [List.mem_map] at hF'
        obtain ⟨F, hF, rfl⟩ := hF'
        exact add_to_folder_apps_nodup launcher A folder_id F (hinv F hF) (hnd F hF)

theorem remove_app_from_folder_consistent (launcher : LauncherPlugin) (app : Option AppPtr)
    (h : folders_consistent launcher) :
    folders_consistent (remove_app_from_folder launcher app) := by
  obtain ⟨hd, hinv, hnd⟩ := h
  cases app with
  | none => exact ⟨hd, hinv, hnd⟩
  | some A =>
    cases hfo : (launcher.heap A).folder_id with
    | none =>
      have : remove_app_from_folder launcher (some A) = launcher := by
        unfold remove_app_from_folder; simp [hfo]
      rw [this]; exact ⟨hd, hinv, hnd⟩
    | some old_id =>
      rw [remove_app_from_folder_eq launcher A old_id hd hfo]
      refine ⟨?_, ?_, ?_⟩
      · unfold folder_ids_distinct
        simp only [List.map_map]
        have : ((fun x : FolderInfo => x.id) ∘ remove_from_folder_apps launcher A)
            = (fun x : FolderInfo => x.id) := by
          funext F; rfl
        rw [this]; exact hd
      · intro F' hF' B
        simp only [List.mem_map] at hF'
        obtain ⟨F, hF, rfl⟩ := hF'
        have hF_inv := hinv F hF
        have hF_nd := hnd F hF
        show (store launcher.heap A { launcher.heap A with folder_id := none } B).folder_id
            = some F.id ↔ B ∈ (remove_from_folder_apps launcher A F).apps
        simp only [remove_from_folder_apps, g_list_remove]
        by_cases hB : B = A
        · subst hB
          simp only [store, if_true, false_iff]
          by_cases h1 : (launcher.heap B).folder_id = some F.id
          · simp only [h1, if_true]
            rw [hF_nd.mem_erase_iff]
            simp
          · simp only [h1, if_false]
            constructor
            · intro hh; exact absurd hh (by simp)
            · exact fun hmem => absurd ((hF_inv B).2 hmem) h1
        · simp only [store, hB, if_false]
          rw [hF_inv B]
          by_cases h1 : (launcher.heap A).folder_id = some F.id
          · simp only [h1, if_true]
            rw [hF_nd.mem_erase_iff]
            simp [hB]
          · simp only [h1, if_false]
      · intro F' hF'
        simp only [List.mem_map] at hF'
        obtain ⟨F, hF, rfl⟩ := hF'
        have hF_nd := hnd F hF
        simp only [remove_from_folder_apps, g_list_remove]
        by_cases h1 : (launcher.heap A).folder_id = some F.id
        · simp only [h1, if_true]
          exact hF_nd.erase A
        · simpa [h1] using hF_nd

theorem run_folder_ops_consistent (ops : List FolderOp) (launcher : LauncherPlugin)
    (h : folders_consistent launcher) :
    folders_consistent (ops.foldl run_folder_op launcher) := by
  induction ops generalizing launcher with
  | nil => exact h
  | cons op ops ih =>
    simp only [List.foldl_cons]
    apply ih
    cases op with
    | add app folder_id => exact add_app_to_folder_consistent launcher app folder_id h
    | remove app => exact remove_app_from_folder_consistent launcher app h

theorem ex_twice_in_folder_invariant : folder_invariant ex_twice_in_folder := by
  intro F hF A
  simp only [ex_twice_in_folder, launcher_new, List.mem_cons, List.mem_singleton,
    List.not_mem_nil, or_false] at hF
  rcases hF with rfl | rfl
  · by_cases hA : A = 7
    · subst hA; simp [ex_twice_in_folder]
    · simp only [ex_twice_in_folder, hA, if_false, List.mem_cons, List.mem_singleton,
        List.not_mem_nil, or_false, or_self, iff_false]
      decide
  · by_cases hA : A = 7
    · subst hA; simp [ex_twice_in_folder]
    · simp only [ex_twice_in_folder, hA, if_false, List.not_mem_nil, iff_false]
      decide

/-- Claim C3, counterexample: a catalog with distinct folder ids in which the
folder invariant holds, but whose first folder lists application 7 twice; one
`add_app_to_folder` call moving 7 to the second folder breaks the invariant,
as only the first occurrence is removed from the old member list. -/
theorem folder_invariant_broken_by_add :
    folder_ids_distinct ex_twice_in_folder ∧
    folder_invariant ex_twice_in_folder ∧
    ¬ folder_invariant (add_app_to_folder ex_twice_in_folder (some 7) "f2") := by
  refine ⟨by unfold folder_ids_distinct; decide, ex_twice_in_folder_invariant, ?_⟩
  intro h
  have h1 := h { id := "f1", name := "One", icon := "folder", apps := [7], is_open := false }
    (by decide) 7
  have h2 : ((add_app_to_folder ex_twice_in_folder (some 7) "f2").heap 7).folder_id
      = some "f2" := by decide
  rw [h2] at h1
  exact absurd (h1.2 (by decide)) (by decide)

/-- Claim C3, amended: for every catalog whose folder ids are pairwise distinct,
in which the folder invariant holds and in which no member list names an
application twice, all three properties still hold after any finite sequence
of `add_app_to_folder` and `remove_app_from_folder` calls with arbitrary
applications and folder ids. -/
theorem folder_invariant_preserved (ops : List FolderOp) (launcher : LauncherPlugin)
    (hd : folder_ids_distinct launcher) (hinv : folder_invariant launcher)
    (hnd : members_distinct launcher) :
    folder_invariant (ops.foldl run_folder_op launcher) ∧
    folder_ids_distinct (ops.foldl run_folder_op launcher) ∧
    members_distinct (ops.foldl run_folder_op launcher) := by
  obtain ⟨h1, h2, h3⟩ := run_folder_ops_consistent ops launcher ⟨hd, hinv, hnd⟩
  exact ⟨h2, h1, h3⟩

theorem ex_two_folders_invariant : folder_invariant ex_two_folders := by
  intro F hF A
  simp only [ex_two_folders, launcher_new, List.mem_cons, List.mem_singleton,
    List.not_mem_nil, or_false] at hF
  rcases hF with rfl | rfl <;>
  · by_cases hA : A = 7
    · subst hA; simp [ex_two_folders, new_app_info]
    · simp only [ex_two_folders, hA, if_false, List.not_mem_nil, iff_false]
      decide

/-- Claim C3, amended, on a run that moves application 7 into the first folder,
then into the second, and takes it out again. -/
theorem folder_invariant_preserved_witness :
    folder_invariant
      ([FolderOp.add (some 7) "f1", FolderOp.add (some 7) "f2", FolderOp.remove (some 7)].foldl
        run_folder_op ex_two_folders) :=
  (folder_invariant_preserved
    [FolderOp.add (some 7) "f1", FolderOp.add (some 7) "f2", FolderOp.remove (some 7)]
    ex_two_folders (by unfold folder_ids_distinct; decide) ex_two_folders_invariant
    (by intro F hF; simp only [ex_two_folders, launcher_new, List.mem_cons,
          List.mem_singleton, List.not_mem_nil, or_false] at hF
        rcases hF with rfl | rfl <;> exact List.nodup_nil)).1

/-! ## Page count -/

/-- Claim C8, counterexample: with Calculator, Firefox and GIMP, searching for a
text that occurs in no name leaves nothing visible, and `update_page_dots`
(called by `on_search_changed`) sets `total_pages` to 0, not to 1. -/
theorem total_pages_zero_when_nothing_visible :
    (on_search_changed ex_strdown ex_three_apps "zzz").filtered_list = [] ∧
    shown_apps (on_search_changed ex_strdown ex_three_apps "zzz") = [] ∧
    (on_search_changed ex_strdown ex_three_apps "zzz").total_pages = 0 ∧
    (on_search_changed ex_strdown ex_three_apps "zzz").total_pages
      ≠ max 1 ⌈((shown_apps (on_search_changed ex_strdown ex_three_apps "zzz")).length : ℚ) / 30⌉ := by
  have h1 : (on_search_changed ex_strdown ex_three_apps "zzz").filtered_list = [] := by decide
  have h2 : shown_apps (on_search_changed ex_strdown ex_three_apps "zzz") = [] := by decide
  have h3 : (on_search_changed ex_strdown ex_three_apps "zzz").total_pages = 0 := by decide
  refine ⟨h1, h2, h3, ?_⟩
  rw [h3, h2]
  simp

theorem ceil_div_thirty (n : Nat) : ⌈(n : ℚ) / 30⌉ = (((n + 29) / 30 : Nat) : Int) := by
  obtain ⟨q, hq⟩ : ∃ q, q = (n + 29) / 30 := ⟨_, rfl⟩
  rw [← hq]
  have h1 : 30 * q ≤ n + 29 := by omega
  have h2 : n ≤ 30 * q := by omega
  rw [Int.ceil_eq_iff]
  have h1q : (30 : ℚ) * q ≤ n + 29 := by exact_mod_cast h1
  have h2q : (n : ℚ) ≤ 30 * q := by exact_mod_cast h2
  constructor
  · rw [lt_div_iff₀ (by norm_num)]
    simp only [Int.cast_natCast]
    linarith
  · rw [div_le_iff₀ (by norm_num)]
    simp only [Int.cast_natCast]
    linarith

/-- Claim C8, amended: the page count `update_page_dots` computes is
`ceil (L / 30)` for the number `L` of entries of `filtered_list` (hidden and
foldered applications included, `L + 29 < 2^32`); it is 0 when the list is
empty and at least 1 otherwise. -/
theorem update_page_dots_total_pages (launcher : LauncherPlugin)
    (h : launcher.filtered_list.length + 29 < 2 ^ 32) :
    (update_page_dots launcher).total_pages = ⌈(launcher.filtered_list.length : ℚ) / 30⌉ ∧
    ((update_page_dots launcher).total_pages = 0 ↔ launcher.filtered_list = []) ∧
    (launcher.filtered_list ≠ [] → 1 ≤ (update_page_dots launcher).total_pages) := by
  have hlen : g_list_length launcher.filtered_list = launcher.filtered_list.length := by
    unfold g_list_length
    exact Nat.mod_eq_of_lt (by omega)
  have htp : (update_page_dots launcher).total_pages
      = (((launcher.filtered_list.length + 29) / 30 : Nat) : Int) := by
    simp only [update_page_dots, hlen, APPS_PER_PAGE]
    have : (launcher.filtered_list.length + 30 - 1) % 2 ^ 32
        = launcher.filtered_list.length + 29 := by
      rw [Nat.mod_eq_of_lt (by omega)]; omega
    rw [this]
  refine ⟨by rw [htp, ceil_div_thirty], ?_, ?_⟩
  · rw [htp]
    constructor
    · intro h0
      have h0n : (launcher.filtered_list.length + 29) / 30 = 0 := by exact_mod_cast h0
      have : launcher.filtered_list.length = 0 := by omega
      exact List.length_eq_zero.1 this
    · intro he
      rw [he]; rfl
  · intro hne
    rw [htp]
    have hpos : 0 < launcher.filtered_list.length := List.length_pos.2 hne
    have : 1 ≤ (launcher.filtered_list.length + 29) / 30 := by omega
    exact_mod_cast this

/-- Claim C8, amended, on the three-application catalog: one page. -/
theorem update_page_dots_total_pages_witness :
    ex_three_apps.filtered_list.length + 29 < 2 ^ 32 ∧
    (update_page_dots ex_three_apps).total_pages
      = ⌈(ex_three_apps.filtered_list.length : ℚ) / 30⌉ :=
  ⟨by decide, (update_page_dots_total_pages ex_three_apps (by decide)).1⟩

/-! ## Search -/

theorem strstr_nil (haystack : List Char) : strstr haystack [] = true := by
  cases haystack <;> simp [strstr]

theorem foldl_search_step (strdown : String → String) (launcher : LauncherPlugin)
    (search_lower : String) (l acc : List AppPtr) :
    l.foldl (search_step strdown launcher search_lower) acc
      = acc ++ l.filter (fun app =>
          !(launcher.heap app).is_hidden &&
            strstr (strdown (launcher.heap app).name).data search_lower.data) := by
  induction l generalizing acc with
  | nil => simp
  | cons a l ih =>
    simp only [List.foldl_cons, ih, search_step, g_list_append, List.filter_cons]
    by_cases h1 : (launcher.heap a).is_hidden <;>
      by_cases h2 : strstr (strdown (launcher.heap a).name).data search_lower.data <;>
      simp [h1, h2]

/-- Claim C10: in the root view, for every catalog and every search text, the
applications `on_search_changed` and the skip test of `populate_current_page`
leave visible are exactly the applications of `app_list`, in that order, that
are neither hidden nor foldered and whose lowercased name contains the
lowercased search text. -/
theorem search_shows_matching (g_utf8_strdown : String → String) (launcher : LauncherPlugin)
    (search_text : String) (hroot : launcher.open_folder = none)
    (hdown : g_utf8_strdown "" = "") :
    shown_apps (on_search_changed g_utf8_strdown launcher search_text)
      = launcher.app_list.filter (fun app =>
          !(launcher.heap app).is_hidden && (launcher.heap app).folder_id.isNone &&
            strstr (g_utf8_strdown (launcher.heap app).name).data
              (g_utf8_strdown search_text).data) := by
  have hskip : ∀ app, populate_skips (on_search_changed g_utf8_strdown launcher search_text) app
      = ((launcher.heap app).is_hidden || (launcher.heap app).folder_id.isSome) := by
    intro app
    simp [populate_skips, on_search_changed, update_page_dots, populate_current_page, hroot]
  have hdisp : apps_to_display (on_search_changed g_utf8_strdown launcher search_text)
      = (on_search_changed g_utf8_strdown launcher search_text).filtered_list := by
    simp [apps_to_display, on_search_changed, update_page_dots, populate_current_page, hroot]
  unfold shown_apps
  rw [hdisp]
  simp only [hskip]
  by_cases ht : search_text.length = 0
  · have hnil : search_text = "" := by
      cases search_text with
      | mk data =>
        have : data = [] := List.length_eq_zero.1 ht
        rw [this]
    subst hnil
    have hfl : (on_search_changed g_utf8_strdown launcher "").filtered_list
        = launcher.app_list := by
      simp [on_search_changed, update_page_dots, populate_current_page, g_list_copy]
    rw [hfl, hdown]
    apply List.filter_congr
    intro app _
    have : ("" : String).data = [] := rfl
    rw [this, strstr_nil]
    cases (launcher.heap app).is_hidden <;> cases (launcher.heap app).folder_id <;> simp
  · have hfl : (on_search_changed g_utf8_strdown launcher search_text).filtered_list
        = launcher.app_list.filter (fun app =>
          !(launcher.heap app).is_hidden &&
            strstr (g_utf8_strdown (launcher.heap app).name).data
              (g_utf8_strdown search_text).data) := by
      simp [on_search_changed, update_page_dots, populate_current_page, ht, foldl_search_step]
    rw [hfl, List.filter_filter]
    apply List.filter_congr
    intro app _
    cases (launcher.heap app).is_hidden <;> cases (launcher.heap app).folder_id <;> simp

/-- Claim C10 on the example of the specification: with Calculator, Firefox and
GIMP, the text "fi" leaves Firefox. -/
theorem search_shows_matching_witness :
    ex_three_apps.open_folder = none ∧ ex_strdown "" = "" ∧
    shown_apps (on_search_changed ex_strdown ex_three_apps "fi")
      = ex_three_apps.app_list.filter (fun app =>
          !(ex_three_apps.heap app).is_hidden && (ex_three_apps.heap app).folder_id.isNone &&
            strstr (ex_strdown (ex_three_apps.heap app).name).data (ex_strdown "fi").data) ∧
    (ex_three_apps.app_list.map (fun app => (ex_three_apps.heap app).name)
      = ["Calculator", "Firefox", "GIMP"]) ∧
    ((shown_apps (on_search_changed ex_strdown ex_three_apps "fi")).map
      (fun app => (ex_three_apps.heap app).name) = ["Firefox"]) :=
  ⟨by decide, by decide,
   search_shows_matching ex_strdown ex_three_apps "fi" (by decide) (by decide),
   by decide, by decide⟩

/-! ## Page index -/

/-- The fields the page invariant reads. -/
theorem page_invariant_congr {s t : LauncherPlugin} (h1 : t.current_page = s.current_page)
    (h2 : t.total_pages = s.total_pages) (h3 : t.filtered_list = s.filtered_list)
    (h4 : t.overlay_window = s.overlay_window) (h : page_invariant s) : page_invariant t := by
  unfold page_invariant at *
  rw [h1, h2, h3, h4]
  exact h

theorem add_app_to_folder_current_page (s : LauncherPlugin) (app : Option AppPtr)
    (folder_id : String) : (add_app_to_folder s app folder_id).current_page = s.current_page := by
  unfold add_app_to_folder
  split <;> rfl

theorem add_app_to_folder_total_pages (s : LauncherPlugin) (app : Option AppPtr)
    (folder_id : String) : (add_app_to_folder s app folder_id).total_pages = s.total_pages := by
  unfold add_app_to_folder
  split <;> rfl

theorem add_app_to_folder_filtered_list (s : LauncherPlugin) (app : Option AppPtr)
    (folder_id : String) :
    (add_app_to_folder s app folder_id).filtered_list = s.filtered_list := by
  unfold add_app_to_folder
  split <;> rfl

theorem add_app_to_folder_overlay_window (s : LauncherPlugin) (app : Option AppPtr)
    (folder_id : String) :
    (add_app_to_folder s app folder_id).overlay_window = s.overlay_window := by
  unfold add_app_to_folder
  split <;> rfl

/-- Refreshing the grid and the dots re-establishes the invariant when the
page index fits the page count of the filtered list. -/
theorem page_invariant_refresh (s : LauncherPlugin) (h0 : 0 ≤ s.current_page)
    (h1 : s.overlay_window = some true → s.current_page ≤ max 0 (page_count s.filtered_list - 1))
    (h2 : s.overlay_window ≠ some true → s.current_page = 0) :
    page_invariant (update_page_dots (populate_current_page s)) :=
  ⟨h0, fun hs => ⟨rfl, h1 hs⟩, h2⟩

theorem page_invariant_refresh_zero (s : LauncherPlugin) (h0 : s.current_page = 0) :
    page_invariant (update_page_dots (populate_current_page s)) :=
  page_invariant_refresh s (by rw [h0]) (fun _ => by rw [h0]; exact le_max_left _ _)
    (fun _ => h0)

theorem page_invariant_back (s : LauncherPlugin) (h : page_invariant s)
    (hs : s.overlay_window = some true) :
    page_invariant (refresh_if_changed (page_back s)) := by
  obtain ⟨h0, h1, h2⟩ := h
  obtain ⟨htp, hle⟩ := h1 hs
  unfold page_back refresh_if_changed
  split
  · rename_i hpos
    simp only [if_true]
    apply page_invariant_refresh
    · show 0 ≤ s.current_page - 1
      omega
    · intro _
      show s.current_page - 1 ≤ max 0 (page_count s.filtered_list - 1)
      rw [← htp]
      exact le_trans (by omega) hle
    · intro hn
      exact absurd hs hn
  · simp only [Bool.false_eq_true, if_false]
    exact ⟨h0, h1, h2⟩

theorem page_invariant_forward (s : LauncherPlugin) (h : page_invariant s)
    (hs : s.overlay_window = some true) :
    page_invariant (refresh_if_changed (page_forward s)) := by
  obtain ⟨h0, h1, h2⟩ := h
  obtain ⟨htp, hle⟩ := h1 hs
  unfold page_forward refresh_if_changed
  split
  · rename_i hlt
    simp only [if_true]
    apply page_invariant_refresh
    · show 0 ≤ s.current_page + 1
      omega
    · intro _
      show s.current_page + 1 ≤ max 0 (page_count s.filtered_list - 1)
      rw [← htp]
      exact le_trans (by omega) (le_max_right _ _)
    · intro hn
      exact absurd hs hn
  · simp only [Bool.false_eq_true, if_false]
    exact ⟨h0, h1, h2⟩

theorem swipe_eq (s : LauncherPlugin) (vx vy : ℚ) :
    on_swipe_gesture s vx vy = refresh_if_changed (page_back s) ∨
    on_swipe_gesture s vx vy = refresh_if_changed (page_forward s) ∨
    on_swipe_gesture s vx vy = s := by
  unfold on_swipe_gesture
  by_cases h1 : vx > 0 ∧ s.current_page > 0
  · left
    rw [if_pos h1]
    simp [page_back, h1.2]
  · rw [if_neg h1]
    by_cases h2 : vx < 0 ∧ s.current_page < s.total_pages - 1
    · right; left
      rw [if_pos h2]
      simp [page_forward, h2.2]
    · right; right
      rw [if_neg h2]
      rfl

theorem scroll_eq (s : LauncherPlugin) (event : GdkEventScroll) :
    on_scroll_event s event = refresh_if_changed (page_back s) ∨
    on_scroll_event s event = refresh_if_changed (page_forward s) ∨
    on_scroll_event s event = s := by
  unfold on_scroll_event
  cases event.direction
  · exact Or.inl rfl
  · exact Or.inr (Or.inl rfl)
  · exact Or.inl rfl
  · exact Or.inr (Or.inl rfl)
  · simp only
    split
    · split
      · exact Or.inl rfl
      · split
        · exact Or.inr (Or.inl rfl)
        · exact Or.inr (Or.inr rfl)
    · split
      · exact Or.inl rfl
      · split
        · exact Or.inr (Or.inl rfl)
        · exact Or.inr (Or.inr rfl)

theorem key_press_eq (s : LauncherPlugin) (keyval : KeyVal) :
    on_key_press s keyval = hide_overlay s ∨
    on_key_press s keyval = refresh_if_changed (page_back s) ∨
    on_key_press s keyval = refresh_if_changed (page_forward s) ∨
    on_key_press s keyval = s := by
  cases keyval
  · exact Or.inl rfl
  · right; right; left
    show (if s.current_page < s.total_pages - 1 then _ else s) = _
    by_cases hc : s.current_page < s.total_pages - 1 <;>
      simp [page_forward, refresh_if_changed, hc]
  · right; left
    show (if s.current_page > 0 then _ else s) = _
    by_cases hc : s.current_page > 0 <;> simp [page_back, refresh_if_changed, hc]
  · exact Or.inr (Or.inr (Or.inr rfl))

theorem page_invariant_hide_overlay (s : LauncherPlugin) (h : page_invariant s) :
    page_invariant (hide_overlay s) := by
  unfold hide_overlay
  split
  · exact ⟨le_refl _, fun hs => by simp at hs, fun _ => rfl⟩
  · exact h

/-- The drop handler leaves the fields of the page invariant alone apart from
recomputing `total_pages`. -/
theorem on_drag_drop_view (s : LauncherPlugin) (now x y : Int) :
    (on_drag_drop s now x y).1 = s ∨
    ∃ t, (on_drag_drop s now x y).1 = save_configuration (update_page_dots (populate_current_page t))
      ∧ t.current_page = s.current_page ∧ t.filtered_list = s.filtered_list
      ∧ t.overlay_window = s.overlay_window := by
  unfold on_drag_drop
  cases s.drag_source with
  | none => exact Or.inl rfl
  | some d =>
    right
    simp only
    refine ⟨_, rfl, ?_⟩
    split
    · simp only [add_app_to_folder_current_page, add_app_to_folder_filtered_list,
        add_app_to_folder_overlay_window, and_self]
    · split
      · simp only [add_app_to_folder_current_page, add_app_to_folder_filtered_list,
          add_app_to_folder_overlay_window, and_self]
      · exact ⟨rfl, rfl, rfl⟩

/-- Every handler keeps the page invariant, a rescan while the overlay is shown
excepted. -/
theorem handle_page_invariant (env : Env) (s : LauncherPlugin) (event : Event)
    (h : page_invariant s) (hd : deliverable s event) (hc : ¬ rescan_while_shown s event) :
    page_invariant (handle env s event) := by
  cases event with
  | button_clicked =>
    simp only [handle, launcher_button_clicked]
    split
    · exact ⟨le_refl _, fun _ => ⟨rfl, le_max_left _ _⟩, fun hn => absurd rfl hn⟩
    · exact h
  | key_press keyval =>
    simp only [handle]
    rcases key_press_eq s keyval with e | e | e | e <;> rw [e]
    · exact page_invariant_hide_overlay s h
    · exact page_invariant_back s h hd
    · exact page_invariant_forward s h hd
    · exact h
  | search_changed text =>
    simp only [handle, on_search_changed]
    exact page_invariant_refresh_zero _ rfl
  | dot_clicked page_index =>
    obtain ⟨hs, hlo, hhi⟩ := hd
    obtain ⟨h0, h1, h2⟩ := h
    obtain ⟨htp, hle⟩ := h1 hs
    simp only [handle, on_dot_clicked]
    split
    · apply page_invariant_refresh
      · exact hlo
      · intro _
        show page_index ≤ max 0 (page_count s.filtered_list - 1)
        rw [← htp]
        exact le_trans (by omega) (le_max_right _ _)
      · intro hn; exact absurd hs hn
    · exact ⟨h0, h1, h2⟩
  | scroll ev =>
    simp only [handle]
    rcases scroll_eq s ev with e | e | e <;> rw [e]
    · exact page_invariant_back s h hd
    · exact page_invariant_forward s h hd
    · exact h
  | swipe vx vy =>
    simp only [handle]
    rcases swipe_eq s vx vy with e | e | e <;> rw [e]
    · exact page_invariant_back s h hd
    · exact page_invariant_forward s h hd
    · exact h
  | folder_clicked folder_info =>
    simp only [handle, on_folder_clicked]
    split
    · exact page_invariant_refresh_zero _ rfl
    · exact h
  | back_clicked =>
    simp only [handle, on_back_button_clicked]
    exact page_invariant_refresh_zero _ rfl
  | hide app_info =>
    obtain ⟨h0, h1, h2⟩ := h
    simp only [handle, hide_application]
    apply page_invariant_congr (s := update_page_dots (populate_current_page
      { s with heap := store s.heap app_info { s.heap app_info with is_hidden := true } }))
      rfl rfl rfl rfl
    apply page_invariant_refresh
    · exact h0
    · intro hs
      have := h1 hs
      show s.current_page ≤ max 0 (page_count s.filtered_list - 1)
      rw [← this.1]; exact this.2
    · exact h2
  | drag_begin app_info =>
    simp only [handle, on_drag_begin]
    split
    · exact page_invariant_congr rfl rfl rfl rfl h
    · exact h
  | drag_data_received app_info data =>
    simp only [handle, on_drag_data_received]
    split
    · split
      · exact page_invariant_congr (add_app_to_folder_current_page _ _ _)
          (add_app_to_folder_total_pages _ _ _) (add_app_to_folder_filtered_list _ _ _)
          (add_app_to_folder_overlay_window _ _ _) h
      · exact h
    · exact h
  | drag_drop now x y =>
    obtain ⟨h0, h1, h2⟩ := h
    simp only [handle]
    rcases on_drag_drop_view s now x y with e | ⟨t, e, hcp, hfl, how⟩
    · rw [e]; exact ⟨h0, h1, h2⟩
    · rw [e]
      apply page_invariant_congr (s := update_page_dots (populate_current_page t))
        rfl rfl rfl rfl
      apply page_invariant_refresh
      · rw [hcp]; exact h0
      · rw [how, hcp, hfl]
        intro hs
        have := h1 hs
        rw [← this.1]; exact this.2
      · rw [how, hcp]; exact h2
  | directory_changed event_type basename src =>
    have hns : s.overlay_window ≠ some true := hc
    obtain ⟨h0, h1, h2⟩ := h
    have hcp := h2 hns
    simp only [handle, on_directory_changed]
    split
    · split
      · split
        · split
          · rename_i hshown
            exact absurd hshown hns
          · exact ⟨by show (0 : Int) ≤ s.current_page; exact h0,
              fun hs => absurd hs hns, fun _ => hcp⟩
        · exact ⟨h0, h1, h2⟩
      · exact ⟨h0, h1, h2⟩
    · exact ⟨h0, h1, h2⟩

theorem current_page_back (s : LauncherPlugin) (h : 0 ≤ s.current_page) :
    0 ≤ (refresh_if_changed (page_back s)).current_page := by
  unfold page_back refresh_if_changed
  split
  · rename_i hpos
    simp only [if_true]
    show 0 ≤ s.current_page - 1
    omega
  · simpa using h

theorem current_page_forward (s : LauncherPlugin) (h : 0 ≤ s.current_page) :
    0 ≤ (refresh_if_changed (page_forward s)).current_page := by
  unfold page_forward refresh_if_changed
  split
  · simp only [if_true]
    show 0 ≤ s.current_page + 1
    omega
  · simpa using h

/-- No handler makes the page index negative. -/
theorem handle_current_page_nonneg (env : Env) (s : LauncherPlugin) (event : Event)
    (h : 0 ≤ s.current_page) (hd : deliverable s event) :
    0 ≤ (handle env s event).current_page := by
  cases event with
  | button_clicked =>
    simp only [handle, launcher_button_clicked]
    split
    · exact le_refl _
    · exact h
  | key_press keyval =>
    simp only [handle]
    rcases key_press_eq s keyval with e | e | e | e <;> rw [e]
    · unfold hide_overlay
      split
      · exact le_refl _
      · exact h
    · exact current_page_back s h
    · exact current_page_forward s h
    · exact h
  | search_changed text => exact le_refl _
  | dot_clicked page_index =>
    simp only [handle, on_dot_clicked]
    split
    · exact hd.2.1
    · exact h
  | scroll ev =>
    simp only [handle]
    rcases scroll_eq s ev with e | e | e <;> rw [e]
    · exact current_page_back s h
    · exact current_page_forward s h
    · exact h
  | swipe vx vy =>
    simp only [handle]
    rcases swipe_eq s vx vy with e | e | e <;> rw [e]
    · exact current_page_back s h
    · exact current_page_forward s h
    · exact h
  | folder_clicked folder_info =>
    simp only [handle, on_folder_clicked]
    split
    · exact le_refl _
    · exact h
  | back_clicked => exact le_refl _
  | hide app_info => exact h
  | drag_begin app_info =>
    simp only [handle, on_drag_begin]
    split <;> exact h
  | drag_data_received app_info data =>
    simp only [handle, on_drag_data_received]
    split
    · split
      · show 0 ≤ (add_app_to_folder _ _ _).current_page
        rw [add_app_to_folder_current_page]; exact h
      · exact h
    · exact h
  | drag_drop now x y =>
    simp only [handle]
    rcases on_drag_drop_view s now x y with e | ⟨t, e, hcp, _, _⟩
    · rw [e]; exact h
    · rw [e]
      show 0 ≤ t.current_page
      rw [hcp]; exact h
  | directory_changed event_type basename src =>
    simp only [handle, on_directory_changed]
    split
    · split
      · split
        · split <;> exact h
        · exact h
      · exact h
    · exact h

theorem launcher_construct_page_invariant (env : Env) (src : Sources)
    (config_file : Option String) :
    page_invariant
      (launcher_construct env.g_utf8_collate env.g_unichar_isalpha env.reread src config_file) :=
  page_invariant_refresh_zero _ rfl

theorem reachable_page_invariant (env : Env) (src : Sources) (config_file : Option String)
    (s : LauncherPlugin) (h : Reachable env src config_file true s) : page_invariant s := by
  induction h with
  | start => exact launcher_construct_page_invariant env src config_file
  | step s event _ hd hc ih => exact handle_page_invariant env s event ih hd (hc rfl)

theorem reachable_current_page_nonneg (env : Env) (src : Sources)
    (config_file : Option String) (calm : Bool) (s : LauncherPlugin)
    (h : Reachable env src config_file calm s) : 0 ≤ s.current_page := by
  induction h with
  | start => exact le_refl _
  | step s event _ hd _ ih => exact handle_current_page_nonneg env s event ih hd

/-- Claim C9, counterexample: on a system without applications the plugin
starts with `current_page = 0` and `total_pages = 0`, so the page index is not
at most `total_pages - 1`.  And started with 31 applications, after the overlay
is opened, the right arrow key is pressed and a rescan then finds three
applications, `current_page = 1` and `total_pages = 1`. -/
theorem page_index_out_of_range :
    Reachable ex_env ex_sources_none none false ex_start_none ∧
    ¬ (ex_start_none.current_page ≤ ex_start_none.total_pages - 1) ∧
    Reachable ex_env ex_sources_31 none false ex_after_rescan ∧
    ex_after_rescan.current_page = 1 ∧ ex_after_rescan.total_pages = 1 := by
  refine ⟨Reachable.start, by decide, ?_, by set_option maxRecDepth 100000 in decide,
    by set_option maxRecDepth 100000 in decide⟩
  have r0 : Reachable ex_env ex_sources_31 none false ex_start_31 := Reachable.start
  have r1 := Reachable.step _ Event.button_clicked r0 trivial (by simp)
  have r2 := Reachable.step _ (Event.key_press KeyVal.right) r1
    (by simp only [deliverable]; set_option maxRecDepth 100000 in decide) (by simp)
  exact Reachable.step _
    (Event.directory_changed GFileMonitorEvent.created (some "gimp.desktop") ex_sources_three)
    r2 trivial (by simp)

/-- Claim C9, amended: in every state reachable from plugin start by any sequence
of events the page index is at least 0; and in every state reached without a
filesystem rescan arriving while the overlay is shown, the page index is at
most `max (0, total_pages - 1)` (`total_pages` is 0 when the filtered list is
empty). -/
theorem page_index_bounds (env : Env) (src : Sources) (config_file : Option String)
    (s : LauncherPlugin) :
    (Reachable env src config_file false s → 0 ≤ s.current_page) ∧
    (Reachable env src config_file true s →
      0 ≤ s.current_page ∧ s.current_page ≤ max 0 (s.total_pages - 1)) := by
  refine ⟨reachable_current_page_nonneg env src config_file false s, fun h => ?_⟩
  obtain ⟨h0, h1, h2⟩ := reachable_page_invariant env src config_file s h
  refine ⟨h0, ?_⟩
  by_cases hs : s.overlay_window = some true
  · exact (h1 hs).2
  · rw [h2 hs]; exact le_max_left _ _

/-- Claim C9, amended, on the run that opens the overlay over 31 applications
and goes to the second page. -/
theorem page_index_bounds_witness :
    Reachable ex_env ex_sources_31 none true ex_second_page ∧
    ex_second_page.current_page = 1 ∧
    ex_second_page.current_page ≤ max 0 (ex_second_page.total_pages - 1) :=
  have r : Reachable ex_env ex_sources_31 none true ex_second_page :=
    Reachable.step _ (Event.key_press KeyVal.right)
      (Reachable.step _ Event.button_clicked Reachable.start trivial (fun _ h => h))
      (by simp only [deliverable]; set_option maxRecDepth 100000 in decide) (fun _ h => h)
  ⟨r, by set_option maxRecDepth 100000 in decide,
    ((page_index_bounds ex_env ex_sources_31 none ex_second_page).2 r).2⟩

/-! ## The reader on the written file -/

theorem markup_run_append (isalpha : Char → Bool) (ctx : MarkupContext) (a b : List Char) :
    markup_run isalpha ctx (a ++ b) = markup_run isalpha (markup_run isalpha ctx a) b := by
  simp [markup_run, List.foldl_append]

theorem markup_run_cons (isalpha : Char → Bool) (ctx : MarkupContext) (c : Char)
    (cs : List Char) :
    markup_run isalpha ctx (c :: cs) = markup_run isalpha (markup_step isalpha ctx c) cs := rfl

theorem plain_char_ne {c : Char} (h : plain_char c = true) :
    c ≠ '"' ∧ c ≠ '&' ∧ c ≠ '\t' ∧ c ≠ '\n' ∧ c ≠ '\r' := by
  simp only [plain_char, Bool.and_eq_true, bne_iff_ne, ne_eq] at h
  tauto

theorem unescape_plain_fold (v out : List Char) (h : v.all plain_char = true) :
    v.foldl (unescape_step true) (UnescapeState.plain, out) = (UnescapeState.plain, out ++ v) := by
  induction v generalizing out with
  | nil => simp
  | cons c v ih =>
    simp only [List.all_cons, Bool.and_eq_true] at h
    obtain ⟨_, h2, h3, h4, h5⟩ := plain_char_ne h.1
    simp only [List.foldl_cons]
    have : unescape_step true (UnescapeState.plain, out) c = (UnescapeState.plain, out ++ [c]) := by
      simp [unescape_step, h2, h3, h4, h5]
    rw [this, ih _ h.2]
    simp

theorem unescape_plain (v : List Char) (h : v.all plain_char = true) :
    unescape_gstring true v = some v := by
  simp [unescape_gstring, unescape_plain_fold v [] h]

theorem dq_run (isalpha : Char → Bool) (S : List String) (A : List (String × String))
    (E : List MarkupEvent) (name : String) (acc v : List Char) (h : v.all plain_char = true) :
    markup_run isalpha
      { state := MarkupState.inside_attribute_value_dq name acc, tag_stack := S,
        attributes := A, events := E } v
    = { state := MarkupState.inside_attribute_value_dq name (acc ++ v), tag_stack := S,
        attributes := A, events := E } := by
  induction v generalizing acc with
  | nil => simp [markup_run]
  | cons c v ih =>
    simp only [List.all_cons, Bool.and_eq_true] at h
    obtain ⟨h1, _⟩ := plain_char_ne h.1
    rw [markup_run_cons]
    have : markup_step isalpha
        { state := MarkupState.inside_attribute_value_dq name acc, tag_stack := S,
          attributes := A, events := E } c
        = { state := MarkupState.inside_attribute_value_dq name (acc ++ [c]), tag_stack := S,
            attributes := A, events := E } := by
      simp [markup_step, h1]
    rw [this, ih _ h.2]
    simp

/-- A plain attribute value and its closing quote. -/
theorem attr_value_run (isalpha : Char → Bool) (S : List String) (A : List (String × String))
    (E : List MarkupEvent) (name : String) (v : String) (h : attr_plain v = true) :
    markup_run isalpha
      { state := MarkupState.inside_attribute_value_dq name [], tag_stack := S,
        attributes := A, events := E } (v.data ++ ['"'])
    = { state := MarkupState.between_attributes, tag_stack := S,
        attributes := A ++ [(name, v)], events := E } := by
  rw [markup_run_append, dq_run isalpha S A E name [] v.data h]
  simp only [List.nil_append, markup_run, List.foldl_cons, List.foldl_nil]
  simp [markup_step, finish_attribute_value, unescape_plain v.data h]

theorem attr_value_run2 (isalpha : Char → Bool) (S : List String) (A : List (String × String))
    (E : List MarkupEvent) (name : String) (v : String) (h : attr_plain v = true) :
    markup_run isalpha
      (markup_run isalpha
        { state := MarkupState.inside_attribute_value_dq name [], tag_stack := S,
          attributes := A, events := E } v.data) ['"']
    = { state := MarkupState.between_attributes, tag_stack := S,
        attributes := A ++ [(name, v)], events := E } := by
  rw [← markup_run_append]
  exact attr_value_run isalpha S A E name v h

theorem folder_open_run (isalpha : Char → Bool) (t : String) (S : List String)
    (A : List (String × String)) (E : List MarkupEvent) :
    markup_run isalpha
      { state := MarkupState.inside_text ['\n'], tag_stack := t :: S, attributes := A, events := E }
      "    <folder id=\"".data
    = { state := MarkupState.inside_attribute_value_dq "id" [], tag_stack := "folder" :: t :: S,
        attributes := [], events := E } := rfl

theorem app_open_run (isalpha : Char → Bool) (t : String) (S : List String)
    (A : List (String × String)) (E : List MarkupEvent) :
    markup_run isalpha
      { state := MarkupState.inside_text ['\n'], tag_stack := t :: S, attributes := A, events := E }
      "    <app name=\"".data
    = { state := MarkupState.inside_attribute_value_dq "name" [], tag_stack := "app" :: t :: S,
        attributes := [], events := E } := rfl

theorem attr_name_run (isalpha : Char → Bool) (S : List String)
    (A : List (String × String)) (E : List MarkupEvent) :
    markup_run isalpha
      { state := MarkupState.between_attributes, tag_stack := S, attributes := A, events := E }
      " name=\"".data
    = { state := MarkupState.inside_attribute_value_dq "name" [], tag_stack := S,
        attributes := A, events := E } := rfl

theorem attr_icon_run (isalpha : Char → Bool) (S : List String)
    (A : List (String × String)) (E : List MarkupEvent) :
    markup_run isalpha
      { state := MarkupState.between_attributes, tag_stack := S, attributes := A, events := E }
      " icon=\"".data
    = { state := MarkupState.inside_attribute_value_dq "icon" [], tag_stack := S,
        attributes := A, events := E } := rfl

theorem attr_hidden_run (isalpha : Char → Bool) (S : List String)
    (A : List (String × String)) (E : List MarkupEvent) :
    markup_run isalpha
      { state := MarkupState.between_attributes, tag_stack := S, attributes := A, events := E }
      " hidden=\"".data
    = { state := MarkupState.inside_attribute_value_dq "hidden" [], tag_stack := S,
        attributes := A, events := E } := rfl

theorem attr_position_run (isalpha : Char → Bool) (S : List String)
    (A : List (String × String)) (E : List MarkupEvent) :
    markup_run isalpha
      { state := MarkupState.between_attributes, tag_stack := S, attributes := A, events := E }
      " position=\"".data
    = { state := MarkupState.inside_attribute_value_dq "position" [], tag_stack := S,
        attributes := A, events := E } := rfl

theorem attr_folder_run (isalpha : Char → Bool) (S : List String)
    (A : List (String × String)) (E : List MarkupEvent) :
    markup_run isalpha
      { state := MarkupState.between_attributes, tag_stack := S, attributes := A, events := E }
      " folder=\"".data
    = { state := MarkupState.inside_attribute_value_dq "folder" [], tag_stack := S,
        attributes := A, events := E } := rfl

theorem element_close_run (isalpha : Char → Bool) (e t : String) (S : List String)
    (A : List (String × String)) (E : List MarkupEvent) :
    markup_run isalpha
      { state := MarkupState.between_attributes, tag_stack := e :: t :: S, attributes := A,
        events := E }
      "/>\n".data
    = { state := MarkupState.inside_text ['\n'], tag_stack := t :: S, attributes := A,
        events := E ++ [MarkupEvent.start_element e A] ++ [MarkupEvent.end_element e] } := rfl

theorem header_run1 (isalpha : Char → Bool) :
    markup_run isalpha markup_context_new "<?xml version=\"1.0\" encoding=\"UTF-8\"?>\n".data
    = markup_context_new := rfl

theorem header_run2 (isalpha : Char → Bool) :
    markup_run isalpha markup_context_new "<launcher-config>\n".data
    = { state := MarkupState.inside_text ['\n'], tag_stack := ["launcher-config"],
        attributes := [], events := [MarkupEvent.start_element "launcher-config" []] } := rfl

theorem header_run3 (isalpha : Char → Bool) :
    markup_run isalpha
      { state := MarkupState.inside_text ['\n'], tag_stack := ["launcher-config"],
        attributes := [], events := [MarkupEvent.start_element "launcher-config" []] }
      "  <folders>\n".data
    = { state := MarkupState.inside_text ['\n'], tag_stack := ["folders", "launcher-config"],
        attributes := [],
        events := [MarkupEvent.start_element "launcher-config" [],
                   MarkupEvent.start_element "folders" []] } := rfl

theorem middle_run1 (isalpha : Char → Bool) (A : List (String × String))
    (E : List MarkupEvent) :
    markup_run isalpha
      { state := MarkupState.inside_text ['\n'], tag_stack := ["folders", "launcher-config"],
        attributes := A, events := E }
      "  </folders>\n".data
    = { state := MarkupState.inside_text ['\n'], tag_stack := ["launcher-config"],
        attributes := A, events := E ++ [MarkupEvent.end_element "folders"] } := rfl

theorem middle_run2 (isalpha : Char → Bool) (A : List (String × String))
    (E : List MarkupEvent) :
    markup_run isalpha
      { state := MarkupState.inside_text ['\n'], tag_stack := ["launcher-config"],
        attributes := A, events := E }
      "  <apps>\n".data
    = { state := MarkupState.inside_text ['\n'], tag_stack := ["apps", "launcher-config"],
        attributes := [], events := E ++ [MarkupEvent.start_element "apps" []] } := rfl

theorem footer_run1 (isalpha : Char → Bool) (A : List (String × String))
    (E : List MarkupEvent) :
    markup_run isalpha
      { state := MarkupState.inside_text ['\n'], tag_stack := ["apps", "launcher-config"],
        attributes := A, events := E }
      "  </apps>\n".data
    = { state := MarkupState.inside_text ['\n'], tag_stack := ["launcher-config"],
        attributes := A, events := E ++ [MarkupEvent.end_element "apps"] } := rfl

theorem footer_run2 (isalpha : Char → Bool) (A : List (String × String))
    (E : List MarkupEvent) :
    markup_run isalpha
      { state := MarkupState.inside_text ['\n'], tag_stack := ["launcher-config"],
        attributes := A, events := E }
      "</launcher-config>\n".data
    = { state := MarkupState.start, tag_stack := [],
        attributes := A, events := E ++ [MarkupEvent.end_element "launcher-config"] } := rfl

theorem save_folder_step_data (xml : String) (folder : FolderInfo) :
    (save_folder_step xml folder).data = xml.data ++ folder_text folder := by
  have e1 : "\" name=\"".data = '"' :: " name=\"".data := rfl
  have e2 : "\" icon=\"".data = '"' :: " icon=\"".data := rfl
  have e3 : "\"/>\n".data = '"' :: "/>\n".data := rfl
  simp only [save_folder_step, folder_text, String.data_append, e1, e2, e3]
  simp only [List.append_assoc, List.cons_append, List.nil_append, List.singleton_append]

theorem save_app_step_data (xml : String) (app : AppInfo) :
    (save_app_step xml app).data = xml.data ++ app_text app := by
  have e1 : "\" hidden=\"".data = '"' :: " hidden=\"".data := rfl
  have e2 : "\" position=\"".data = '"' :: " position=\"".data := rfl
  have e3 : "\"".data = ['"'] := rfl
  unfold save_app_step app_text
  split
  · cases app.folder_id with
    | none =>
      simp only [String.data_append, e1, e2, e3]
      simp only [List.append_assoc, List.cons_append, List.nil_append, List.singleton_append]
    | some folder_id =>
      simp only [String.data_append, e1, e2, e3]
      simp only [List.append_assoc, List.cons_append, List.nil_append, List.singleton_append]
  · simp

theorem foldl_save_folder_step_data (folders : List FolderInfo) (xml : String) :
    (folders.foldl save_folder_step xml).data
      = xml.data ++ (folders.map folder_text).flatten := by
  induction folders generalizing xml with
  | nil => simp
  | cons F folders ih =>
    simp only [List.foldl_cons, ih, save_folder_step_data, List.map_cons, List.flatten_cons,
      List.append_assoc]

theorem foldl_save_app_step_data (heap : AppPtr → AppInfo) (apps : List AppPtr) (xml : String) :
    (apps.foldl (fun xml app => save_app_step xml (heap app)) xml).data
      = xml.data ++ (apps.map (fun app => app_text (heap app))).flatten := by
  induction apps generalizing xml with
  | nil => simp
  | cons a apps ih =>
    simp only [List.foldl_cons, ih, save_app_step_data, List.map_cons, List.flatten_cons,
      List.append_assoc]

theorem folder_text_run (isalpha : Char → Bool) (t : String) (S : List String)
    (A : List (String × String)) (E : List MarkupEvent) (folder : FolderInfo)
    (h1 : attr_plain folder.id = true) (h2 : attr_plain folder.name = true)
    (h3 : attr_plain folder.icon = true) :
    markup_run isalpha
      { state := MarkupState.inside_text ['\n'], tag_stack := t :: S, attributes := A, events := E }
      (folder_text folder)
    = { state := MarkupState.inside_text ['\n'], tag_stack := t :: S,
        attributes := [("id", folder.id), ("name", folder.name), ("icon", folder.icon)],
        events := E ++ folder_events folder } := by
  unfold folder_text
  simp only [markup_run_append]
  rw [folder_open_run, attr_value_run2 _ _ _ _ _ _ h1, attr_name_run,
    attr_value_run2 _ _ _ _ _ _ h2, attr_icon_run, attr_value_run2 _ _ _ _ _ _ h3,
    element_close_run]
  simp [folder_events]

theorem fmt_nat_digits_plain (bound n : Nat) :
    (fmt_nat_digits bound n).all plain_char = true := by
  induction bound generalizing n with
  | zero => simp [fmt_nat_digits]
  | succ b ih =>
    have hd : ∀ d, d < 10 → plain_char (digit_char d) = true := by decide
    unfold fmt_nat_digits
    split
    · rename_i hlt
      simp [hd n hlt]
    · simp [ih, hd (n % 10) (Nat.mod_lt _ (by norm_num))]

theorem fmt_d_plain (n : Int) : attr_plain (fmt_d n) = true := by
  unfold fmt_d attr_plain
  split
  · simp only [List.all_cons, Bool.and_eq_true]
    exact ⟨by decide, fmt_nat_digits_plain _ _⟩
  · exact fmt_nat_digits_plain _ _

theorem app_text_run (isalpha : Char → Bool) (t : String) (S : List String)
    (A : List (String × String)) (E : List MarkupEvent) (app : AppInfo)
    (h1 : attr_plain app.name = true)
    (h2 : ∀ folder_id, app.folder_id = some folder_id → attr_plain folder_id = true) :
    ∃ A2, markup_run isalpha
      { state := MarkupState.inside_text ['\n'], tag_stack := t :: S, attributes := A, events := E }
      (app_text app)
    = { state := MarkupState.inside_text ['\n'], tag_stack := t :: S, attributes := A2,
        events := E ++ app_events app } := by
  unfold app_text app_events
  split
  · have hh : attr_plain (if app.is_hidden then "true" else "false") = true := by
      cases app.is_hidden <;> decide
    refine ⟨app_attributes app, ?_⟩
    cases hf : app.folder_id with
    | none =>
      simp only [markup_run_append, List.append_nil]
      rw [app_open_run, attr_value_run2 _ _ _ _ _ _ h1, attr_hidden_run,
        attr_value_run2 _ _ _ _ _ _ hh, attr_position_run,
        attr_value_run2 _ _ _ _ _ _ (fmt_d_plain _)]
      show markup_run isalpha _ "/>\n".data = _
      rw [element_close_run]
      simp [app_attributes, hf]
    | some folder_id =>
      simp only [markup_run_append]
      rw [app_open_run, attr_value_run2 _ _ _ _ _ _ h1, attr_hidden_run,
        attr_value_run2 _ _ _ _ _ _ hh, attr_position_run,
        attr_value_run2 _ _ _ _ _ _ (fmt_d_plain _), attr_folder_run,
        attr_value_run2 _ _ _ _ _ _ (h2 folder_id hf), element_close_run]
      simp [app_attributes, hf]
  · exact ⟨A, by simp [markup_run]⟩

theorem folders_run (isalpha : Char → Bool) (t : String) (S : List String)
    (folders : List FolderInfo)
    (h : ∀ folder ∈ folders, attr_plain folder.id = true ∧ attr_plain folder.name = true ∧
      attr_plain folder.icon = true)
    (A : List (String × String)) (E : List MarkupEvent) :
    ∃ A2, markup_run isalpha
      { state := MarkupState.inside_text ['\n'], tag_stack := t :: S, attributes := A, events := E }
      (folders.map folder_text).flatten
    = { state := MarkupState.inside_text ['\n'], tag_stack := t :: S, attributes := A2,
        events := E ++ (folders.map folder_events).flatten } := by
  induction folders generalizing A E with
  | nil => exact ⟨A, by simp [markup_run]⟩
  | cons F folders ih =>
    have hF := h F (List.mem_cons_self _ _)
    obtain ⟨A2, hA2⟩ := ih (fun G hG => h G (List.mem_cons_of_mem _ hG))
      [("id", F.id), ("name", F.name), ("icon", F.icon)] (E ++ folder_events F)
    refine ⟨A2, ?_⟩
    simp only [List.map_cons, List.flatten_cons]
    rw [markup_run_append, folder_text_run isalpha t S A E F hF.1 hF.2.1 hF.2.2, hA2]
    simp

theorem apps_run (isalpha : Char → Bool) (t : String) (S : List String)
    (apps : List AppInfo)
    (h : ∀ app ∈ apps, attr_plain app.name = true ∧
      ∀ folder_id, app.folder_id = some folder_id → attr_plain folder_id = true)
    (A : List (String × String)) (E : List MarkupEvent) :
    ∃ A2, markup_run isalpha
      { state := MarkupState.inside_text ['\n'], tag_stack := t :: S, attributes := A, events := E }
      (apps.map app_text).flatten
    = { state := MarkupState.inside_text ['\n'], tag_stack := t :: S, attributes := A2,
        events := E ++ (apps.map app_events).flatten } := by
  induction apps generalizing A E with
  | nil => exact ⟨A, by simp [markup_run]⟩
  | cons a apps ih =>
    have ha := h a (List.mem_cons_self _ _)
    obtain ⟨A1, hA1⟩ := app_text_run isalpha t S A E a ha.1 ha.2
    obtain ⟨A2, hA2⟩ := ih (fun b hb => h b (List.mem_cons_of_mem _ hb)) A1 (E ++ app_events a)
    refine ⟨A2, ?_⟩
    simp only [List.map_cons, List.flatten_cons]
    rw [markup_run_append, hA1, hA2]
    simp

/-- The reader on the file `save_configuration` writes, when every string
written is plain: it makes the callbacks `saved_events` and meets no error. -/
theorem g_markup_parse_saved (isalpha : Char → Bool) (launcher : LauncherPlugin)
    (h : catalog_plain launcher) :
    g_markup_parse isalpha (save_configuration_xml launcher) = (saved_events launcher, true) := by
  obtain ⟨hf, ha⟩ := h
  have htext : (save_configuration_xml launcher).data
      = "<?xml version=\"1.0\" encoding=\"UTF-8\"?>\n".data ++ ("<launcher-config>\n".data ++
        ("  <folders>\n".data ++ ((launcher.folder_list.map folder_text).flatten ++
        ("  </folders>\n".data ++ ("  <apps>\n".data ++
        ((launcher.app_list.map (fun app => app_text (launcher.heap app))).flatten ++
        ("  </apps>\n".data ++ "</launcher-config>\n".data))))))) := by
    simp only [save_configuration_xml, String.data_append, foldl_save_folder_step_data,
      foldl_save_app_step_data, List.append_assoc]
  obtain ⟨A1, hA1⟩ := folders_run isalpha "folders" ["launcher-config"] launcher.folder_list hf []
    [MarkupEvent.start_element "launcher-config" [], MarkupEvent.start_element "folders" []]
  have hmap : (launcher.app_list.map (fun app => app_text (launcher.heap app)))
      = (launcher.app_list.map launcher.heap).map app_text := by
    rw [List.map_map]; rfl
  obtain ⟨A2, hA2⟩ := apps_run isalpha "apps" ["launcher-config"]
    (launcher.app_list.map launcher.heap)
    (by
      intro a hmem
      obtain ⟨p, hp, rfl⟩ := List.mem_map.1 hmem
      refine ⟨(ha p hp).1, fun folder_id hf => ?_⟩
      have h2 := (ha p hp).2
      rw [hf] at h2
      exact h2)
    []
    ([MarkupEvent.start_element "launcher-config" [], MarkupEvent.start_element "folders" []] ++
      (launcher.folder_list.map folder_events).flatten ++ [MarkupEvent.end_element "folders"] ++
      [MarkupEvent.start_element "apps" []])
  have hrun : markup_run isalpha markup_context_new (save_configuration_xml launcher).data
      = { state := MarkupState.start, tag_stack := [], attributes := A2,
          events := saved_events launcher } := by
    rw [htext, markup_run_append, header_run1, markup_run_append, header_run2,
      markup_run_append, header_run3, markup_run_append, hA1, markup_run_append, middle_run1,
      markup_run_append, middle_run2, markup_run_append, hmap, hA2, markup_run_append,
      footer_run1, footer_run2]
    simp [saved_events, List.map_map, Function.comp_def]
  unfold g_markup_parse
  rw [markup_run] at hrun
  simp only [hrun]
  simp

/-! ## Number conversions -/

theorem digit_value_digit_char (d : Nat) (h : d < 10) : digit_value (digit_char d) = some d := by
  interval_cases d <;> decide

theorem strtol_digits_snoc (l : List Char) (c : Char) (d acc : Nat)
    (hl : ∀ x ∈ l, ∃ e, digit_value x = some e) (hc : digit_value c = some d) :
    strtol_digits acc (l ++ [c]) = strtol_digits acc l * 10 + d := by
  induction l generalizing acc with
  | nil => simp [strtol_digits, hc]
  | cons x l ih =>
    obtain ⟨e, he⟩ := hl x (List.mem_cons_self _ _)
    simp only [List.cons_append, strtol_digits, he]
    exact ih _ (fun y hy => hl y (List.mem_cons_of_mem _ hy))

theorem fmt_nat_digits_are_digits (bound n : Nat) :
    ∀ x ∈ fmt_nat_digits bound n, ∃ e, digit_value x = some e := by
  induction bound generalizing n with
  | zero => simp [fmt_nat_digits]
  | succ b ih =>
    unfold fmt_nat_digits
    split
    · rename_i hlt
      intro x hx
      simp only [List.mem_singleton] at hx
      exact ⟨n, hx ▸ digit_value_digit_char n hlt⟩
    · intro x hx
      rcases List.mem_append.1 hx with hx | hx
      · exact ih _ x hx
      · simp only [List.mem_singleton] at hx
        exact ⟨n % 10, hx ▸ digit_value_digit_char _ (Nat.mod_lt _ (by norm_num))⟩

theorem strtol_digits_fmt (bound n : Nat) (h : n < 10 ^ bound) :
    strtol_digits 0 (fmt_nat_digits bound n) = n := by
  induction bound generalizing n with
  | zero =>
    have : n = 0 := by simpa using h
    subst this
    rfl
  | succ b ih =>
    unfold fmt_nat_digits
    split
    · rename_i hlt
      simp [strtol_digits, digit_value_digit_char n hlt]
    · rw [strtol_digits_snoc _ _ (n % 10) 0 (fmt_nat_digits_are_digits b (n / 10))
        (digit_value_digit_char _ (Nat.mod_lt _ (by norm_num)))]
      rw [ih (n / 10) (by rw [Nat.div_lt_iff_lt_mul (by norm_num)]; rw [pow_succ] at h; exact h)]
      omega

theorem strtol_digits_fmt_nat (n : Nat) : strtol_digits 0 (fmt_nat n) = n :=
  strtol_digits_fmt (n + 1) n
    (lt_of_lt_of_le (Nat.lt_pow_self (by norm_num) n) (Nat.pow_le_pow_right (by norm_num) (by omega)))

theorem fmt_nat_head (n : Nat) : ∃ d, d < 10 ∧ ∃ tail, fmt_nat n = digit_char d :: tail := by
  have key : ∀ b m, ∃ d, d < 10 ∧ ∃ tail, fmt_nat_digits (b + 1) m = digit_char d :: tail := by
    intro b
    induction b with
    | zero =>
      intro m
      unfold fmt_nat_digits
      split
      · rename_i hlt; exact ⟨m, hlt, [], rfl⟩
      · exact ⟨m % 10, Nat.mod_lt _ (by norm_num), [], by simp [fmt_nat_digits]⟩
    | succ b ih =>
      intro m
      rw [fmt_nat_digits]
      split
      · rename_i hlt; exact ⟨m, hlt, [], rfl⟩
      · obtain ⟨d, hd, tail, ht⟩ := ih (m / 10)
        exact ⟨d, hd, tail ++ [digit_char (m % 10)], by rw [ht]; rfl⟩
  exact key n n

theorem strtol_digit_head (d : Nat) (hd : d < 10) (tail : List Char) :
    strtol (digit_char d :: tail)
      = min (2 ^ 63 - 1) (strtol_digits 0 (digit_char d :: tail) : Int) := by
  interval_cases d <;> rfl

theorem wrap32_of_range (n : Int) (h1 : -(2 ^ 31) ≤ n) (h2 : n < 2 ^ 31) : wrap32 n = n := by
  unfold wrap32
  rw [Int.emod_eq_of_lt (by omega) (by omega)]
  omega

/-- `atoi` reads back what `%d` writes for a `gint`. -/
theorem atoi_fmt_d (n : Int) (h1 : -(2 ^ 31) ≤ n) (h2 : n < 2 ^ 31) : atoi (fmt_d n) = n := by
  unfold atoi fmt_d
  split
  · rename_i hneg
    have hs : strtol ('-' :: fmt_nat n.natAbs)
        = max (-(2 ^ 63)) (-(strtol_digits 0 (fmt_nat n.natAbs) : Int)) := rfl
    show wrap32 (strtol ('-' :: fmt_nat n.natAbs)) = n
    rw [hs, strtol_digits_fmt_nat]
    have : (-(n.natAbs : Int)) = n := by omega
    rw [this, max_eq_right (by omega)]
    exact wrap32_of_range n h1 h2
  · rename_i hnn
    obtain ⟨d, hd, tail, ht⟩ := fmt_nat_head n.toNat
    show wrap32 (strtol (fmt_nat n.toNat)) = n
    rw [ht, strtol_digit_head d hd tail, ← ht, strtol_digits_fmt_nat]
    have : ((n.toNat : Nat) : Int) = n := by omega
    rw [this, min_eq_right (by omega)]
    exact wrap32_of_range n h1 h2

/-! ## The callbacks on the written file -/

theorem run_folder_events (l : LauncherPlugin) (d : ParserData) (F : FolderInfo)
    (hd : d.in_folders = true) :
    (folder_events F).foldl run_callback (l, d)
      = ({ l with folder_list := l.folder_list ++ [restored_folder F] }, d) := by
  cases d with
  | mk inf ina =>
    simp only at hd
    subst hd
    rfl

theorem run_folders_events (folders : List FolderInfo) (l : LauncherPlugin) (d : ParserData)
    (hd : d.in_folders = true) :
    (folders.map folder_events).flatten.foldl run_callback (l, d)
      = ({ l with folder_list := l.folder_list ++ folders.map restored_folder }, d) := by
  induction folders generalizing l with
  | nil => simp
  | cons F folders ih =>
    simp only [List.map_cons, List.flatten_cons, List.foldl_append, run_folder_events _ _ _ hd,
      ih]
    simp

theorem run_app_events (l : LauncherPlugin) (d : ParserData) (a : AppInfo)
    (hd : d.in_apps = true) :
    (app_events a).foldl run_callback (l, d)
      = ({ l with heap := apply_saved l.app_list l.heap a }, d) := by
  cases d with
  | mk inf ina =>
    simp only at hd
    subst hd
    unfold app_events apply_saved
    split
    · cases hfind : l.app_list.find? (fun app => (l.heap app).name = a.name) with
      | none =>
        cases hf : a.folder_id <;>
          simp [run_callback, start_element, end_element, app_attributes, attribute_value, hf,
            hfind]
      | some q =>
        cases hf : a.folder_id <;> cases hh : a.is_hidden <;>
          simp [run_callback, start_element, end_element, app_attributes, attribute_value, hf,
            hfind, hh]
    · rfl

theorem run_apps_events (apps : List AppInfo) (l : LauncherPlugin) (d : ParserData)
    (hd : d.in_apps = true) :
    (apps.map app_events).flatten.foldl run_callback (l, d)
      = ({ l with heap := apps.foldl (apply_saved l.app_list) l.heap }, d) := by
  induction apps generalizing l with
  | nil => simp
  | cons a apps ih =>
    simp only [List.map_cons, List.flatten_cons, List.foldl_append, run_app_events _ _ _ hd,
      ih, List.foldl_cons]

/-- The state the callbacks for the written file leave. -/
theorem run_saved_events (old fresh : LauncherPlugin) :
    ((saved_events old).foldl run_callback
        (fresh, { in_folders := false, in_apps := false })).1
      = { fresh with
          folder_list := fresh.folder_list ++ old.folder_list.map restored_folder
          heap := (old.app_list.map old.heap).foldl (apply_saved fresh.app_list) fresh.heap } := by
  have h1 : ∀ (l : LauncherPlugin) (d : ParserData),
      [MarkupEvent.start_element "launcher-config" [], MarkupEvent.start_element "folders" []].foldl
        run_callback (l, d) = (l, { d with in_folders := true }) := fun _ _ => rfl
  have h2 : ∀ (l : LauncherPlugin) (d : ParserData),
      [MarkupEvent.end_element "folders", MarkupEvent.start_element "apps" []].foldl
        run_callback (l, d) = (l, { in_folders := false, in_apps := true }) := fun _ _ => rfl
  have h3 : ∀ (l : LauncherPlugin) (d : ParserData),
      ([MarkupEvent.end_element "apps", MarkupEvent.end_element "launcher-config"].foldl
        run_callback (l, d)).1 = l := fun _ _ => rfl
  have hmap : (old.app_list.map (fun app => app_events (old.heap app)))
      = (old.app_list.map old.heap).map app_events := by
    rw [List.map_map]; rfl
  unfold saved_events
  rw [List.foldl_append, List.foldl_append, List.foldl_append, List.foldl_append, h1,
    run_folders_events _ _ _ rfl, h2, hmap, run_apps_events _ _ _ rfl, h3]

/-- The record `apply_saved` leaves at an address. -/
theorem apply_saved_at (app_list : List AppPtr) (heap : AppPtr → AppInfo) (a : AppInfo)
    (q : AppPtr) :
    apply_saved app_list heap a q =
      if (a.is_hidden ∨ a.folder_id.isSome ∨ a.position ≠ -1) ∧
          app_list.find? (fun app => (heap app).name = a.name) = some q then
        { heap q with
          is_hidden := if a.is_hidden then true else (heap q).is_hidden
          folder_id := match a.folder_id with
            | some folder_id => some folder_id
            | none => (heap q).folder_id
          position := atoi (fmt_d a.position) }
      else heap q := by
  unfold apply_saved
  by_cases hs : a.is_hidden ∨ a.folder_id.isSome ∨ a.position ≠ -1
  · rw [if_pos hs]
    cases hfind : app_list.find? (fun app => (heap app).name = a.name) with
    | none => simp
    | some q0 =>
      by_cases hq : q = q0
      · subst hq
        simp [store, hs]
      · have hq2 : ¬ q0 = q := fun h => hq h.symm
        simp [store, hq, hq2]
  · rw [if_neg hs]
    simp [hs]

theorem apply_saved_other (app_list : List AppPtr) (heap : AppPtr → AppInfo) (a : AppInfo)
    (q : AppPtr) (h : (heap q).name ≠ a.name) : apply_saved app_list heap a q = heap q := by
  rw [apply_saved_at]
  split
  · rename_i hc
    have := List.find?_some hc.2
    simp only [decide_eq_true_eq] at this
    exact absurd this h
  · rfl

theorem apply_saved_name (app_list : List AppPtr) (heap : AppPtr → AppInfo) (a : AppInfo)
    (q : AppPtr) : (apply_saved app_list heap a q).name = (heap q).name := by
  rw [apply_saved_at]
  split <;> rfl

/-- What holds of the memory while the written applications are applied. -/
theorem apply_saved_invariant (app_list : List AppPtr) (fresh_heap : AppPtr → AppInfo)
    (hnames : (app_list.map (fun p => (fresh_heap p).name)).Nodup)
    (todo : List AppInfo) (done : List AppInfo) (heap : AppPtr → AppInfo)
    (hnd : ((done ++ todo).map (·.name)).Nodup)
    (hpos : ∀ a ∈ todo, -(2 ^ 31) ≤ a.position ∧ a.position < 2 ^ 31)
    (h1 : ∀ q, (heap q).name = (fresh_heap q).name)
    (h2 : ∀ q ∈ app_list, ∀ a ∈ done, a.name = (fresh_heap q).name →
      (heap q).is_hidden = a.is_hidden ∧ (heap q).folder_id = a.folder_id ∧
        (heap q).position = a.position)
    (h3 : ∀ q ∈ app_list, (∀ a ∈ done, a.name ≠ (fresh_heap q).name) →
      (heap q).is_hidden = false ∧ (heap q).folder_id = none ∧ (heap q).position = -1) :
    (∀ q, ((todo.foldl (apply_saved app_list) heap) q).name = (fresh_heap q).name) ∧
    (∀ q ∈ app_list, ∀ a ∈ done ++ todo, a.name = (fresh_heap q).name →
      ((todo.foldl (apply_saved app_list) heap) q).is_hidden = a.is_hidden ∧
      ((todo.foldl (apply_saved app_list) heap) q).folder_id = a.folder_id ∧
      ((todo.foldl (apply_saved app_list) heap) q).position = a.position) ∧
    (∀ q ∈ app_list, (∀ a ∈ done ++ todo, a.name ≠ (fresh_heap q).name) →
      ((todo.foldl (apply_saved app_list) heap) q).is_hidden = false ∧
      ((todo.foldl (apply_saved app_list) heap) q).folder_id = none ∧
      ((todo.foldl (apply_saved app_list) heap) q).position = -1) := by
  induction todo generalizing done heap with
  | nil => simpa using ⟨h1, h2, h3⟩
  | cons a todo ih =>
    simp only [List.foldl_cons]
    have hnd2 : (((done ++ [a]) ++ todo).map (·.name)).Nodup := by
      simpa [List.append_assoc] using hnd
    have ha_new : ∀ b ∈ done, b.name ≠ a.name := by
      intro b hb hbn
      have hnd3 : ((done.map (·.name)) ++ (a.name :: todo.map (·.name))).Nodup := by
        simpa using hnd
      have hdis := (List.nodup_append.1 hnd3).2.2
      exact hdis (List.mem_map_of_mem _ hb) (by rw [hbn]; exact List.mem_cons_self _ _)
    have hpa := hpos a (List.mem_cons_self _ _)
    have hres := ih (done ++ [a]) (apply_saved app_list heap a) hnd2
      (fun b hb => hpos b (List.mem_cons_of_mem _ hb)) ?_ ?_ ?_
    · simpa [List.append_assoc] using hres
    · intro q
      rw [apply_saved_name, h1]
    · intro q hq b hb hbn
      rcases List.mem_append.1 hb with hb | hb
      · have hne : (heap q).name ≠ a.name := by
          rw [h1]; exact fun h => ha_new b hb (hbn.trans h)
        rw [apply_saved_other _ _ _ _ hne]
        exact h2 q hq b hb hbn
      · simp only [List.mem_singleton] at hb
        subst hb
        have hdef := h3 q hq (fun c hc hcn => ha_new c hc (hcn.trans hbn.symm))
        rw [apply_saved_at]
        by_cases hsaved : b.is_hidden ∨ b.folder_id.isSome ∨ b.position ≠ -1
        · have hfind : app_list.find? (fun app => (heap app).name = b.name) = some q := by
            cases hf : app_list.find? (fun app => (heap app).name = b.name) with
            | none =>
              rw [List.find?_eq_none] at hf
              exact absurd (by simp [h1, hbn]) (hf q hq)
            | some x =>
              have hxn := List.find?_some hf
              simp only [decide_eq_true_eq] at hxn
              have hxm := List.mem_of_find?_eq_some hf
              have : x = q := by
                apply List.inj_on_of_nodup_map hnames hxm hq
                show (fresh_heap x).name = (fresh_heap q).name
                rw [← h1 x, hxn, hbn]
              rw [this]
          rw [if_pos ⟨hsaved, hfind⟩]
          refine ⟨?_, ?_, atoi_fmt_d _ hpa.1 hpa.2⟩
          · cases hh : b.is_hidden <;> simp [hdef.1]
          · cases hf : b.folder_id <;> simp [hdef.2.1]
        · rw [if_neg (fun hc => hsaved hc.1)]
          simp only [not_or, Bool.not_eq_true, Option.not_isSome, Option.isNone_iff_eq_none,
            ne_eq, not_not] at hsaved
          rw [hdef.1, hdef.2.1, hdef.2.2, hsaved.1, hsaved.2.1, hsaved.2.2]
          exact ⟨rfl, rfl, rfl⟩
    · intro q hq hno
      have hne : (heap q).name ≠ a.name := by
        rw [h1]; exact fun h => hno a (by simp) h.symm
      rw [apply_saved_other _ _ _ _ hne]
      exact h3 q hq (fun c hc => hno c (by simp [hc]))

/-- `load_configuration` on the file `save_configuration` wrote for a catalog
whose strings are plain: the folders are appended with empty member lists, the
written attributes are applied, and `app_list` is rearranged. -/
theorem load_configuration_saved (collate : String → String → Int) (isalpha : Char → Bool)
    (reread : (AppPtr → AppInfo) → AppPtr → AppInfo) (old fresh : LauncherPlugin)
    (hplain : catalog_plain old)
    (hfile : fresh.config_file = some (save_configuration_xml old)) :
    (load_configuration collate isalpha reread fresh).app_list.Perm fresh.app_list ∧
    (load_configuration collate isalpha reread fresh).folder_list
      = fresh.folder_list ++ old.folder_list.map restored_folder ∧
    (load_configuration collate isalpha reread fresh).heap
      = (old.app_list.map old.heap).foldl (apply_saved fresh.app_list) fresh.heap := by
  unfold load_configuration
  rw [hfile]
  simp only [g_markup_parse_saved isalpha old hplain, run_saved_events]
  refine ⟨g_list_sort_perm _ _, ?_, ?_⟩ <;> trivial

/-- Every field written by `save_configuration` comes back through
`load_configuration` on a fresh scan of the same application set, for catalogs
with distinct names, plain strings and `gint` positions. -/
theorem load_configuration_saved_fields (collate : String → String → Int) (isalpha : Char → Bool)
    (reread : (AppPtr → AppInfo) → AppPtr → AppInfo) (old fresh : LauncherPlugin)
    (hplain : catalog_plain old)
    (hold : (old.app_list.map (fun p => (old.heap p).name)).Nodup)
    (hfresh : (fresh.app_list.map (fun p => (fresh.heap p).name)).Nodup)
    (hsame : ∀ n, n ∈ old.app_list.map (fun p => (old.heap p).name) ↔
      n ∈ fresh.app_list.map (fun p => (fresh.heap p).name))
    (hdefault : ∀ q ∈ fresh.app_list, (fresh.heap q).is_hidden = false ∧
      (fresh.heap q).folder_id = none ∧ (fresh.heap q).position = -1)
    (hpos : ∀ p ∈ old.app_list,
      -(2 ^ 31) ≤ (old.heap p).position ∧ (old.heap p).position < 2 ^ 31)
    (hfile : fresh.config_file = some (save_configuration_xml old)) :
    (load_configuration collate isalpha reread fresh).app_list.Perm fresh.app_list ∧
    (∀ q, ((load_configuration collate isalpha reread fresh).heap q).name
        = (fresh.heap q).name) ∧
    (∀ p ∈ old.app_list, ∃ q ∈ (load_configuration collate isalpha reread fresh).app_list,
      ((load_configuration collate isalpha reread fresh).heap q).name = (old.heap p).name) ∧
    (∀ p ∈ old.app_list, ∀ q ∈ (load_configuration collate isalpha reread fresh).app_list,
      ((load_configuration collate isalpha reread fresh).heap q).name = (old.heap p).name →
      ((load_configuration collate isalpha reread fresh).heap q).is_hidden
          = (old.heap p).is_hidden ∧
      ((load_configuration collate isalpha reread fresh).heap q).folder_id
          = (old.heap p).folder_id ∧
      ((load_configuration collate isalpha reread fresh).heap q).position
          = (old.heap p).position) := by
  obtain ⟨hperm, _, hheap⟩ :=
    load_configuration_saved collate isalpha reread old fresh hplain hfile
  have hnd : (([] ++ old.app_list.map old.heap).map (fun a : AppInfo => a.name)).Nodup := by
    simpa [List.map_map, Function.comp_def] using hold
  obtain ⟨i1, i2, _⟩ := apply_saved_invariant fresh.app_list fresh.heap hfresh
    (old.app_list.map old.heap) [] fresh.heap hnd
    (by
      intro a ha
      obtain ⟨p, hp, rfl⟩ := List.mem_map.1 ha
      exact hpos p hp)
    (fun _ => rfl) (by simp) (fun q hq _ => hdefault q hq)
  rw [hheap]
  refine ⟨hperm, i1, ?_, ?_⟩
  · intro p hp
    have hn : (old.heap p).name ∈ fresh.app_list.map (fun p => (fresh.heap p).name) :=
      (hsame _).1 (List.mem_map_of_mem _ hp)
    obtain ⟨q, hq, hqn⟩ := List.mem_map.1 hn
    exact ⟨q, hperm.mem_iff.2 hq, by rw [i1]; exact hqn⟩
  · intro p hp q hq hn
    rw [i1] at hn
    exact i2 q (hperm.mem_iff.1 hq) (old.heap p)
      (by simpa using List.mem_map_of_mem old.heap hp) hn.symm

/-- Claim C5: for every catalog with distinct names whose written strings are
plain (none of the characters `"`, `&`, `<`, `>`, tab, line feed, carriage
return) and whose positions are `gint` values, `save_configuration` followed by
`load_configuration` on a fresh scan of the same application set gives every
application the hidden flag, the folder reference and the position it had
before the save. -/
theorem save_load_restores_fields (collate : String → String → Int) (isalpha : Char → Bool)
    (reread : (AppPtr → AppInfo) → AppPtr → AppInfo) (old fresh : LauncherPlugin)
    (hplain : catalog_plain old)
    (hold : (old.app_list.map (fun p => (old.heap p).name)).Nodup)
    (hfresh : (fresh.app_list.map (fun p => (fresh.heap p).name)).Nodup)
    (hsame : ∀ n, n ∈ old.app_list.map (fun p => (old.heap p).name) ↔
      n ∈ fresh.app_list.map (fun p => (fresh.heap p).name))
    (hdefault : ∀ q ∈ fresh.app_list, (fresh.heap q).is_hidden = false ∧
      (fresh.heap q).folder_id = none ∧ (fresh.heap q).position = -1)
    (hpos : ∀ p ∈ old.app_list,
      -(2 ^ 31) ≤ (old.heap p).position ∧ (old.heap p).position < 2 ^ 31)
    (hfile : fresh.config_file = some (save_configuration_xml old)) :
    (load_configuration collate isalpha reread fresh).app_list.Perm fresh.app_list ∧
    (∀ q, ((load_configuration collate isalpha reread fresh).heap q).name
        = (fresh.heap q).name) ∧
    (∀ p ∈ old.app_list, ∃ q ∈ (load_configuration collate isalpha reread fresh).app_list,
      ((load_configuration collate isalpha reread fresh).heap q).name = (old.heap p).name) ∧
    (∀ p ∈ old.app_list, ∀ q ∈ (load_configuration collate isalpha reread fresh).app_list,
      ((load_configuration collate isalpha reread fresh).heap q).name = (old.heap p).name →
      ((load_configuration collate isalpha reread fresh).heap q).is_hidden
          = (old.heap p).is_hidden ∧
      ((load_configuration collate isalpha reread fresh).heap q).folder_id
          = (old.heap p).folder_id ∧
      ((load_configuration collate isalpha reread fresh).heap q).position
          = (old.heap p).position) :=
  load_configuration_saved_fields collate isalpha reread old fresh hplain hold hfresh hsame hdefault
    hpos hfile

/-! ## Save and load on examples -/

/-- Claim C5 on the catalog `ex_arranged`: Calculator and GIMP are in a folder,
Firefox is hidden and all three are positioned. -/
theorem save_load_restores_fields_witness :
    catalog_plain ex_arranged ∧
    ex_arranged.app_list.map (fun p => ((ex_arranged.heap p).name, (ex_arranged.heap p).is_hidden,
        (ex_arranged.heap p).folder_id, (ex_arranged.heap p).position))
      = [("Firefox", true, none, (0 : Int)), ("GIMP", false, some "folder_12345", (1 : Int)),
         ("Calculator", false, some "folder_12345", (2 : Int))] ∧
    (∀ p ∈ ex_arranged.app_list, ∀ q ∈ ex_arranged_reloaded.app_list,
      (ex_arranged_reloaded.heap q).name = (ex_arranged.heap p).name →
      (ex_arranged_reloaded.heap q).is_hidden = (ex_arranged.heap p).is_hidden ∧
      (ex_arranged_reloaded.heap q).folder_id = (ex_arranged.heap p).folder_id ∧
      (ex_arranged_reloaded.heap q).position = (ex_arranged.heap p).position) :=
  have hplain : catalog_plain ex_arranged := by unfold catalog_plain; decide
  have e1 : ex_arranged.app_list.map (fun p => (ex_arranged.heap p).name)
      = ["Firefox", "GIMP", "Calculator"] := by decide
  have e2 : (ex_fresh_three (some (save_configuration_xml ex_arranged))).app_list.map
      (fun p => ((ex_fresh_three (some (save_configuration_xml ex_arranged))).heap p).name)
      = ["Calculator", "Firefox", "GIMP"] := by decide
  ⟨hplain, by decide,
    (save_load_restores_fields ex_collate (fun _ => false) (fun heap app => heap app)
      ex_arranged (ex_fresh_three (some (save_configuration_xml ex_arranged)))
      hplain (by rw [e1]; decide) (by rw [e2]; decide)
      (by intro n; rw [e1, e2]; simp only [List.mem_cons, List.mem_singleton,
            List.not_mem_nil, or_false]; tauto)
      (by decide) (by decide) rfl).2.2.2⟩

/-- Claim C4 at a failing input: Calculator is dragged behind GIMP, which
numbers the positions and saves.  At the next start the positions are read
back, but the final sort compares what lies behind the name strings, here
zeros, and leaves the scan order Calculator, Firefox, GIMP.  A comparator that
saw the records themselves would restore Firefox, GIMP, Calculator. -/
theorem order_lost_after_reload :
    ex_reordered.app_list.map
        (fun p => ((ex_reordered.heap p).name, (ex_reordered.heap p).position))
      = [("Firefox", (0 : Int)), ("GIMP", (1 : Int)), ("Calculator", (2 : Int))] ∧
    ex_reordered_reloaded.app_list.map
        (fun p => ((ex_reordered_reloaded.heap p).name, (ex_reordered_reloaded.heap p).position))
      = [("Calculator", (2 : Int)), ("Firefox", (0 : Int)), ("GIMP", (1 : Int))] ∧
    ex_reordered_reloaded_intended.app_list.map
        (fun p => ((ex_reordered_reloaded_intended.heap p).name,
          (ex_reordered_reloaded_intended.heap p).position))
      = [("Firefox", (0 : Int)), ("GIMP", (1 : Int)), ("Calculator", (2 : Int))] := by
  set_option maxRecDepth 100000 in decide

/-- Claim C6 at a failing input: the folder of `ex_arranged` holds GIMP and
Calculator.  After saving and loading, the folder is back with its id, name and
icon and both applications refer to it, but its member list is empty. -/
theorem folder_members_lost_after_reload :
    ex_arranged.folder_list
      = [{ id := "folder_12345", name := "New Folder", icon := "folder", apps := [2, 0],
           is_open := false }] ∧
    ex_arranged.app_list.map (fun p => ((ex_arranged.heap p).name, (ex_arranged.heap p).folder_id))
      = [("Firefox", none), ("GIMP", some "folder_12345"),
         ("Calculator", some "folder_12345")] ∧
    ex_arranged_reloaded.folder_list
      = [{ id := "folder_12345", name := "New Folder", icon := "folder", apps := [],
           is_open := false }] ∧
    ex_arranged_reloaded.app_list.map
        (fun p => ((ex_arranged_reloaded.heap p).name, (ex_arranged_reloaded.heap p).folder_id))
      = [("Firefox", none), ("GIMP", some "folder_12345"),
         ("Calculator", some "folder_12345")] ∧
    (∀ folder ∈ ex_arranged.folder_list, ∀ app ∈ ex_arranged.app_list,
      ((ex_arranged.heap app).folder_id = some folder.id ↔ app ∈ folder.apps)) ∧
    ¬ (∀ folder ∈ ex_arranged_reloaded.folder_list, ∀ app ∈ ex_arranged_reloaded.app_list,
      ((ex_arranged_reloaded.heap app).folder_id = some folder.id ↔ app ∈ folder.apps)) ∧
    ¬ folder_invariant ex_arranged_reloaded := by
  have h3 : ex_arranged_reloaded.folder_list
      = [{ id := "folder_12345", name := "New Folder", icon := "folder", apps := [],
           is_open := false }] := by
    set_option maxRecDepth 100000 in decide
  refine ⟨by decide, by decide, h3, by set_option maxRecDepth 100000 in decide, by decide,
    by set_option maxRecDepth 100000 in decide, ?_⟩
  intro h
  have h1 := h { id := "folder_12345", name := "New Folder", icon := "folder", apps := [],
                 is_open := false } (by rw [h3]; exact List.mem_singleton.2 rfl) 0
  have h2 : (ex_arranged_reloaded.heap 0).folder_id = some "folder_12345" := by
    set_option maxRecDepth 100000 in decide
  exact absurd (h1.1 h2) (by simp)

/-- Claim C7 at a failing input: Calculator and "R&D Tool" are hidden.  The file
holds the name with its ampersand as it is, the reader stops there with an
error, and at the next start Calculator is hidden but "R&D Tool" is not. -/
theorem ampersand_name_lost_after_reload :
    ex_ampersand_hidden.app_list.map
        (fun p => ((ex_ampersand_hidden.heap p).name, (ex_ampersand_hidden.heap p).is_hidden))
      = [("Calculator", true), ("R&D Tool", true)] ∧
    ex_ampersand_hidden.config_file = some (save_configuration_xml ex_ampersand_hidden) ∧
    (g_markup_parse (fun _ => false) (save_configuration_xml ex_ampersand_hidden)).2 = false ∧
    ex_ampersand_reloaded.app_list.map
        (fun p => ((ex_ampersand_reloaded.heap p).name, (ex_ampersand_reloaded.heap p).is_hidden))
      = [("Calculator", true), ("R&D Tool", false)] := by
  set_option maxRecDepth 100000 in decide

/-! ## GLib list sort: the result is in order -/

theorem g_list_sort_merge_sorted {α : Type} (cmp : α → α → Int) (P : α → Prop)
    (htotal : ∀ a b, P a → P b → cmp a b ≤ 0 ∨ cmp b a ≤ 0)
    (htrans : ∀ a b c, P a → P b → P c → cmp a b ≤ 0 → cmp b c ≤ 0 → cmp a c ≤ 0)
    (l1 l2 : List α) (hP1 : ∀ x ∈ l1, P x) (hP2 : ∀ x ∈ l2, P x)
    (h1 : l1.Pairwise (fun a b => cmp a b ≤ 0))
    (h2 : l2.Pairwise (fun a b => cmp a b ≤ 0)) :
    (g_list_sort_merge cmp l1 l2).Pairwise (fun a b => cmp a b ≤ 0) := by
  induction l1 generalizing l2 with
  | nil => simpa [g_list_sort_merge] using h2
  | cons a l1 ih =>
    simp only [g_list_sort_merge]
    have ha := List.pairwise_cons.1 h1
    have hPa : P a := hP1 a (List.mem_cons_self _ _)
    have hPl1 : ∀ x ∈ l1, P x := fun x hx => hP1 x (List.mem_cons_of_mem _ hx)
    induction l2 with
    | nil => simpa [g_list_sort_merge_from] using h1
    | cons b l2 ih2 =>
      have hb := List.pairwise_cons.1 h2
      have hPb : P b := hP2 b (List.mem_cons_self _ _)
      have hPl2 : ∀ x ∈ l2, P x := fun x hx => hP2 x (List.mem_cons_of_mem _ hx)
      simp only [g_list_sort_merge_from]
      split
      · rename_i hab
        refine List.pairwise_cons.2 ⟨?_, ih (b :: l2) hPl1 hP2 ha.2 h2⟩
        intro x hx
        rw [(g_list_sort_merge_perm cmp l1 (b :: l2)).mem_iff] at hx
        rcases List.mem_append.1 hx with hx | hx
        · exact ha.1 x hx
        · rcases List.mem_cons.1 hx with rfl | hx
          · exact hab
          · exact htrans _ _ _ hPa hPb (hPl2 x hx) hab (hb.1 x hx)
      · rename_i hab
        have hba : cmp b a ≤ 0 := by
          rcases htotal a b hPa hPb with h | h
          · exact absurd h hab
          · exact h
        refine List.pairwise_cons.2 ⟨?_, ih2 hPl2 hb.2⟩
        intro x hx
        have hperm : (g_list_sort_merge_from cmp a l1 (g_list_sort_merge cmp l1) l2).Perm
            ((a :: l1) ++ l2) := by
          have := g_list_sort_merge_perm cmp (a :: l1) l2
          simpa only [g_list_sort_merge] using this
        rw [hperm.mem_iff] at hx
        rcases List.mem_append.1 hx with hx | hx
        · rcases List.mem_cons.1 hx with rfl | hx
          · exact hba
          · exact htrans _ _ _ hPb hPa (hPl1 x hx) hba (ha.1 x hx)
        · exact hb.1 x hx

theorem g_list_sort_real_sorted {α : Type} (cmp : α → α → Int) (P : α → Prop)
    (htotal : ∀ a b, P a → P b → cmp a b ≤ 0 ∨ cmp b a ≤ 0)
    (htrans : ∀ a b c, P a → P b → P c → cmp a b ≤ 0 → cmp b c ≤ 0 → cmp a c ≤ 0)
    (depth : Nat) (l : List α) (hP : ∀ x ∈ l, P x) (h : l.length ≤ depth) :
    (g_list_sort_real cmp depth l).Pairwise (fun a b => cmp a b ≤ 0) := by
  induction depth generalizing l with
  | zero =>
    have : l = [] := List.length_eq_zero.1 (by omega)
    subst this
    simp [g_list_sort_real]
  | succ d ih =>
    simp only [g_list_sort_real]
    split
    · rename_i hlt
      match l, hlt with
      | [], _ => exact List.Pairwise.nil
      | [x], _ => exact List.pairwise_singleton _ _
      | _ :: _ :: _, hlt => simp at hlt; omega
    · rename_i hge
      have hPt : ∀ x ∈ l.take (l.length / 2), P x := fun x hx => hP x (List.mem_of_mem_take hx)
      have hPd : ∀ x ∈ l.drop (l.length / 2), P x := fun x hx => hP x (List.mem_of_mem_drop hx)
      apply g_list_sort_merge_sorted cmp P htotal htrans
      · intro x hx
        exact hPt x ((g_list_sort_real_perm cmp d _).mem_iff.1 hx)
      · intro x hx
        exact hPd x ((g_list_sort_real_perm cmp d _).mem_iff.1 hx)
      · apply ih _ hPt
        rw [List.length_take]
        omega
      · apply ih _ hPd
        rw [List.length_drop]
        omega

/-- With a comparator that is total and transitive on the elements of the
list, `g_list_sort` returns the list in ascending order. -/
theorem g_list_sort_sorted {α : Type} (cmp : α → α → Int) (P : α → Prop)
    (htotal : ∀ a b, P a → P b → cmp a b ≤ 0 ∨ cmp b a ≤ 0)
    (htrans : ∀ a b c, P a → P b → P c → cmp a b ≤ 0 → cmp b c ≤ 0 → cmp a c ≤ 0)
    (l : List α) (hP : ∀ x ∈ l, P x) :
    (g_list_sort l cmp).Pairwise (fun a b => cmp a b ≤ 0) :=
  g_list_sort_real_sorted cmp P htotal htrans l.length l hP (le_refl _)

/-! ## Positions -/

theorem foldl_recalculate_step_other (l : List AppPtr) (heap : AppPtr → AppInfo) (c : Int)
    (q : AppPtr) (hq : q ∉ l) : (l.foldl recalculate_step (heap, c)).1 q = heap q := by
  induction l generalizing heap c with
  | nil => rfl
  | cons a l ih =>
    simp only [List.mem_cons, not_or] at hq
    simp only [List.foldl_cons, recalculate_step]
    rw [ih _ _ hq.2]
    simp [store, hq.1]

/-- The loop of `recalculate_positions` changes nothing but positions. -/
theorem foldl_recalculate_step_fields (l : List AppPtr) (heap : AppPtr → AppInfo) (c : Int)
    (q : AppPtr) :
    (l.foldl recalculate_step (heap, c)).1 q
      = { heap q with position := ((l.foldl recalculate_step (heap, c)).1 q).position } := by
  induction l generalizing heap c with
  | nil => rfl
  | cons a l ih =>
    simp only [List.foldl_cons, recalculate_step]
    rw [ih]
    by_cases hq : q = a
    · subst hq; simp [store]
    · simp [store, hq]

/-- The loop of `recalculate_positions` numbers the records of a list without
repetition from the start value of the counter on. -/
theorem foldl_recalculate_step_positions (l : List AppPtr) (heap : AppPtr → AppInfo) (c : Int)
    (hnd : l.Nodup) (hc : -(2 ^ 31) ≤ c) (hb : c + l.length ≤ 2 ^ 31) :
    l.map (fun q => ((l.foldl recalculate_step (heap, c)).1 q).position)
      = (List.range l.length).map (fun (i : Nat) => c + (i : Int)) := by
  induction l generalizing heap c with
  | nil => rfl
  | cons a l ih =>
    have hnd2 := List.nodup_cons.1 hnd
    simp only [List.foldl_cons, List.map_cons, List.length_cons, List.range_succ_eq_map,
      List.map_map]
    have hhead : ((l.foldl recalculate_step (recalculate_step (heap, c) a)).1 a).position = c := by
      simp only [recalculate_step]
      rw [foldl_recalculate_step_other _ _ _ _ hnd2.1]
      simp [store]
    rw [hhead]
    simp only [Nat.cast_zero, add_zero, List.cons.injEq, true_and]
    cases l with
    | nil => rfl
    | cons b l =>
      simp only [List.length_cons, Nat.cast_add, Nat.cast_one] at hb
      have hw : wrap32 (c + 1) = c + 1 := by
        unfold wrap32
        have h0 : (0 : Int) ≤ (l.length : Int) := Int.natCast_nonneg _
        rw [Int.emod_eq_of_lt (by omega) (by omega)]
        omega
      have := ih (store heap a { heap a with position := c }) (wrap32 (c + 1)) hnd2.2
        (by rw [hw]; omega)
        (by rw [hw]; simp only [List.length_cons, Nat.cast_add, Nat.cast_one]; omega)
      simp only [recalculate_step]
      rw [this, hw]
      apply List.map_congr_left
      intro i _
      simp only [Function.comp, Nat.succ_eq_add_one, Nat.cast_add, Nat.cast_one]
      omega

/-- After `recalculate_positions` on a list without repetition and shorter than
`2^31`, the positions along `app_list` are 0, 1, 2, ... -/
theorem recalculate_positions_positions (launcher : LauncherPlugin)
    (hnd : launcher.app_list.Nodup) (hlen : launcher.app_list.length ≤ 2 ^ 31) :
    (recalculate_positions launcher).app_list.map
        (fun q => ((recalculate_positions launcher).heap q).position)
      = (List.range launcher.app_list.length).map (fun (i : Nat) => (i : Int)) := by
  have := foldl_recalculate_step_positions launcher.app_list launcher.heap 0 hnd (by norm_num)
    (by
      have : (launcher.app_list.length : Int) ≤ 2 ^ 31 := by exact_mod_cast hlen
      omega)
  simpa [recalculate_positions] using this

theorem recalculate_positions_name (launcher : LauncherPlugin) (q : AppPtr) :
    ((recalculate_positions launcher).heap q).name = (launcher.heap q).name := by
  show ((launcher.app_list.foldl recalculate_step (launcher.heap, 0)).1 q).name = _
  rw [foldl_recalculate_step_fields]

/-! ## The order of the list after a load, for a comparator that reads the list's records -/

theorem load_configuration_saved_order (collate : String → String → Int)
    (isalpha : Char → Bool) (reread : (AppPtr → AppInfo) → AppPtr → AppInfo)
    (old fresh : LauncherPlugin) (hplain : catalog_plain old)
    (hfile : fresh.config_file = some (save_configuration_xml old)) :
    (load_configuration collate isalpha reread fresh).app_list
      = g_list_sort fresh.app_list (fun a b =>
          sort_apps_by_position collate
            (reread (load_configuration collate isalpha reread fresh).heap a)
            (reread (load_configuration collate isalpha reread fresh).heap b)) := by
  unfold load_configuration
  rw [hfile]
  simp only [g_markup_parse_saved isalpha old hplain, run_saved_events]

theorem map_eq_of_inj_on {α β : Type} (f : α → β) (l1 l2 : List α)
    (hinj : ∀ x ∈ l1, ∀ y ∈ l2, f x = f y → x = y) (h : l1.map f = l2.map f) : l1 = l2 := by
  induction l1 generalizing l2 with
  | nil =>
    cases l2 with
    | nil => rfl
    | cons b l2 => simp at h
  | cons a l1 ih =>
    cases l2 with
    | nil => simp at h
    | cons b l2 =>
      simp only [List.map_cons, List.cons.injEq] at h
      have hab := hinj a (List.mem_cons_self _ _) b (List.mem_cons_self _ _) h.1
      rw [hab, ih l2 (fun x hx y hy => hinj x (List.mem_cons_of_mem _ hx) y
        (List.mem_cons_of_mem _ hy)) h.2]

theorem range_cast_sorted (n : Nat) :
    ((List.range n).map (fun (i : Nat) => (i : Int))).Pairwise (fun a b => a ≤ b) := by
  rw [List.pairwise_map]
  exact (List.pairwise_lt_range n).imp (fun h => by exact_mod_cast Nat.le_of_lt h)

theorem range_cast_nodup (n : Nat) :
    ((List.range n).map (fun (i : Nat) => (i : Int))).Nodup :=
  (List.nodup_range n).map (fun a b h => by exact_mod_cast h)

/-- With a comparator that reads the records of the list (`reread` the plain
dereference), a catalog written after `recalculate_positions` comes back from
`load_configuration` on a fresh scan of the same application set in the order
it had: the defect of `sort_apps_by_position` is all that loses the order. -/
theorem load_configuration_restores_order (collate : String → String → Int)
    (isalpha : Char → Bool) (launcher fresh : LauncherPlugin)
    (hplain : catalog_plain (recalculate_positions launcher))
    (hold : (launcher.app_list.map (fun p => (launcher.heap p).name)).Nodup)
    (hlen : launcher.app_list.length < 2 ^ 31)
    (hfresh : (fresh.app_list.map (fun p => (fresh.heap p).name)).Nodup)
    (hsame : ∀ n, n ∈ launcher.app_list.map (fun p => (launcher.heap p).name) ↔
      n ∈ fresh.app_list.map (fun p => (fresh.heap p).name))
    (hdefault : ∀ q ∈ fresh.app_list, (fresh.heap q).is_hidden = false ∧
      (fresh.heap q).folder_id = none ∧ (fresh.heap q).position = -1)
    (hfile : fresh.config_file
      = some (save_configuration_xml (recalculate_positions launcher))) :
    (load_configuration collate isalpha (fun heap app => heap app) fresh).app_list.map
        (fun q =>
          ((load_configuration collate isalpha (fun heap app => heap app) fresh).heap q).name)
      = launcher.app_list.map (fun p => (launcher.heap p).name) := by
  have hnames : (recalculate_positions launcher).app_list.map
      (fun p => ((recalculate_positions launcher).heap p).name)
      = launcher.app_list.map (fun p => (launcher.heap p).name) := by
    show launcher.app_list.map _ = _
    simp only [recalculate_positions_name]
  have happs : (recalculate_positions launcher).app_list = launcher.app_list := rfl
  have hposlist := recalculate_positions_positions launcher (List.Nodup.of_map _ hold)
    (Nat.le_of_lt hlen)
  generalize recalculate_positions launcher = old at hplain hfile hnames happs hposlist
  have hlenZ : (launcher.app_list.length : Int) < 2 ^ 31 := by exact_mod_cast hlen
  have hold2 : (old.app_list.map (fun p => (old.heap p).name)).Nodup := by rw [hnames]; exact hold
  have hpos : ∀ p ∈ old.app_list,
      0 ≤ (old.heap p).position ∧ (old.heap p).position < 2 ^ 31 := by
    intro p hp
    have hm : (old.heap p).position ∈ old.app_list.map (fun q => (old.heap q).position) :=
      List.mem_map_of_mem (fun q => (old.heap q).position) hp
    rw [hposlist] at hm
    obtain ⟨i, hi, hip⟩ := List.mem_map.1 hm
    have hi2 : (i : Int) < launcher.app_list.length := by exact_mod_cast List.mem_range.1 hi
    have hi0 : (0 : Int) ≤ (i : Int) := Int.natCast_nonneg _
    rw [← hip]
    constructor <;> omega
  obtain ⟨hperm, hname, _, hfields⟩ :=
    load_configuration_saved_fields collate isalpha (fun heap app => heap app) old fresh hplain
      hold2 hfresh (by rw [hnames]; exact hsame) hdefault
      (fun p hp => ⟨by have := (hpos p hp).1; omega, (hpos p hp).2⟩) hfile
  have horder := load_configuration_saved_order collate isalpha (fun heap app => heap app)
    old fresh hplain hfile
  generalize load_configuration collate isalpha (fun heap app => heap app) fresh = loaded
    at hperm hname hfields horder ⊢
  -- the position that the written file gives to a name
  let posOf : String → Int := fun n =>
    match old.app_list.find? (fun p => decide ((old.heap p).name = n)) with
    | some p => (old.heap p).position
    | none => 0
  have hposOf_old : ∀ p ∈ old.app_list, posOf (old.heap p).name = (old.heap p).position := by
    intro p hp
    show (match old.app_list.find? (fun p2 => decide ((old.heap p2).name = (old.heap p).name)) with
      | some p => (old.heap p).position
      | none => 0) = _
    cases hf : old.app_list.find? (fun p2 => decide ((old.heap p2).name = (old.heap p).name)) with
    | none =>
      have := List.find?_eq_none.1 hf p hp
      simp at this
    | some p2 =>
      have h1 := List.find?_some hf
      have h2 := List.mem_of_find?_eq_some hf
      have : p2 = p := List.inj_on_of_nodup_map hold2 h2 hp (by simpa using h1)
      rw [this]
  have hposOf_new : ∀ q ∈ loaded.app_list,
      (loaded.heap q).position = posOf (loaded.heap q).name := by
    intro q hq
    have hn : (loaded.heap q).name ∈ fresh.app_list.map (fun p => (fresh.heap p).name) := by
      rw [hname]
      exact List.mem_map_of_mem (fun p => (fresh.heap p).name) (hperm.mem_iff.1 hq)
    rw [← hsame, ← hnames] at hn
    obtain ⟨p, hp, hpn⟩ := List.mem_map.1 hn
    rw [(hfields p hp q hq hpn.symm).2.2, ← hpn, hposOf_old p hp]
  have hposR : ∀ q ∈ loaded.app_list,
      0 ≤ (loaded.heap q).position ∧ (loaded.heap q).position < 2 ^ 31 := by
    intro q hq
    have hn : (loaded.heap q).name ∈ fresh.app_list.map (fun p => (fresh.heap p).name) := by
      rw [hname]
      exact List.mem_map_of_mem (fun p => (fresh.heap p).name) (hperm.mem_iff.1 hq)
    rw [← hsame, ← hnames] at hn
    obtain ⟨p, hp, hpn⟩ := List.mem_map.1 hn
    rw [(hfields p hp q hq hpn.symm).2.2]
    exact hpos p hp
  have hcmp : ∀ a ∈ fresh.app_list, ∀ b ∈ fresh.app_list,
      (sort_apps_by_position collate (loaded.heap a) (loaded.heap b) ≤ 0 ↔
        (loaded.heap a).position ≤ (loaded.heap b).position) := by
    intro a ha b hb
    have h1 := hposR a (hperm.mem_iff.2 ha)
    have h2 := hposR b (hperm.mem_iff.2 hb)
    unfold sort_apps_by_position
    rw [if_neg (by omega), if_neg (by omega), if_neg (by omega),
      wrap32_of_range _ (by omega) (by omega)]
    omega
  have hsorted : loaded.app_list.Pairwise
      (fun a b => (loaded.heap a).position ≤ (loaded.heap b).position) := by
    have := g_list_sort_sorted
      (fun a b => sort_apps_by_position collate (loaded.heap a) (loaded.heap b))
      (fun q => q ∈ fresh.app_list)
      (by
        intro a b ha hb
        rw [hcmp a ha b hb, hcmp b hb a ha]
        exact le_total _ _)
      (by
        intro a b c ha hb hc
        rw [hcmp a ha b hb, hcmp b hb c hc, hcmp a ha c hc]
        exact le_trans)
      fresh.app_list (fun x hx => hx)
    rw [← horder] at this
    exact this.imp_of_mem (fun {a b} ha hb h =>
      (hcmp a (hperm.mem_iff.1 ha) b (hperm.mem_iff.1 hb)).1 h)
  -- the names of the loaded list, keyed by their written positions
  have hM1 : (loaded.app_list.map (fun q => (loaded.heap q).name)).map posOf
      = loaded.app_list.map (fun q => (loaded.heap q).position) := by
    rw [List.map_map]
    exact List.map_congr_left (fun q hq => (hposOf_new q hq).symm)
  have hO1 : (old.app_list.map (fun p => (old.heap p).name)).map posOf
      = (List.range launcher.app_list.length).map (fun (i : Nat) => (i : Int)) := by
    rw [List.map_map, ← hposlist]
    exact List.map_congr_left (fun p hp => hposOf_old p hp)
  have hpermN : (loaded.app_list.map (fun q => (loaded.heap q).name)).Perm
      (old.app_list.map (fun p => (old.heap p).name)) := by
    have h1 : (loaded.app_list.map (fun q => (loaded.heap q).name)).Perm
        (fresh.app_list.map (fun p => (fresh.heap p).name)) := by
      simp only [hname]
      exact hperm.map _
    refine h1.trans ((List.perm_ext_iff_of_nodup hfresh hold2).2 ?_)
    intro n
    rw [hnames]
    exact (hsame n).symm
  have hkeys : (loaded.app_list.map (fun q => (loaded.heap q).name)).map posOf
      = (old.app_list.map (fun p => (old.heap p).name)).map posOf := by
    apply @List.eq_of_perm_of_sorted Int (fun a b => a ≤ b) ⟨fun _ _ => le_antisymm⟩ _ _
      (hpermN.map posOf)
    · rw [hM1]
      exact List.pairwise_map.2 hsorted
    · rw [hO1]
      exact range_cast_sorted _
  have hinj : ∀ x ∈ loaded.app_list.map (fun q => (loaded.heap q).name),
      ∀ y ∈ old.app_list.map (fun p => (old.heap p).name), posOf x = posOf y → x = y := by
    intro x hx y hy hxy
    exact List.inj_on_of_nodup_map (by rw [hO1]; exact range_cast_nodup _)
      (hpermN.mem_iff.1 hx) hy hxy
  rw [← hnames]
  exact map_eq_of_inj_on posOf _ _ hinj hkeys

/-- The theorem above at the three-application catalog after the drag that
puts Calculator last. -/
theorem load_configuration_restores_order_example :
    (load_configuration ex_collate (fun _ => false) (fun heap app => heap app)
        (ex_fresh_three
          (some (save_configuration_xml (recalculate_positions ex_reordered))))).app_list.map
      (fun q =>
        ((load_configuration ex_collate (fun _ => false) (fun heap app => heap app)
          (ex_fresh_three
            (some (save_configuration_xml (recalculate_positions ex_reordered))))).heap q).name)
      = ["Firefox", "GIMP", "Calculator"] :=
  have e1 : ex_reordered.app_list.map (fun p => (ex_reordered.heap p).name)
      = ["Firefox", "GIMP", "Calculator"] := by decide
  have e2 : (ex_fresh_three
        (some (save_configuration_xml (recalculate_positions ex_reordered)))).app_list.map
      (fun p => ((ex_fresh_three
        (some (save_configuration_xml (recalculate_positions ex_reordered)))).heap p).name)
      = ["Calculator", "Firefox", "GIMP"] := by decide
  e1 ▸ load_configuration_restores_order ex_collate (fun _ => false) ex_reordered
    (ex_fresh_three (some (save_configuration_xml (recalculate_positions ex_reordered))))
    (by unfold catalog_plain; decide) (by rw [e1]; decide) (by decide) (by rw [e2]; decide)
    (by intro n; rw [e1, e2]; simp only [List.mem_cons, List.mem_singleton,
          List.not_mem_nil, or_false]; tauto)
    (by decide) rfl

/-! ## Folder pointers without an assumption on the ids -/

theorem modify_folder_length (f : FolderInfo → FolderInfo) (fl : List FolderInfo) (i : Nat) :
    (modify_folder f fl i).length = fl.length := by
  induction fl generalizing i with
  | nil => rfl
  | cons x xs ih =>
    cases i with
    | zero => rfl
    | succ n => simp [modify_folder, ih]

theorem modify_folder_map {β : Type} (g : FolderInfo → β) (f : FolderInfo → FolderInfo)
    (hg : ∀ F, g (f F) = g F) (fl : List FolderInfo) (i : Nat) :
    (modify_folder f fl i).map g = fl.map g := by
  induction fl generalizing i with
  | nil => rfl
  | cons x xs ih =>
    cases i with
    | zero => simp [modify_folder, hg]
    | succ n => simp [modify_folder, ih]

theorem modify_folder_append_lt (f : FolderInfo → FolderInfo) (fl l2 : List FolderInfo)
    (i : Nat) (h : i < fl.length) :
    modify_folder f (fl ++ l2) i = modify_folder f fl i ++ l2 := by
  induction fl generalizing i with
  | nil => simp at h
  | cons x xs ih =>
    cases i with
    | zero => rfl
    | succ n =>
      simp only [List.length_cons, Nat.add_lt_add_iff_right] at h
      simp [modify_folder, ih n h]

theorem modify_folder_append_length (f : FolderInfo → FolderInfo) (fl : List FolderInfo)
    (N : FolderInfo) : modify_folder f (fl ++ [N]) fl.length = fl ++ [f N] := by
  induction fl with
  | nil => rfl
  | cons x xs ih => simp [modify_folder, ih]

theorem find_folder_index_lt {fl : List FolderInfo} {id : String} {i : Nat}
    (h : find_folder_index fl id = some i) : i < fl.length := by
  induction fl generalizing i with
  | nil => simp [find_folder_index] at h
  | cons x xs ih =>
    simp only [find_folder_index] at h
    split at h
    · simp only [Option.some.injEq] at h
      subst h
      simp
    · cases hj : find_folder_index xs id with
      | none => rw [hj] at h; simp at h
      | some j =>
        rw [hj] at h
        simp only [Option.map_some', Option.some.injEq] at h
        subst h
        simpa using ih hj

theorem find_folder_index_of_ne {fl : List FolderInfo} {id : String}
    (h : ∀ F ∈ fl, F.id ≠ id) : find_folder_index fl id = none := by
  induction fl with
  | nil => rfl
  | cons x xs ih =>
    simp only [find_folder_index]
    rw [if_neg (h x (List.mem_cons_self _ _)),
      ih (fun F hF => h F (List.mem_cons_of_mem _ hF))]
    rfl

theorem find_folder_index_append_fresh (fl : List FolderInfo) (N : FolderInfo)
    (h : ∀ F ∈ fl, F.id ≠ N.id) : find_folder_index (fl ++ [N]) N.id = some fl.length := by
  induction fl with
  | nil => simp [find_folder_index]
  | cons x xs ih =>
    have := ih (fun F hF => h F (List.mem_cons_of_mem _ hF))
    show (if x.id = N.id then some 0
      else (find_folder_index (xs ++ [N]) N.id).map (· + 1)) = _
    rw [if_neg (h x (List.mem_cons_self _ _)), this]
    rfl

theorem find_folder_index_congr {fl1 fl2 : List FolderInfo} (id : String)
    (h : fl1.map (fun F => F.id) = fl2.map (fun F => F.id)) :
    find_folder_index fl1 id = find_folder_index fl2 id := by
  induction fl1 generalizing fl2 with
  | nil =>
    cases fl2 with
    | nil => rfl
    | cons y ys => simp at h
  | cons x xs ih =>
    cases fl2 with
    | nil => simp at h
    | cons y ys =>
      simp only [List.map_cons, List.cons.injEq] at h
      simp only [find_folder_index, h.1, ih h.2]

/-- The removal step of `add_app_to_folder` on a list that ends in a folder the
application is no member of: that folder stays as it is, the folders before it
keep their ids, names and icons. -/
theorem remove_step_append (fl : List FolderInfo) (N : FolderInfo) (app : AppPtr) (j : Nat)
    (hj : j < (fl ++ [N]).length) (hN : app ∉ N.apps) :
    ∃ fl2,
      modify_folder (fun f => { f with apps := g_list_remove f.apps app }) (fl ++ [N]) j
        = fl2 ++ [N] ∧
      fl2.map (fun F => (F.id, F.name, F.icon)) = fl.map (fun F => (F.id, F.name, F.icon)) := by
  simp only [List.length_append, List.length_singleton] at hj
  by_cases hlt : j < fl.length
  · refine ⟨modify_folder (fun f => { f with apps := g_list_remove f.apps app }) fl j,
      modify_folder_append_lt _ _ _ _ hlt, ?_⟩
    exact modify_folder_map (fun F => (F.id, F.name, F.icon))
      (fun f => { f with apps := g_list_remove f.apps app }) (fun _ => rfl) _ _
  · have hje : j = fl.length := by omega
    subst hje
    refine ⟨fl, ?_, rfl⟩
    rw [modify_folder_append_length]
    have : g_list_remove N.apps app = N.apps := List.erase_of_not_mem hN
    rw [this]

/-- `add_app_to_folder` with the id of the last folder, which no folder before
it has and which the application is no member of. -/
theorem add_app_to_folder_last (launcher : LauncherPlugin) (fl : List FolderInfo)
    (N : FolderInfo) (app : AppPtr) (hfl : launcher.folder_list = fl ++ [N])
    (hfresh : ∀ F ∈ fl, F.id ≠ N.id) (hN : app ∉ N.apps) :
    ∃ fl2,
      add_app_to_folder launcher (some app) N.id
        = { launcher with
            heap := store launcher.heap app { launcher.heap app with folder_id := some N.id }
            folder_list := fl2 ++ [{ N with apps := N.apps ++ [app] }] } ∧
      fl2.map (fun F => (F.id, F.name, F.icon)) = fl.map (fun F => (F.id, F.name, F.icon)) := by
  have key : ∀ fl2 : List FolderInfo,
      fl2.map (fun F => (F.id, F.name, F.icon)) = fl.map (fun F => (F.id, F.name, F.icon)) →
      modify_folder (fun f => { f with apps := g_list_append f.apps app }) (fl2 ++ [N]) fl.length
        = fl2 ++ [{ N with apps := N.apps ++ [app] }] := by
    intro fl2 h2
    have hlen : fl2.length = fl.length := by simpa using congrArg List.length h2
    rw [← hlen, modify_folder_append_length]
    rfl
  unfold add_app_to_folder
  simp only [find_folder_by_id, hfl, find_folder_index_append_fresh fl N hfresh]
  cases (launcher.heap app).folder_id with
  | none =>
    refine ⟨fl, ?_, rfl⟩
    dsimp only
    rw [key fl rfl]
  | some old_id =>
    dsimp only
    cases hj : find_folder_index (fl ++ [N]) old_id with
    | none =>
      refine ⟨fl, ?_, rfl⟩
      dsimp only
      rw [key fl rfl]
    | some j =>
      obtain ⟨fl2, h1, h2⟩ := remove_step_append fl N app j (find_folder_index_lt hj) hN
      refine ⟨fl2, ?_, h2⟩
      dsimp only
      rw [h1, key fl2 h2]

theorem ids_of_labels {fl fl2 : List FolderInfo} {id : String}
    (h2 : fl2.map (fun F => (F.id, F.name, F.icon)) = fl.map (fun F => (F.id, F.name, F.icon)))
    (hfresh : ∀ F ∈ fl, F.id ≠ id) : ∀ F ∈ fl2, F.id ≠ id := by
  intro F hF
  have hm : (F.id, F.name, F.icon) ∈ fl.map (fun F => (F.id, F.name, F.icon)) := by
    rw [← h2]
    exact List.mem_map_of_mem (fun F => (F.id, F.name, F.icon)) hF
  obtain ⟨G, hG, hGF⟩ := List.mem_map.1 hm
  have : G.id = F.id := congrArg Prod.fst hGF
  rw [← this]
  exact hfresh G hG

/-- Claim C11: a drop of the drag source onto the button of another application
returns TRUE, leaves the folders there were in place with their ids, names and
icons, and appends one folder named "New Folder" with the icon "folder" whose
member list is the source followed by the target; both applications then refer
to the id of that folder.  The id made from the clock is assumed to differ from
the ids of the folders there are. -/
theorem on_drag_drop_creates_folder (launcher : LauncherPlugin) (now x y : Int)
    (source target : AppPtr)
    (hsource : launcher.drag_source = some source)
    (htarget : gtk_grid_get_child_at launcher.app_grid (Int.tdiv x BUTTON_SIZE)
      (Int.tdiv y BUTTON_SIZE) = some (GridWidget.app_button target))
    (hne : source ≠ target)
    (hfresh : ∀ F ∈ launcher.folder_list, F.id ≠ "folder_" ++ fmt_d now) :
    (on_drag_drop launcher now x y).2 = true ∧
    (on_drag_drop launcher now x y).1.folder_list.map (fun F => (F.id, F.name, F.icon))
      = launcher.folder_list.map (fun F => (F.id, F.name, F.icon))
          ++ [("folder_" ++ fmt_d now, "New Folder", "folder")] ∧
    (on_drag_drop launcher now x y).1.folder_list.getLast?
      = some { id := "folder_" ++ fmt_d now, name := "New Folder", icon := "folder",
               apps := [source, target], is_open := false } ∧
    ((on_drag_drop launcher now x y).1.heap source).folder_id = some ("folder_" ++ fmt_d now) ∧
    ((on_drag_drop launcher now x y).1.heap target).folder_id
      = some ("folder_" ++ fmt_d now) := by
  have h0 : on_drag_drop launcher now x y
      = (save_configuration (update_page_dots (populate_current_page
          (add_app_to_folder
            (add_app_to_folder
              { launcher with
                folder_list :=
                  g_list_append launcher.folder_list (create_folder now "New Folder") }
              (some source) (create_folder now "New Folder").id)
            (some target) (create_folder now "New Folder").id))), true) := by
    unfold on_drag_drop
    simp only [hsource, htarget]
    rw [if_pos ⟨rfl, by simpa using hne⟩]
  obtain ⟨fl1, e1, l1⟩ := add_app_to_folder_last
    { launcher with
      folder_list := g_list_append launcher.folder_list (create_folder now "New Folder") }
    launcher.folder_list (create_folder now "New Folder") source rfl hfresh
    (by simp [create_folder])
  rw [e1] at h0
  obtain ⟨fl2, e2, l2⟩ := add_app_to_folder_last
    { launcher with
      heap := store launcher.heap source
        { launcher.heap source with folder_id := some (create_folder now "New Folder").id }
      folder_list := fl1 ++ [{ create_folder now "New Folder" with
        apps := (create_folder now "New Folder").apps ++ [source] }] }
    fl1 { create_folder now "New Folder" with
        apps := (create_folder now "New Folder").apps ++ [source] } target rfl
    (ids_of_labels l1 hfresh)
    (by simpa [create_folder] using fun h => hne h.symm)
  have e2b := e2
  simp only at e2b
  rw [h0]
  simp only [save_configuration, update_page_dots, populate_current_page]
  rw [e2b]
  refine ⟨trivial, ?_, ?_, ?_, ?_⟩
  · simp only [List.map_append, l2, l1, List.map_cons, List.map_nil, create_folder]
  · simp [create_folder]
  · have : source ≠ target := hne
    simp [store, this, create_folder]
  · simp [store, create_folder]

theorem on_drag_drop_creates_folder_witness :
    (on_drag_begin ex_reordered (some 2)).folder_list = [] ∧
    (on_drag_drop (on_drag_begin ex_reordered (some 2)) 12345 0 0).2 = true ∧
    (on_drag_drop (on_drag_begin ex_reordered (some 2)) 12345 0 0).1.folder_list.map
        (fun F => (F.id, F.name, F.icon))
      = [("folder_12345", "New Folder", "folder")] ∧
    (on_drag_drop (on_drag_begin ex_reordered (some 2)) 12345 0 0).1.folder_list.getLast?
      = some { id := "folder_12345", name := "New Folder", icon := "folder",
               apps := [2, 0], is_open := false } ∧
    ((on_drag_drop (on_drag_begin ex_reordered (some 2)) 12345 0 0).1.heap 2).folder_id
      = some "folder_12345" ∧
    ((on_drag_drop (on_drag_begin ex_reordered (some 2)) 12345 0 0).1.heap 0).folder_id
      = some "folder_12345" :=
  ⟨by decide,
    on_drag_drop_creates_folder (on_drag_begin ex_reordered (some 2)) 12345 0 0 2 0
      (by decide) (by set_option maxRecDepth 100000 in decide) (by decide)
      (by set_option maxRecDepth 100000 in decide)⟩

/-! ## The effect of `add_app_to_folder` and `remove_app_from_folder` -/

theorem find_folder_index_of_mem {fl : List FolderInfo} {F : FolderInfo} (hF : F ∈ fl) :
    ∃ i, find_folder_index fl F.id = some i := by
  cases h : find_folder_index fl F.id with
  | none => exact absurd rfl (find_folder_index_none h F hF)
  | some i => exact ⟨i, rfl⟩

theorem find_folder_index_get {fl : List FolderInfo} {id : String} {i : Nat}
    (h : find_folder_index fl id = some i) : ∃ F, fl.get? i = some F ∧ F.id = id := by
  induction fl generalizing i with
  | nil => simp [find_folder_index] at h
  | cons x xs ih =>
    simp only [find_folder_index] at h
    split at h
    · rename_i hx
      simp only [Option.some.injEq] at h
      subst h
      exact ⟨x, rfl, hx⟩
    · cases hj : find_folder_index xs id with
      | none => rw [hj] at h; simp at h
      | some j =>
        rw [hj] at h
        simp only [Option.map_some', Option.some.injEq] at h
        subst h
        obtain ⟨F, hF1, hF2⟩ := ih hj
        exact ⟨F, by simpa using hF1, hF2⟩

theorem modify_folder_modify (f g : FolderInfo → FolderInfo) (fl : List FolderInfo) (i : Nat) :
    modify_folder g (modify_folder f fl i) i = modify_folder (fun F => g (f F)) fl i := by
  induction fl generalizing i with
  | nil => rfl
  | cons x xs ih =>
    cases i with
    | zero => rfl
    | succ n => simp [modify_folder, ih]

theorem modify_folder_fixed (f : FolderInfo → FolderInfo) (fl : List FolderInfo) (i : Nat)
    (h : ∀ F, fl.get? i = some F → f F = F) : modify_folder f fl i = fl := by
  induction fl generalizing i with
  | nil => rfl
  | cons x xs ih =>
    cases i with
    | zero => simp [modify_folder, h x rfl]
    | succ n =>
      simp only [modify_folder, List.cons.injEq, true_and]
      exact ih n (fun F hF => h F (by simpa using hF))

/-- Claim C12 at a failing input: the file names two folders with the id
`folder_1`.  Calculator is dragged onto the button of the second one, Two; the
handler calls `add_app_to_folder` with the id of Two, and Calculator ends up in
the member list of the first folder, One, while the list of Two stays empty. -/
theorem add_app_to_folder_same_id :
    ex_same_id.folder_list
      = [{ id := "folder_1", name := "One", icon := "folder", apps := [], is_open := false },
         { id := "folder_1", name := "Two", icon := "folder", apps := [], is_open := false }] ∧
    gtk_grid_get_child_at ex_same_id.app_grid 1 0 = some (GridWidget.folder_button 1) ∧
    (add_app_to_folder ex_same_id (some 0) "folder_1").folder_list
      = [{ id := "folder_1", name := "One", icon := "folder", apps := [0], is_open := false },
         { id := "folder_1", name := "Two", icon := "folder", apps := [], is_open := false }] ∧
    (on_drag_drop (on_drag_begin ex_same_id (some 0)) 2 130 0).1.folder_list
      = [{ id := "folder_1", name := "One", icon := "folder", apps := [0], is_open := false },
         { id := "folder_1", name := "Two", icon := "folder", apps := [], is_open := false }] := by
  set_option maxRecDepth 100000 in decide

/-- Claim C12: in a catalog with distinct folder ids and member lists without
repetition, `add_app_to_folder` with the id of a folder `F` of the list makes
the application refer to `F`, changes no other field of any record, and keeps
every folder at its place with its id, name and icon.  The member list of `F`
is what it was, without the application if it referred to `F` already,
followed by the application; the member list of the folder the application
referred to before is what it was without the application, which is no
member of it any more; every other member list is as it was. -/
theorem add_app_to_folder_effect (launcher : LauncherPlugin) (A : AppPtr) (F : FolderInfo)
    (hF : F ∈ launcher.folder_list) (hd : folder_ids_distinct launcher)
    (hm : members_distinct launcher) :
    (add_app_to_folder launcher (some A) F.id).heap
      = store launcher.heap A { launcher.heap A with folder_id := some F.id } ∧
    (add_app_to_folder launcher (some A) F.id).folder_list.length
      = launcher.folder_list.length ∧
    ∀ i G, launcher.folder_list.get? i = some G →
      ∃ G2, (add_app_to_folder launcher (some A) F.id).folder_list.get? i = some G2 ∧
        G2.id = G.id ∧ G2.name = G.name ∧ G2.icon = G.icon ∧ G2.is_open = G.is_open ∧
        (G.id = F.id →
          G2.apps = (if (launcher.heap A).folder_id = some F.id then G.apps.erase A
            else G.apps) ++ [A] ∧
          G2.apps.getLast? = some A ∧
          G2.apps.filter (fun B => B ≠ A) = G.apps.filter (fun B => B ≠ A)) ∧
        (G.id ≠ F.id → (launcher.heap A).folder_id = some G.id →
          G2.apps = G.apps.erase A ∧ A ∉ G2.apps) ∧
        (G.id ≠ F.id → (launcher.heap A).folder_id ≠ some G.id → G2.apps = G.apps) := by
  obtain ⟨j, hj⟩ := find_folder_index_of_mem hF
  rw [add_app_to_folder_eq launcher A F.id j hd hj]
  refine ⟨rfl, by simp, ?_⟩
  intro i G hG
  refine ⟨add_to_folder_apps launcher A F.id G, by
    rw [List.get?_eq_getElem?] at hG ⊢
    rw [List.getElem?_map, hG]
    rfl, rfl, rfl, rfl, rfl, ?_, ?_, ?_⟩
  · intro hid
    have hnd : G.apps.Nodup := hm G (List.get?_mem hG)
    have e : (add_to_folder_apps launcher A F.id G).apps
        = (if (launcher.heap A).folder_id = some F.id then G.apps.erase A else G.apps)
            ++ [A] := by
      simp only [add_to_folder_apps, hid, if_true, g_list_append, g_list_remove]
    refine ⟨e, by rw [e]; simp, ?_⟩
    rw [e]
    by_cases hA : (launcher.heap A).folder_id = some F.id
    · rw [if_pos hA, List.filter_append, hnd.erase_eq_filter, List.filter_filter]
      simp only [List.filter_cons, List.filter_nil, ne_eq, not_true_eq_false, decide_False,
        Bool.false_eq_true, if_false, List.append_nil]
      apply List.filter_congr
      intro B _
      by_cases hB : B = A <;> simp [hB]
    · rw [if_neg hA, List.filter_append]
      simp
  · intro hid hA
    have hnd : G.apps.Nodup := hm G (List.get?_mem hG)
    have e : (add_to_folder_apps launcher A F.id G).apps = G.apps.erase A := by
      simp only [add_to_folder_apps, hid, if_false, hA, if_true, g_list_remove]
    exact ⟨e, by rw [e]; exact fun h => (hnd.mem_erase_iff.1 h).1 rfl⟩
  · intro hid hA
    simp only [add_to_folder_apps, hid, if_false, hA]

theorem add_app_to_folder_effect_witness :
    (ex_in_first_folder.heap 7).folder_id = some "f1" ∧
    ex_in_first_folder.folder_list.map (fun G => (G.id, G.apps))
      = [("f1", [7]), ("f2", [])] ∧
    (add_app_to_folder ex_in_first_folder (some 7) "f2").heap
      = store ex_in_first_folder.heap 7
          { ex_in_first_folder.heap 7 with folder_id := some "f2" } :=
  ⟨by decide, by decide,
    (add_app_to_folder_effect ex_in_first_folder 7
      { id := "f2", name := "Two", icon := "folder", apps := [], is_open := false }
      (by decide) (by unfold folder_ids_distinct; decide)
      (by unfold members_distinct; decide)).1⟩

/-- Claim C13: in a catalog that satisfies the folder invariant,
`add_app_to_folder` of an application without folder reference to a folder of
the list, followed by `remove_app_from_folder`, gives back the state there was:
the same memory, the same folders with the same member lists. -/
theorem remove_app_from_folder_after_add (launcher : LauncherPlugin) (A : AppPtr)
    (F : FolderInfo) (hinv : folder_invariant launcher)
    (hA : (launcher.heap A).folder_id = none) (hF : F ∈ launcher.folder_list) :
    remove_app_from_folder (add_app_to_folder launcher (some A) F.id) (some A) = launcher := by
  obtain ⟨j, hj⟩ := find_folder_index_of_mem hF
  obtain ⟨G, hG, hGid⟩ := find_folder_index_get hj
  have hAG : A ∉ G.apps := by
    intro hmem
    have := (hinv G (List.get?_mem hG) A).2 hmem
    rw [hA] at this
    exact absurd this (by simp)
  have e1 : add_app_to_folder launcher (some A) F.id
      = { launcher with
          heap := store launcher.heap A { launcher.heap A with folder_id := some F.id }
          folder_list :=
            modify_folder (fun f => { f with apps := g_list_append f.apps A })
              launcher.folder_list j } := by
    unfold add_app_to_folder
    simp only [find_folder_by_id, hj, hA]
  rw [e1]
  have hfind : find_folder_index
      (modify_folder (fun f => { f with apps := g_list_append f.apps A })
        launcher.folder_list j) F.id = some j := by
    rw [find_folder_index_congr F.id
      (modify_folder_map (fun F => F.id) (fun f => { f with apps := g_list_append f.apps A })
        (fun _ => rfl) launcher.folder_list j)]
    exact hj
  have hheap : store
      (store launcher.heap A { launcher.heap A with folder_id := some F.id }) A
      { store launcher.heap A { launcher.heap A with folder_id := some F.id } A with
        folder_id := none } = launcher.heap := by
    funext q
    by_cases hq : q = A
    · subst hq
      simp only [store, if_true]
      cases hh : launcher.heap q with
      | mk n e ic d hid fid pos =>
        rw [hh] at hA
        simp only at hA
        rw [hA]
    · simp [store, hq]
  have hfolders : modify_folder (fun f => { f with apps := g_list_remove f.apps A })
      (modify_folder (fun f => { f with apps := g_list_append f.apps A })
        launcher.folder_list j) j = launcher.folder_list := by
    rw [modify_folder_modify, modify_folder_fixed]
    intro G2 hG2
    rw [hG] at hG2
    cases hG2
    cases G with
    | mk gid gname gicon gapps gopen =>
      simp only [g_list_append, g_list_remove, FolderInfo.mk.injEq, true_and, and_true]
      rw [List.erase_append_right _ hAG]
      simp
  have hid2 : (store launcher.heap A { launcher.heap A with folder_id := some F.id } A).folder_id
      = some F.id := by simp [store]
  unfold remove_app_from_folder
  simp only [hid2, find_folder_by_id, hfind, hheap, hfolders]

theorem remove_app_from_folder_after_add_witness :
    remove_app_from_folder (add_app_to_folder ex_two_folders (some 7) "f2") (some 7)
      = ex_two_folders :=
  remove_app_from_folder_after_add ex_two_folders 7
    { id := "f2", name := "Two", icon := "folder", apps := [], is_open := false }
    (by
      intro folder hfolder app
      simp only [ex_two_folders, List.mem_cons, List.mem_singleton, List.not_mem_nil,
        or_false] at hfolder
      rcases hfolder with rfl | rfl <;>
        by_cases h : app = 7 <;> simp [ex_two_folders, h, new_app_info])
    (by decide) (by decide)

/-! ## The application list holds no record twice -/

theorem add_app_to_folder_app_list (s : LauncherPlugin) (app : Option AppPtr)
    (folder_id : String) : (add_app_to_folder s app folder_id).app_list = s.app_list := by
  unfold add_app_to_folder
  split <;> rfl

theorem start_element_app_list (st : LauncherPlugin × ParserData) (element_name : String)
    (attributes : List (String × String)) :
    (start_element st element_name attributes).1.app_list = st.1.app_list := by
  unfold start_element
  simp only
  split
  · rfl
  · split
    · rfl
    · split
      · split <;> rfl
      · split
        · split
          · split <;> rfl
          · rfl
        · rfl

theorem run_callback_app_list (st : LauncherPlugin × ParserData) (event : MarkupEvent) :
    (run_callback st event).1.app_list = st.1.app_list := by
  cases event with
  | start_element element_name attributes => exact start_element_app_list st _ _
  | end_element element_name =>
    simp only [run_callback, end_element]
    split
    · rfl
    · split <;> rfl

theorem foldl_run_callback_app_list (events : List MarkupEvent)
    (st : LauncherPlugin × ParserData) :
    (events.foldl run_callback st).1.app_list = st.1.app_list := by
  induction events generalizing st with
  | nil => rfl
  | cons e es ih => rw [List.foldl_cons, ih, run_callback_app_list]

/-- Whatever the file holds, `load_configuration` rearranges `app_list`. -/
theorem load_configuration_perm (collate : String → String → Int) (isalpha : Char → Bool)
    (reread : (AppPtr → AppInfo) → AppPtr → AppInfo) (launcher : LauncherPlugin) :
    (load_configuration collate isalpha reread launcher).app_list.Perm launcher.app_list := by
  unfold load_configuration
  split
  · exact List.Perm.refl _
  · simp only
    refine (g_list_sort_perm _ _).trans ?_
    rw [foldl_run_callback_app_list]

theorem install_applications_nodup (launcher : LauncherPlugin) (records : List AppInfo) :
    (install_applications launcher records).app_list.Nodup := by
  simp only [install_applications]
  exact (List.nodup_range _).map (fun a b h => Nat.add_left_cancel h)

theorem g_list_insert_perm {α : Type} (list : List α) (data : α) (position : Int) :
    (g_list_insert list data position).Perm (data :: list) := by
  unfold g_list_insert
  split
  · exact List.perm_append_singleton _ _
  · rename_i h
    apply List.perm_insertIdx
    have : ¬ ((list.length : Int) < position) := fun hh => h (Or.inr hh)
    omega

theorem drop_reorder_nodup (launcher : LauncherPlugin) (drag_source : AppPtr) (x y : Int)
    (h : launcher.app_list.Nodup) : (drop_reorder launcher drag_source x y).app_list.Nodup := by
  simp only [drop_reorder, recalculate_positions]
  rw [(g_list_insert_perm _ _ _).nodup_iff, List.nodup_cons]
  exact ⟨fun hm => (h.mem_erase_iff.1 hm).1 rfl, h.erase _⟩

theorem on_drag_drop_nodup (s : LauncherPlugin) (now x y : Int) (h : s.app_list.Nodup) :
    (on_drag_drop s now x y).1.app_list.Nodup := by
  unfold on_drag_drop
  cases s.drag_source with
  | none => exact h
  | some d =>
    simp only
    split
    · show (add_app_to_folder _ _ _).app_list.Nodup
      rw [add_app_to_folder_app_list, add_app_to_folder_app_list]
      exact h
    · split
      · show (add_app_to_folder _ _ _).app_list.Nodup
        rw [add_app_to_folder_app_list]
        exact h
      · exact drop_reorder_nodup _ d x y h

/-- No handler puts a record into `app_list` twice. -/
theorem handle_app_list_nodup (env : Env) (s : LauncherPlugin) (event : Event)
    (h : s.app_list.Nodup) : (handle env s event).app_list.Nodup := by
  cases event with
  | button_clicked =>
    simp only [handle, launcher_button_clicked]
    split <;> exact h
  | key_press keyval =>
    simp only [handle]
    rcases key_press_eq s keyval with e | e | e | e <;> rw [e]
    · unfold hide_overlay
      split <;> exact h
    · unfold page_back refresh_if_changed
      split <;> exact h
    · unfold page_forward refresh_if_changed
      split <;> exact h
    · exact h
  | search_changed text => exact h
  | dot_clicked page_index =>
    simp only [handle, on_dot_clicked]
    split <;> exact h
  | scroll ev =>
    simp only [handle]
    rcases scroll_eq s ev with e | e | e <;> rw [e]
    · unfold page_back refresh_if_changed
      split <;> exact h
    · unfold page_forward refresh_if_changed
      split <;> exact h
    · exact h
  | swipe vx vy =>
    simp only [handle]
    rcases swipe_eq s vx vy with e | e | e <;> rw [e]
    · unfold page_back refresh_if_changed
      split <;> exact h
    · unfold page_forward refresh_if_changed
      split <;> exact h
    · exact h
  | folder_clicked folder_info =>
    simp only [handle, on_folder_clicked]
    split <;> exact h
  | back_clicked => exact h
  | hide app_info => exact h
  | drag_begin app_info =>
    simp only [handle, on_drag_begin]
    split <;> exact h
  | drag_data_received app_info data =>
    simp only [handle, on_drag_data_received]
    split
    · split
      · show (add_app_to_folder _ _ _).app_list.Nodup
        rw [add_app_to_folder_app_list]
        exact h
      · exact h
    · exact h
  | drag_drop now x y => exact on_drag_drop_nodup s now x y h
  | directory_changed event_type basename src =>
    simp only [handle, on_directory_changed]
    split
    · split
      · split
        · split <;> exact install_applications_nodup _ _
        · exact h
      · exact h
    · exact h

/-- In every state the plugin reaches, `app_list` holds no record twice. -/
theorem reachable_app_list_nodup (env : Env) (src : Sources) (config_file : Option String)
    (calm : Bool) (s : LauncherPlugin) (h : Reachable env src config_file calm s) :
    s.app_list.Nodup := by
  induction h with
  | start =>
    show (load_configuration _ _ _ _).app_list.Nodup
    rw [(load_configuration_perm _ _ _ _).nodup_iff]
    exact install_applications_nodup _ _
  | step s event _ _ _ ih => exact handle_app_list_nodup env s event ih

/-- After `recalculate_positions` on a list without repetition of at most
`2^31` records, the record at index `i` has the position `i`. -/
theorem recalculate_positions_get (launcher : LauncherPlugin)
    (hnd : launcher.app_list.Nodup) (hlen : launcher.app_list.length ≤ 2 ^ 31)
    (i : Nat) (h : i < launcher.app_list.length) :
    ((recalculate_positions launcher).heap (launcher.app_list.get ⟨i, h⟩)).position = i := by
  have hp := recalculate_positions_positions launcher hnd hlen
  have h1 : i < ((recalculate_positions launcher).app_list.map
      (fun q => ((recalculate_positions launcher).heap q).position)).length := by
    rw [List.length_map]; exact h
  have h2 : i < ((List.range launcher.app_list.length).map
      (fun (i : Nat) => (i : Int))).length := by
    rw [List.length_map, List.length_range]; exact h
  have := List.getElem_of_eq hp h1
  simp only [List.getElem_map, List.getElem_range] at this
  exact this

/-- Claim C14: `recalculate_positions` leaves `app_list` and the folders as they
are, gives the record at index `i` of the list the position `i`, and changes no
other field of any record and no record outside the list.  The list holds no
record twice, as in every state the plugin reaches, and at most `2^31`
records, so that the counter stays a `gint`. -/
theorem recalculate_positions_index (launcher : LauncherPlugin)
    (hnd : launcher.app_list.Nodup) (hlen : launcher.app_list.length ≤ 2 ^ 31) :
    (recalculate_positions launcher).app_list = launcher.app_list ∧
    (recalculate_positions launcher).folder_list = launcher.folder_list ∧
    (∀ (i : Nat) (h : i < launcher.app_list.length),
      ((recalculate_positions launcher).heap (launcher.app_list.get ⟨i, h⟩)).position = i) ∧
    (∀ q, (recalculate_positions launcher).heap q
      = { launcher.heap q with position := ((recalculate_positions launcher).heap q).position }) ∧
    (∀ q, q ∉ launcher.app_list → (recalculate_positions launcher).heap q = launcher.heap q) := by
  refine ⟨rfl, rfl, ?_, ?_, ?_⟩
  · intro i h
    exact recalculate_positions_get launcher hnd hlen i h
  · intro q
    exact foldl_recalculate_step_fields _ _ _ q
  · intro q hq
    exact foldl_recalculate_step_other _ _ _ q hq

theorem recalculate_positions_index_witness :
    ex_three_apps.app_list = [0, 1, 2] ∧
    ∀ (i : Nat) (h : i < ex_three_apps.app_list.length),
      ((recalculate_positions ex_three_apps).heap (ex_three_apps.app_list.get ⟨i, h⟩)).position
        = i :=
  ⟨by decide,
    (recalculate_positions_index ex_three_apps (by decide) (by decide)).2.2.1⟩

/-! ## Hiding an application -/

theorem populate_folders_widgets (folder_count : Nat) :
    ∀ child ∈ (populate_folders folder_count).1, ∃ i, child.widget = GridWidget.folder_button i := by
  unfold populate_folders
  generalize List.range folder_count = l
  suffices h : ∀ (st : List GridChild × Int),
      (∀ child ∈ st.1, ∃ i, child.widget = GridWidget.folder_button i) →
      ∀ child ∈ (l.foldl
        (fun st i =>
          (st.1 ++ [{ left := Int.tmod st.2 GRID_COLUMNS, top := Int.tdiv st.2 GRID_COLUMNS,
                      widget := GridWidget.folder_button i }],
           wrap32 (st.2 + 1))) st).1, ∃ i, child.widget = GridWidget.folder_button i by
    exact h ([], 0) (by simp)
  induction l with
  | nil => intro st h; exact h
  | cons a l ih =>
    intro st h
    rw [List.foldl_cons]
    apply ih
    intro child hc
    rcases List.mem_append.1 hc with hc | hc
    · exact h child hc
    · rw [List.mem_singleton.1 hc]
      exact ⟨a, rfl⟩

/-- The application buttons `populate_current_page` attaches belong to
applications of `apps_to_display` that pass the skip test. -/
theorem foldl_populate_app_step_widgets (launcher : LauncherPlugin) (start_index : Int)
    (apps : List AppPtr) (st : List GridChild × Int) (A : AppPtr) :
    ∀ child ∈ (apps.foldl (populate_app_step launcher start_index) st).1,
      child.widget = GridWidget.app_button A →
      child ∈ st.1 ∨ (A ∈ apps ∧ populate_skips launcher A = false) := by
  induction apps generalizing st with
  | nil => intro child hc _; exact Or.inl hc
  | cons a apps ih =>
    intro child hc hw
    rw [List.foldl_cons] at hc
    rcases ih _ child hc hw with h | h
    · unfold populate_app_step at h
      split at h
      · exact Or.inl h
      · rename_i hskip
        simp only at h
        split at h
        · rcases List.mem_append.1 h with h | h
          · exact Or.inl h
          · rw [List.mem_singleton.1 h] at hw
            simp only [GridWidget.app_button.injEq] at hw
            subst hw
            exact Or.inr ⟨List.mem_cons_self _ _, by simpa using hskip⟩
        · exact Or.inl h
    · exact Or.inr ⟨List.mem_cons_of_mem _ h.1, h.2⟩

theorem populate_current_page_widgets (launcher : LauncherPlugin) (A : AppPtr) :
    ∀ child ∈ (populate_current_page launcher).app_grid,
      child.widget = GridWidget.app_button A → A ∈ shown_apps launcher := by
  intro child hc hw
  simp only [populate_current_page] at hc
  rcases foldl_populate_app_step_widgets launcher _ _ _ A child hc hw with h | h
  · obtain ⟨i, hi⟩ := populate_folders_widgets _ child h
    rw [hi] at hw
    cases hw
  · unfold shown_apps
    rw [List.mem_filter]
    exact ⟨h.1, by simp [h.2]⟩

/-- Claim C15: `hide_application` sets the hidden flag of the record and changes
no other field of it, no other record, neither `app_list` nor the folders nor
the list on view; afterwards the root view does not offer the application,
and with no folder open the grid holds no button for it. -/
theorem hide_application_effect (launcher : LauncherPlugin) (A : AppPtr) :
    ((hide_application launcher A).heap A).is_hidden = true ∧
    (hide_application launcher A).heap A = { launcher.heap A with is_hidden := true } ∧
    (∀ q, q ≠ A → (hide_application launcher A).heap q = launcher.heap q) ∧
    (hide_application launcher A).app_list = launcher.app_list ∧
    (hide_application launcher A).folder_list = launcher.folder_list ∧
    (hide_application launcher A).filtered_list = launcher.filtered_list ∧
    (hide_application launcher A).open_folder = launcher.open_folder ∧
    (hide_application launcher A).current_page = launcher.current_page ∧
    A ∉ shown_apps { hide_application launcher A with open_folder := none } ∧
    (launcher.open_folder = none →
      ∀ child ∈ (hide_application launcher A).app_grid,
        child.widget ≠ GridWidget.app_button A) := by
  have hskip : ∀ s : LauncherPlugin, s.open_folder = none → (s.heap A).is_hidden = true →
      A ∉ shown_apps s := by
    intro s h1 h2 hm
    unfold shown_apps at hm
    rw [List.mem_filter] at hm
    have := hm.2
    simp [populate_skips, h1, h2] at this
  refine ⟨by simp [hide_application, save_configuration, update_page_dots,
      populate_current_page, store],
    by simp [hide_application, save_configuration, update_page_dots, populate_current_page,
      store],
    fun q hq => by simp [hide_application, save_configuration, update_page_dots,
      populate_current_page, store, hq],
    rfl, rfl, rfl, rfl, rfl, ?_, ?_⟩
  · apply hskip _ rfl
    simp [hide_application, save_configuration, update_page_dots, populate_current_page, store]
  · intro hopen child hc hw
    exact hskip
      { launcher with
        heap := store launcher.heap A { launcher.heap A with is_hidden := true } }
      hopen (by simp [store])
      (populate_current_page_widgets
        { launcher with
          heap := store launcher.heap A { launcher.heap A with is_hidden := true } }
        A child hc hw)

/-! ## The order `load_configuration` leaves -/

/-- Claim C16 at a failing input: the file gives GIMP the position 0 and
Firefox the position 1, Calculator has none.  The list after
`load_configuration` is a rearrangement of the list before, but Calculator,
without position, stands first and Firefox with position 1 stands before GIMP
with position 0: the comparator of the final sort does not read the records
of the list.  A comparator that did would give GIMP, Firefox, Calculator. -/
theorem load_configuration_order_not_by_position :
    (ex_fresh_three (some ex_config_positions)).app_list.map
        (fun p => ((ex_fresh_three (some ex_config_positions)).heap p).name)
      = ["Calculator", "Firefox", "GIMP"] ∧
    ex_positions_loaded.app_list.Perm (ex_fresh_three (some ex_config_positions)).app_list ∧
    ex_positions_loaded.app_list.map
        (fun p => ((ex_positions_loaded.heap p).name, (ex_positions_loaded.heap p).position))
      = [("Calculator", (-1 : Int)), ("Firefox", (1 : Int)), ("GIMP", (0 : Int))] ∧
    ex_positions_loaded_intended.app_list.map
        (fun p => ((ex_positions_loaded_intended.heap p).name,
          (ex_positions_loaded_intended.heap p).position))
      = [("GIMP", (0 : Int)), ("Firefox", (1 : Int)), ("Calculator", (-1 : Int))] := by
  refine ⟨by decide, load_configuration_perm _ _ _ _, ?_, ?_⟩ <;>
    set_option maxRecDepth 100000 in decide

/-- With a comparator that reads the records of the list, a collation that is
total and transitive, and positions that are small enough for their
differences to be `gint` values, `load_configuration` on a readable file leaves
the list in the order of `sort_apps_by_position`: no record without position
before one with a position, positions ascending, names of records without
position in collation order. -/
theorem load_configuration_sorted (collate : String → String → Int) (isalpha : Char → Bool)
    (launcher : LauncherPlugin) (contents : String)
    (hfile : launcher.config_file = some contents)
    (htotal : ∀ a b, collate a b ≤ 0 ∨ collate b a ≤ 0)
    (htrans : ∀ a b c, collate a b ≤ 0 → collate b c ≤ 0 → collate a c ≤ 0)
    (hbound : ∀ q ∈ launcher.app_list,
      -(2 ^ 30) ≤ ((load_configuration collate isalpha (fun heap app => heap app)
          launcher).heap q).position ∧
      ((load_configuration collate isalpha (fun heap app => heap app)
          launcher).heap q).position < 2 ^ 30) :
    (load_configuration collate isalpha (fun heap app => heap app) launcher).app_list.Pairwise
      (fun a b =>
        (((load_configuration collate isalpha (fun heap app => heap app)
            launcher).heap a).position = -1 →
          ((load_configuration collate isalpha (fun heap app => heap app)
            launcher).heap b).position = -1 ∧
          collate
            ((load_configuration collate isalpha (fun heap app => heap app)
              launcher).heap a).name
            ((load_configuration collate isalpha (fun heap app => heap app)
              launcher).heap b).name ≤ 0) ∧
        (((load_configuration collate isalpha (fun heap app => heap app)
            launcher).heap a).position ≠ -1 →
          ((load_configuration collate isalpha (fun heap app => heap app)
            launcher).heap b).position ≠ -1 →
          ((load_configuration collate isalpha (fun heap app => heap app)
            launcher).heap a).position ≤
          ((load_configuration collate isalpha (fun heap app => heap app)
            launcher).heap b).position)) := by
  have hperm := load_configuration_perm collate isalpha (fun heap app => heap app) launcher
  have hsort : (load_configuration collate isalpha (fun heap app => heap app)
      launcher).app_list
      = g_list_sort launcher.app_list (fun a b =>
          sort_apps_by_position collate
            ((load_configuration collate isalpha (fun heap app => heap app) launcher).heap a)
            ((load_configuration collate isalpha (fun heap app => heap app)
              launcher).heap b)) := by
    unfold load_configuration
    rw [hfile]
    simp only [foldl_run_callback_app_list]
  generalize load_configuration collate isalpha (fun heap app => heap app) launcher = loaded
    at hbound hperm hsort ⊢
  have hcmp : ∀ a ∈ launcher.app_list, ∀ b ∈ launcher.app_list,
      (sort_apps_by_position collate (loaded.heap a) (loaded.heap b) ≤ 0 ↔
        ((loaded.heap a).position = -1 ∧ (loaded.heap b).position = -1 ∧
            collate (loaded.heap a).name (loaded.heap b).name ≤ 0) ∨
        ((loaded.heap a).position ≠ -1 ∧ (loaded.heap b).position = -1) ∨
        ((loaded.heap a).position ≠ -1 ∧ (loaded.heap b).position ≠ -1 ∧
            (loaded.heap a).position ≤ (loaded.heap b).position)) := by
    intro a ha b hb
    have h1 := hbound a ha
    have h2 := hbound b hb
    unfold sort_apps_by_position
    by_cases e1 : (loaded.heap a).position = -1
    · by_cases e2 : (loaded.heap b).position = -1
      · rw [if_pos ⟨e1, e2⟩]
        simp [e1, e2]
      · rw [if_neg (fun h => e2 h.2), if_pos e1]
        simp [e1, e2]
    · by_cases e2 : (loaded.heap b).position = -1
      · rw [if_neg (fun h => e1 h.1), if_neg e1, if_pos e2]
        simp [e1, e2]
      · rw [if_neg (fun h => e1 h.1), if_neg e1, if_neg e2,
          wrap32_of_range _ (by omega) (by omega)]
        simp only [e1, e2, false_and, ne_eq, not_false_eq_true, and_false, true_and, false_or]
        omega
  have hsorted := g_list_sort_sorted
    (fun a b => sort_apps_by_position collate (loaded.heap a) (loaded.heap b))
    (fun q => q ∈ launcher.app_list)
    (by
      intro a b ha hb
      rw [hcmp a ha b hb, hcmp b hb a ha]
      by_cases e1 : (loaded.heap a).position = -1 <;>
        by_cases e2 : (loaded.heap b).position = -1
      · rcases htotal (loaded.heap a).name (loaded.heap b).name with h | h
        · exact Or.inl (Or.inl ⟨e1, e2, h⟩)
        · exact Or.inr (Or.inl ⟨e2, e1, h⟩)
      · exact Or.inr (Or.inr (Or.inl ⟨e2, e1⟩))
      · exact Or.inl (Or.inr (Or.inl ⟨e1, e2⟩))
      · rcases le_total (loaded.heap a).position (loaded.heap b).position with h | h
        · exact Or.inl (Or.inr (Or.inr ⟨e1, e2, h⟩))
        · exact Or.inr (Or.inr (Or.inr ⟨e2, e1, h⟩)))
    (by
      intro a b c ha hb hc
      rw [hcmp a ha b hb, hcmp b hb c hc, hcmp a ha c hc]
      rintro (⟨a1, b1, k1⟩ | ⟨a1, b1⟩ | ⟨a1, b1, k1⟩) (⟨b2, c2, k2⟩ | ⟨b2, c2⟩ | ⟨b2, c2, k2⟩)
      · exact Or.inl ⟨a1, c2, htrans _ _ _ k1 k2⟩
      · exact absurd b1 b2
      · exact absurd b1 b2
      · exact Or.inr (Or.inl ⟨a1, c2⟩)
      · exact absurd b1 b2
      · exact absurd b1 b2
      · exact absurd b2 b1
      · exact Or.inr (Or.inl ⟨a1, c2⟩)
      · exact Or.inr (Or.inr ⟨a1, c2, le_trans k1 k2⟩))
    launcher.app_list (fun x hx => hx)
  rw [← hsort] at hsorted
  refine hsorted.imp_of_mem ?_
  intro a b ha hb h
  rw [hcmp a (hperm.mem_iff.1 ha) b (hperm.mem_iff.1 hb)] at h
  rcases h with ⟨a1, b1, k1⟩ | ⟨a1, b1⟩ | ⟨a1, b1, k1⟩
  · exact ⟨fun _ => ⟨b1, k1⟩, fun hn => absurd a1 hn⟩
  · exact ⟨fun hn => absurd hn a1, fun _ hn => absurd b1 hn⟩
  · exact ⟨fun hn => absurd hn a1, fun _ _ => k1⟩

/-- The theorem above on the file that places GIMP and Firefox. -/
theorem load_configuration_sorted_example :
    ex_positions_loaded_intended.app_list.Pairwise
      (fun a b =>
        ((ex_positions_loaded_intended.heap a).position = -1 →
          (ex_positions_loaded_intended.heap b).position = -1 ∧
          ex_collate (ex_positions_loaded_intended.heap a).name
            (ex_positions_loaded_intended.heap b).name ≤ 0) ∧
        ((ex_positions_loaded_intended.heap a).position ≠ -1 →
          (ex_positions_loaded_intended.heap b).position ≠ -1 →
          (ex_positions_loaded_intended.heap a).position ≤
          (ex_positions_loaded_intended.heap b).position)) :=
  load_configuration_sorted ex_collate (fun _ => false)
    (ex_fresh_three (some ex_config_positions)) ex_config_positions rfl
    (fun _ _ => Or.inl (le_refl (0 : Int))) (fun _ _ _ _ _ => le_refl (0 : Int))
    (by set_option maxRecDepth 100000 in decide)

/-! ## The order of the discovered list -/

theorem ex_collate_codepoint_le (x y : String) :
    ex_collate_codepoint x y ≤ 0 ↔ x.data.map Char.toNat ≤ y.data.map Char.toNat := by
  unfold ex_collate_codepoint
  rcases lt_trichotomy (x.data.map Char.toNat) (y.data.map Char.toNat) with h | h | h
  · simp [h, le_of_lt h]
  · simp [h]
  · have h1 : ¬ x.data.map Char.toNat < y.data.map Char.toNat := not_lt_of_gt h
    have h2 : ¬ x.data.map Char.toNat = y.data.map Char.toNat := ne_of_gt h
    have h3 : ¬ x.data.map Char.toNat ≤ y.data.map Char.toNat := not_le_of_gt h
    simp [h1, h2, h3]

/-- Claim C17: for a collation that is total and transitive, as `g_utf8_collate`
is, the list `load_applications_enhanced` returns is in ascending order of
`compare_app_names`: each record compares at most equal to the next one, and
to every later one. -/
theorem load_applications_enhanced_sorted (collate : String → String → Int) (src : Sources)
    (htotal : ∀ a b, collate a b ≤ 0 ∨ collate b a ≤ 0)
    (htrans : ∀ a b c, collate a b ≤ 0 → collate b c ≤ 0 → collate a c ≤ 0) :
    (load_applications_enhanced collate src).Chain'
      (fun a b => compare_app_names collate a b ≤ 0) ∧
    (load_applications_enhanced collate src).Pairwise
      (fun a b => compare_app_names collate a b ≤ 0) := by
  have h : (load_applications_enhanced collate src).Pairwise
      (fun a b => compare_app_names collate a b ≤ 0) := by
    unfold load_applications_enhanced
    exact g_list_sort_sorted (compare_app_names collate) (fun _ => True)
      (fun a b _ _ => htotal a.name b.name)
      (fun a b c _ _ _ => htrans a.name b.name c.name) _ (fun _ _ => trivial)
  exact ⟨List.Pairwise.chain' h, h⟩

theorem load_applications_enhanced_sorted_witness :
    (load_applications_enhanced ex_collate_codepoint ex_sources_unsorted).map (fun a => a.name)
      = ["Calculator", "Firefox", "GIMP"] ∧
    (load_applications_enhanced ex_collate_codepoint ex_sources_unsorted).Chain'
      (fun a b => compare_app_names ex_collate_codepoint a b ≤ 0) :=
  ⟨by decide,
    (load_applications_enhanced_sorted ex_collate_codepoint ex_sources_unsorted
      (fun a b => by
        rw [ex_collate_codepoint_le, ex_collate_codepoint_le]
        exact le_total _ _)
      (fun a b c => by
        rw [ex_collate_codepoint_le, ex_collate_codepoint_le, ex_collate_codepoint_le]
        exact le_trans)).1⟩

/-! ## What `save_configuration` writes -/

theorem flatten_map_app_text (apps : List AppInfo) :
    (apps.map app_text).flatten
      = ((apps.filter
          (fun a => decide (a.is_hidden ∨ a.folder_id.isSome ∨ a.position ≠ -1))).map
          app_text).flatten := by
  induction apps with
  | nil => rfl
  | cons a apps ih =>
    by_cases h : a.is_hidden ∨ a.folder_id.isSome ∨ a.position ≠ -1
    · rw [List.filter_cons_of_pos (by simpa using h)]
      simp only [List.map_cons, List.flatten_cons, ih]
    · rw [List.filter_cons_of_neg (by simpa using h)]
      simp only [List.map_cons, List.flatten_cons, ih]
      have : app_text a = [] := by
        unfold app_text
        rw [if_neg h]
      rw [this, List.nil_append]

theorem app_entries_append (l1 l2 : List MarkupEvent) :
    app_entries (l1 ++ l2) = app_entries l1 ++ app_entries l2 := by
  simp [app_entries, List.filterMap_append]

theorem folder_entries_append (l1 l2 : List MarkupEvent) :
    folder_entries (l1 ++ l2) = folder_entries l1 ++ folder_entries l2 := by
  simp [folder_entries, List.filterMap_append]

theorem app_entries_folder_events (folders : List FolderInfo) :
    app_entries (folders.map folder_events).flatten = [] := by
  induction folders with
  | nil => rfl
  | cons F folders ih =>
    rw [List.map_cons, List.flatten_cons, app_entries_append, ih]
    simp [app_entries, folder_events]

theorem folder_entries_folder_events (folders : List FolderInfo) :
    folder_entries (folders.map folder_events).flatten
      = folders.map (fun F => [("id", F.id), ("name", F.name), ("icon", F.icon)]) := by
  induction folders with
  | nil => rfl
  | cons F folders ih =>
    rw [List.map_cons, List.flatten_cons, folder_entries_append, ih]
    simp [folder_entries, folder_events]

theorem folder_entries_app_events (apps : List AppInfo) :
    folder_entries (apps.map app_events).flatten = [] := by
  induction apps with
  | nil => rfl
  | cons a apps ih =>
    rw [List.map_cons, List.flatten_cons, folder_entries_append, ih]
    unfold app_events
    split <;> simp [folder_entries]

theorem app_entries_app_events (apps : List AppInfo) :
    app_entries (apps.map app_events).flatten
      = (apps.filter
          (fun a => decide (a.is_hidden ∨ a.folder_id.isSome ∨ a.position ≠ -1))).map
          app_attributes := by
  induction apps with
  | nil => rfl
  | cons a apps ih =>
    rw [List.map_cons, List.flatten_cons, app_entries_append, ih]
    by_cases h : a.is_hidden ∨ a.folder_id.isSome ∨ a.position ≠ -1
    · rw [List.filter_cons_of_pos (by simpa using h)]
      unfold app_events
      rw [if_pos h]
      simp [app_entries]
    · rw [List.filter_cons_of_neg (by simpa using h)]
      unfold app_events
      rw [if_neg h]
      simp [app_entries]

/-- Claim C18: the file `save_configuration` writes consists of the heading, one
line per folder in the order of `folder_list`, and one line for each
application of `app_list` that is hidden, refers to a folder or has a position
other than -1, in the order of `app_list`, and no line for any other
application.  When the strings of the catalog are plain, the reader finds in
that file exactly these entries: one `folder` element per folder and one `app`
element per such application, in the same orders, with the attributes
written. -/
theorem save_configuration_entries (isalpha : Char → Bool) (launcher : LauncherPlugin) :
    (save_configuration launcher).config_file = some (save_configuration_xml launcher) ∧
    (save_configuration_xml launcher).data
      = "<?xml version=\"1.0\" encoding=\"UTF-8\"?>\n<launcher-config>\n  <folders>\n".data ++
        (launcher.folder_list.map folder_text).flatten ++
        "  </folders>\n  <apps>\n".data ++
        (((launcher.app_list.map launcher.heap).filter
          (fun a => decide (a.is_hidden ∨ a.folder_id.isSome ∨ a.position ≠ -1))).map
          app_text).flatten ++
        "  </apps>\n</launcher-config>\n".data ∧
    (∀ a : AppInfo, a.is_hidden ∨ a.folder_id.isSome ∨ a.position ≠ -1 → app_text a ≠ []) ∧
    (catalog_plain launcher →
      (g_markup_parse isalpha (save_configuration_xml launcher)).2 = true ∧
      folder_entries (g_markup_parse isalpha (save_configuration_xml launcher)).1
        = launcher.folder_list.map (fun F => [("id", F.id), ("name", F.name), ("icon", F.icon)]) ∧
      app_entries (g_markup_parse isalpha (save_configuration_xml launcher)).1
        = ((launcher.app_list.map launcher.heap).filter
            (fun a => decide (a.is_hidden ∨ a.folder_id.isSome ∨ a.position ≠ -1))).map
            app_attributes) := by
  refine ⟨rfl, ?_, ?_, ?_⟩
  · have hmap : (launcher.app_list.map (fun app => app_text (launcher.heap app)))
        = (launcher.app_list.map launcher.heap).map app_text := by
      rw [List.map_map]; rfl
    have e1 : "<?xml version=\"1.0\" encoding=\"UTF-8\"?>\n<launcher-config>\n  <folders>\n".data
        = "<?xml version=\"1.0\" encoding=\"UTF-8\"?>\n".data ++ ("<launcher-config>\n".data ++
          "  <folders>\n".data) := by rfl
    have e2 : "  </folders>\n  <apps>\n".data = "  </folders>\n".data ++ "  <apps>\n".data := by
      rfl
    have e3 : "  </apps>\n</launcher-config>\n".data
        = "  </apps>\n".data ++ "</launcher-config>\n".data := by rfl
    rw [e1, e2, e3, ← flatten_map_app_text, ← hmap]
    simp only [save_configuration_xml, String.data_append, foldl_save_folder_step_data,
      foldl_save_app_step_data, List.append_assoc]
  · intro a h
    unfold app_text
    rw [if_pos h]
    simp
  · intro hplain
    rw [g_markup_parse_saved isalpha launcher hplain]
    refine ⟨rfl, ?_, ?_⟩
    · have hmap : (launcher.app_list.map (fun app => app_events (launcher.heap app)))
          = (launcher.app_list.map launcher.heap).map app_events := by
        rw [List.map_map]; rfl
      simp only [saved_events, folder_entries_append, folder_entries_folder_events, hmap,
        folder_entries_app_events]
      simp [folder_entries]
    · have hmap : (launcher.app_list.map (fun app => app_events (launcher.heap app)))
          = (launcher.app_list.map launcher.heap).map app_events := by
        rw [List.map_map]; rfl
      simp only [saved_events, app_entries_append, app_entries_folder_events, hmap,
        app_entries_app_events]
      simp [app_entries]

theorem save_configuration_entries_witness :
    catalog_plain ex_one_hidden ∧
    ex_one_hidden.app_list.map
        (fun p => ((ex_one_hidden.heap p).name, (ex_one_hidden.heap p).is_hidden,
          (ex_one_hidden.heap p).folder_id, (ex_one_hidden.heap p).position))
      = [("Calculator", false, none, (-1 : Int)), ("Firefox", true, none, (-1 : Int)),
         ("GIMP", false, none, (-1 : Int))] ∧
    folder_entries (g_markup_parse (fun _ => false) (save_configuration_xml ex_one_hidden)).1
      = [] ∧
    app_entries (g_markup_parse (fun _ => false) (save_configuration_xml ex_one_hidden)).1
      = [[("name", "Firefox"), ("hidden", "true"), ("position", "-1")]] :=
  have hplain : catalog_plain ex_one_hidden := by unfold catalog_plain; decide
  have h := ((save_configuration_entries (fun _ => false) ex_one_hidden).2.2.2 hplain).2
  ⟨hplain, by decide, by rw [h.1]; decide, by rw [h.2]; decide⟩

/-! ## Drops onto a folder and onto empty space -/

theorem add_app_to_folder_folder_list_length (s : LauncherPlugin) (app : Option AppPtr)
    (folder_id : String) :
    (add_app_to_folder s app folder_id).folder_list.length = s.folder_list.length := by
  unfold add_app_to_folder
  split
  · simp only [modify_folder_length]
    split
    · split
      · rw [modify_folder_length]
      · rfl
    · rfl
  · rfl

theorem add_app_to_folder_position (s : LauncherPlugin) (app : Option AppPtr)
    (folder_id : String) (q : AppPtr) :
    ((add_app_to_folder s app folder_id).heap q).position = (s.heap q).position := by
  unfold add_app_to_folder
  split
  · simp only [store]
    split
    · rename_i hq
      rw [hq]
    · rfl
  · rfl

/-- Claim C19: a drop of the drag source onto the button of a folder of
`folder_list` returns TRUE and leaves the memory and the folders as
`add_app_to_folder` with the source and the id of that folder leaves them; the
number of folders, `app_list` and every position are as before. -/
theorem on_drag_drop_onto_folder (launcher : LauncherPlugin) (now x y : Int)
    (source : AppPtr) (i : Nat) (F : FolderInfo)
    (hsource : launcher.drag_source = some source)
    (htarget : gtk_grid_get_child_at launcher.app_grid (Int.tdiv x BUTTON_SIZE)
      (Int.tdiv y BUTTON_SIZE) = some (GridWidget.folder_button i))
    (hF : launcher.folder_list.get? i = some F) :
    (on_drag_drop launcher now x y).2 = true ∧
    (on_drag_drop launcher now x y).1.heap
      = (add_app_to_folder launcher (some source) F.id).heap ∧
    (on_drag_drop launcher now x y).1.folder_list
      = (add_app_to_folder launcher (some source) F.id).folder_list ∧
    (on_drag_drop launcher now x y).1.folder_list.length = launcher.folder_list.length ∧
    (on_drag_drop launcher now x y).1.app_list = launcher.app_list ∧
    (∀ q, ((on_drag_drop launcher now x y).1.heap q).position = (launcher.heap q).position) := by
  have h0 : on_drag_drop launcher now x y
      = (save_configuration (update_page_dots (populate_current_page
          (add_app_to_folder launcher (some source) F.id))), true) := by
    unfold on_drag_drop
    simp only [hsource, htarget, hF]
    rw [if_neg (by simp)]
  rw [h0]
  refine ⟨rfl, rfl, rfl, ?_, ?_, ?_⟩
  · exact add_app_to_folder_folder_list_length _ _ _
  · exact add_app_to_folder_app_list _ _ _
  · intro q
    exact add_app_to_folder_position _ _ _ q

theorem on_drag_drop_onto_folder_witness :
    ex_arranged.folder_list.map (fun F => (F.id, F.apps)) = [("folder_12345", [2, 0])] ∧
    (on_drag_drop (on_drag_begin ex_arranged (some 1)) 777 0 0).2 = true ∧
    (on_drag_drop (on_drag_begin ex_arranged (some 1)) 777 0 0).1.folder_list
      = (add_app_to_folder (on_drag_begin ex_arranged (some 1)) (some 1)
          "folder_12345").folder_list :=
  have h := on_drag_drop_onto_folder (on_drag_begin ex_arranged (some 1)) 777 0 0 1 0
    { id := "folder_12345", name := "New Folder", icon := "folder", apps := [2, 0],
      is_open := false }
    (by decide) (by set_option maxRecDepth 100000 in decide)
    (by set_option maxRecDepth 100000 in decide)
  ⟨by set_option maxRecDepth 100000 in decide, h.1, h.2.2.1⟩

theorem filter_insertIdx {α : Type} (p : α → Bool) (s : α) (hs : p s = false) (l : List α)
    (n : Nat) : (l.insertIdx n s).filter p = l.filter p := by
  induction l generalizing n with
  | nil =>
    cases n with
    | zero => simp [hs]
    | succ n => simp
  | cons a l ih =>
    cases n with
    | zero => simp [hs]
    | succ n =>
      rw [List.insertIdx_succ_cons]
      simp only [List.filter_cons, ih]

theorem g_list_insert_eq {α : Type} (list : List α) (data : α) (position : Int)
    (h : 0 ≤ position) :
    g_list_insert list data position = list.insertIdx (min position.toNat list.length) data := by
  unfold g_list_insert
  split
  · rename_i hc
    have hlt : (list.length : Int) < position := by
      rcases hc with hc | hc
      · omega
      · exact hc
    have : min position.toNat list.length = list.length := by
      apply Nat.min_eq_right
      omega
    rw [this, List.insertIdx_length_self]
  · rename_i hc
    have hle : ¬ ((list.length : Int) < position) := fun hh => hc (Or.inr hh)
    have : min position.toNat list.length = position.toNat := by
      apply Nat.min_eq_left
      omega
    rw [this]

/-- Claim C20: a drop of the drag source `s`, a record of `app_list`, onto empty
grid space at the pixel `(x, y)` with `x, y ≥ 0` on page `p` returns TRUE; with
`k = (y / 130) * 6 + x / 130 + 30 * p` the new `app_list` is the old one with
`s` taken out and put in again at index `k`, or at the end when `k` is beyond
it.  It is a rearrangement of the old list in which the other records keep
their order, and afterwards the position of every record of the list is its
index.  The list holds no record twice, as in every state the plugin
reaches, and `k` and the length of the list are `gint` values. -/
theorem on_drag_drop_reorder (launcher : LauncherPlugin) (now x y : Int) (s : AppPtr)
    (hsource : launcher.drag_source = some s)
    (htarget : gtk_grid_get_child_at launcher.app_grid (Int.tdiv x BUTTON_SIZE)
      (Int.tdiv y BUTTON_SIZE) = none)
    (hs : s ∈ launcher.app_list) (hnd : launcher.app_list.Nodup)
    (hx : 0 ≤ x) (hy : 0 ≤ y) (hp : 0 ≤ launcher.current_page)
    (hk : y / 130 * 6 + x / 130 + 30 * launcher.current_page < 2 ^ 31)
    (hlen : launcher.app_list.length ≤ 2 ^ 31) :
    (on_drag_drop launcher now x y).2 = true ∧
    (on_drag_drop launcher now x y).1.app_list
      = (launcher.app_list.erase s).insertIdx
          (min (y / 130 * 6 + x / 130 + 30 * launcher.current_page).toNat
            (launcher.app_list.length - 1)) s ∧
    (on_drag_drop launcher now x y).1.app_list.Perm launcher.app_list ∧
    (on_drag_drop launcher now x y).1.app_list.filter (fun q => q ≠ s)
      = launcher.app_list.filter (fun q => q ≠ s) ∧
    (∀ (i : Nat) (h : i < (on_drag_drop launcher now x y).1.app_list.length),
      ((on_drag_drop launcher now x y).1.heap
        ((on_drag_drop launcher now x y).1.app_list.get ⟨i, h⟩)).position = i) := by
  have h0 : on_drag_drop launcher now x y
      = (save_configuration (update_page_dots (populate_current_page
          (drop_reorder launcher s x y))), true) := by
    unfold on_drag_drop
    simp only [hsource, htarget]
    rw [if_neg (by simp)]
  have hy0 : 0 ≤ y / 130 := Int.ediv_nonneg hy (by norm_num)
  have hx0 : 0 ≤ x / 130 := Int.ediv_nonneg hx (by norm_num)
  have hindex : wrap32 (wrap32 (wrap32 (Int.tdiv y BUTTON_SIZE * GRID_COLUMNS)
        + Int.tdiv x BUTTON_SIZE) + wrap32 (launcher.current_page * APPS_PER_PAGE))
      = y / 130 * 6 + x / 130 + 30 * launcher.current_page := by
    have e1 : Int.tdiv y BUTTON_SIZE = y / 130 := Int.tdiv_eq_ediv hy (by decide)
    have e2 : Int.tdiv x BUTTON_SIZE = x / 130 := Int.tdiv_eq_ediv hx (by decide)
    have e3 : ((GRID_COLUMNS : Nat) : Int) = 6 := rfl
    have e4 : ((APPS_PER_PAGE : Nat) : Int) = 30 := rfl
    rw [e1, e2, e3, e4, wrap32_of_range (y / 130 * 6) (by omega) (by omega),
      wrap32_of_range (y / 130 * 6 + x / 130) (by omega) (by omega),
      wrap32_of_range (launcher.current_page * 30) (by omega) (by omega),
      wrap32_of_range _ (by omega) (by omega)]
    omega
  have hlist : (drop_reorder launcher s x y).app_list
      = (launcher.app_list.erase s).insertIdx
          (min (y / 130 * 6 + x / 130 + 30 * launcher.current_page).toNat
            (launcher.app_list.length - 1)) s := by
    simp only [drop_reorder, recalculate_positions]
    rw [hindex, g_list_remove, g_list_insert_eq _ _ _ (by omega), List.length_erase_of_mem hs]
  have hperm : (drop_reorder launcher s x y).app_list.Perm launcher.app_list := by
    simp only [drop_reorder, recalculate_positions]
    exact (g_list_insert_perm _ _ _).trans (List.perm_cons_erase hs).symm
  have hnd2 : (drop_reorder launcher s x y).app_list.Nodup := drop_reorder_nodup _ _ _ _ hnd
  rw [h0]
  refine ⟨rfl, hlist, hperm, ?_, ?_⟩
  · show (drop_reorder launcher s x y).app_list.filter (fun q => q ≠ s) = _
    rw [hlist, filter_insertIdx _ _ (by simp), hnd.erase_eq_filter, List.filter_filter]
    apply List.filter_congr
    intro q _
    by_cases hq : q = s <;> simp [hq]
  · intro i h
    have hlen2 : (drop_reorder launcher s x y).app_list.length ≤ 2 ^ 31 := by
      rw [hperm.length_eq]; exact hlen
    have key := recalculate_positions_get
      { launcher with
        app_list := g_list_insert (g_list_remove launcher.app_list s) s
          (wrap32 (wrap32 (wrap32 (Int.tdiv y BUTTON_SIZE * GRID_COLUMNS)
            + Int.tdiv x BUTTON_SIZE) + wrap32 (launcher.current_page * APPS_PER_PAGE))) }
      hnd2 hlen2 i h
    exact key

theorem on_drag_drop_reorder_witness :
    (on_drag_begin ex_three_apps (some 0)).app_list = [0, 1, 2] ∧
    (on_drag_drop (on_drag_begin ex_three_apps (some 0)) 12345 650 0).1.app_list = [1, 2, 0] ∧
    ∀ (i : Nat)
      (h : i < (on_drag_drop (on_drag_begin ex_three_apps (some 0)) 12345 650 0).1.app_list.length),
      ((on_drag_drop (on_drag_begin ex_three_apps (some 0)) 12345 650 0).1.heap
        ((on_drag_drop (on_drag_begin ex_three_apps (some 0)) 12345 650 0).1.app_list.get
          ⟨i, h⟩)).position = i :=
  ⟨by decide, by set_option maxRecDepth 100000 in decide,
    (on_drag_drop_reorder (on_drag_begin ex_three_apps (some 0)) 12345 650 0 0
      (by decide) (by set_option maxRecDepth 100000 in decide) (by decide) (by decide)
      (by decide) (by decide) (by decide) (by decide) (by decide)).2.2.2.2⟩

/-! ## The drag state -/

theorem add_app_to_folder_drag_source (s : LauncherPlugin) (app : Option AppPtr)
    (folder_id : String) : (add_app_to_folder s app folder_id).drag_source = s.drag_source := by
  unfold add_app_to_folder
  split <;> rfl

/-- With a drag source set, `on_drag_drop` returns TRUE whatever the target
is, and the drag source stays set. -/
theorem on_drag_drop_drag_source (launcher : LauncherPlugin) (now x y : Int) (s : AppPtr)
    (h : launcher.drag_source = some s) :
    (on_drag_drop launcher now x y).2 = true ∧
    (on_drag_drop launcher now x y).1.drag_source = some s := by
  unfold on_drag_drop
  rw [h]
  refine ⟨rfl, ?_⟩
  dsimp only [save_configuration, update_page_dots, populate_current_page]
  split
  · rw [add_app_to_folder_drag_source, add_app_to_folder_drag_source]
  · split
    · rw [add_app_to_folder_drag_source]
      exact h
    · first | rfl | exact h

/-- Claim C21: without a drag source `on_drag_drop` returns FALSE and the whole
plugin state, the configuration file included, is what it was, wherever the
drop lands. -/
theorem on_drag_drop_without_source (launcher : LauncherPlugin) (now x y : Int)
    (h : launcher.drag_source = none) : on_drag_drop launcher now x y = (launcher, false) := by
  unfold on_drag_drop
  rw [h]

theorem on_drag_drop_without_source_witness :
    on_drag_drop ex_three_apps 12345 0 0 = (ex_three_apps, false) :=
  on_drag_drop_without_source ex_three_apps 12345 0 0 (by decide)

/-- Claim C22 at a failing input: Calculator, at address 0, is being dragged
when a rescan rebuilds the catalog at the addresses 3, 4 and 5.  The drag
source still is the freed record at address 0.  A drop onto empty space puts
that record into `app_list`; a drop onto the first button creates a folder
that holds it. -/
theorem on_drag_drop_stale_source :
    ex_rescan_mid_drag.app_list = [3, 4, 5] ∧
    ex_rescan_mid_drag.folder_list = [] ∧
    ex_rescan_mid_drag.drag_source = some 0 ∧
    (on_drag_drop ex_rescan_mid_drag 12345 650 0).2 = true ∧
    (on_drag_drop ex_rescan_mid_drag 12345 650 0).1.app_list = [3, 4, 5, 0] ∧
    gtk_grid_get_child_at ex_rescan_mid_drag.app_grid 0 0 = some (GridWidget.app_button 3) ∧
    (on_drag_drop ex_rescan_mid_drag 12345 0 0).2 = true ∧
    (on_drag_drop ex_rescan_mid_drag 12345 0 0).1.folder_list
      = [{ id := "folder_12345", name := "New Folder", icon := "folder", apps := [0, 3],
           is_open := false }] := by
  set_option maxRecDepth 100000 in decide

/-- Claim C27 at a failing input: Calculator is dragged to the end of the list,
which gives the order Firefox, GIMP, Calculator.  After that drop the drag
source still is Calculator, and a second drop without a new drag, at the first
cell, returns TRUE and moves Calculator to the front again. -/
theorem drag_source_kept_after_drop :
    (on_drag_begin ex_three_apps (some 0)).drag_source = some 0 ∧
    (on_drag_drop (on_drag_begin ex_three_apps (some 0)) 12345 650 0).2 = true ∧
    ex_reordered.drag_source = some 0 ∧
    ex_reordered.app_list = [1, 2, 0] ∧
    (on_drag_drop ex_reordered 12346 0 0).2 = true ∧
    (on_drag_drop ex_reordered 12346 0 0).1.app_list = [0, 1, 2] ∧
    (on_drag_drop ex_reordered 12346 0 0).1.drag_source = some 0 := by
  set_option maxRecDepth 100000 in decide

/-! ## Files that cannot be read, files that break off, and rescans -/

/-- Without a readable file `load_configuration` does nothing. -/
theorem load_configuration_unreadable (collate : String → String → Int)
    (isalpha : Char → Bool) (reread : (AppPtr → AppInfo) → AppPtr → AppInfo)
    (launcher : LauncherPlugin) (h : launcher.config_file = none) :
    load_configuration collate isalpha reread launcher = launcher := by
  unfold load_configuration
  rw [h]

/-- Claim C23 at a failing input: the file names the folder Work, hides Firefox
and gives it the position 0; the entry of GIMP after that is not closed.  The
reader reports the error, but the folder has been created, Firefox is hidden
and positioned, and the final sort has moved it to the front. -/
theorem load_configuration_keeps_entries_before_error :
    (g_markup_parse (fun _ => false) ex_config_broken).2 = false ∧
    (ex_fresh_three (some ex_config_broken)).folder_list = [] ∧
    (ex_fresh_three (some ex_config_broken)).app_list.map
        (fun p => (((ex_fresh_three (some ex_config_broken)).heap p).name,
          ((ex_fresh_three (some ex_config_broken)).heap p).is_hidden,
          ((ex_fresh_three (some ex_config_broken)).heap p).position))
      = [("Calculator", false, (-1 : Int)), ("Firefox", false, (-1 : Int)),
         ("GIMP", false, (-1 : Int))] ∧
    ex_broken_loaded.folder_list
      = [{ id := "f1", name := "Work", icon := "folder", apps := [], is_open := false }] ∧
    ex_broken_loaded.app_list.map
        (fun p => ((ex_broken_loaded.heap p).name, (ex_broken_loaded.heap p).is_hidden,
          (ex_broken_loaded.heap p).position))
      = [("Firefox", true, (0 : Int)), ("Calculator", false, (-1 : Int)),
         ("GIMP", false, (-1 : Int))] := by
  set_option maxRecDepth 100000 in decide

/-- Claim C24 at a failing input: in `ex_arranged` Firefox is hidden and GIMP
and Calculator are in a folder, all three with positions, and the file on disk
says so.  After a rescan that finds the same three applications, the rebuilt
records are neither hidden nor foldered nor positioned; a restart on the same
file gives the saved values. -/
theorem rescan_drops_saved_state :
    ex_arranged.app_list.map
        (fun p => ((ex_arranged.heap p).name, (ex_arranged.heap p).is_hidden,
          (ex_arranged.heap p).folder_id, (ex_arranged.heap p).position))
      = [("Firefox", true, none, (0 : Int)), ("GIMP", false, some "folder_12345", (1 : Int)),
         ("Calculator", false, some "folder_12345", (2 : Int))] ∧
    ex_arranged.config_file = some (save_configuration_xml ex_arranged) ∧
    ex_arranged_rescanned.config_file = ex_arranged.config_file ∧
    ex_arranged_rescanned.app_list.map
        (fun p => ((ex_arranged_rescanned.heap p).name, (ex_arranged_rescanned.heap p).is_hidden,
          (ex_arranged_rescanned.heap p).folder_id, (ex_arranged_rescanned.heap p).position))
      = [("Calculator", false, none, (-1 : Int)), ("Firefox", false, none, (-1 : Int)),
         ("GIMP", false, none, (-1 : Int))] ∧
    ex_arranged_restarted.app_list.map
        (fun p => ((ex_arranged_restarted.heap p).name, (ex_arranged_restarted.heap p).is_hidden,
          (ex_arranged_restarted.heap p).folder_id, (ex_arranged_restarted.heap p).position))
      = [("Firefox", true, none, (0 : Int)), ("GIMP", false, some "folder_12345", (1 : Int)),
         ("Calculator", false, some "folder_12345", (2 : Int))] := by
  set_option maxRecDepth 100000 in decide

/-- Claim C25 at a failing input: the file is read without error and puts
Firefox into the folder `folder_9`, which neither the file nor the plugin
names.  After `load_configuration` the reference of Firefox is set and
`find_folder_by_id` on it finds nothing. -/
theorem load_configuration_dangling_reference :
    (g_markup_parse (fun _ => false) ex_config_dangling).2 = true ∧
    ex_dangling_loaded.folder_list = [] ∧
    ex_dangling_loaded.app_list.map
        (fun p => ((ex_dangling_loaded.heap p).name, (ex_dangling_loaded.heap p).folder_id))
      = [("Calculator", none), ("Firefox", some "folder_9"), ("GIMP", none)] ∧
    find_folder_by_id ex_dangling_loaded "folder_9" = none := by
  set_option maxRecDepth 100000 in decide

/-! ## Folder references that resolve -/

theorem modify_folder_remove_ids (a : AppPtr) (fl : List FolderInfo) (i : Nat) :
    (modify_folder (fun f => { f with apps := g_list_remove f.apps a }) fl i).map
        (fun F => F.id) = fl.map (fun F => F.id) :=
  modify_folder_map (fun F => F.id) (fun f => { f with apps := g_list_remove f.apps a })
    (fun _ => rfl) fl i

theorem modify_folder_append_ids (a : AppPtr) (fl : List FolderInfo) (i : Nat) :
    (modify_folder (fun f => { f with apps := g_list_append f.apps a }) fl i).map
        (fun F => F.id) = fl.map (fun F => F.id) :=
  modify_folder_map (fun F => F.id) (fun f => { f with apps := g_list_append f.apps a })
    (fun _ => rfl) fl i

theorem add_app_to_folder_ids (s : LauncherPlugin) (app : Option AppPtr) (folder_id : String) :
    (add_app_to_folder s app folder_id).folder_list.map (fun F => F.id)
      = s.folder_list.map (fun F => F.id) := by
  unfold add_app_to_folder
  split
  · simp only
    rw [modify_folder_append_ids]
    split
    · split
      · rw [modify_folder_remove_ids]
      · rfl
    · rfl
  · rfl

theorem remove_app_from_folder_ids (s : LauncherPlugin) (app : Option AppPtr) :
    (remove_app_from_folder s app).folder_list.map (fun F => F.id)
      = s.folder_list.map (fun F => F.id) := by
  unfold remove_app_from_folder
  split
  · split
    · simp only
      split
      · rw [modify_folder_remove_ids]
      · rfl
    · rfl
  · rfl

theorem add_app_to_folder_reference (s : LauncherPlugin) (app : Option AppPtr)
    (folder_id : String) (q : AppPtr) :
    ((add_app_to_folder s app folder_id).heap q).folder_id = (s.heap q).folder_id ∨
    (((add_app_to_folder s app folder_id).heap q).folder_id = some folder_id ∧
      (find_folder_by_id s folder_id).isSome = true) := by
  unfold add_app_to_folder
  split
  · rename_i _ _ _ hfind
    simp only [store]
    split
    · exact Or.inr ⟨rfl, by rw [hfind]; rfl⟩
    · exact Or.inl rfl
  · exact Or.inl rfl

theorem remove_app_from_folder_reference (s : LauncherPlugin) (app : Option AppPtr)
    (q : AppPtr) :
    ((remove_app_from_folder s app).heap q).folder_id = (s.heap q).folder_id ∨
    ((remove_app_from_folder s app).heap q).folder_id = none := by
  unfold remove_app_from_folder
  split
  · split
    · simp only [store]
      split
      · exact Or.inr rfl
      · exact Or.inl rfl
    · exact Or.inl rfl
  · exact Or.inl rfl

/-- `add_app_to_folder` keeps every set reference resolving. -/
theorem add_app_to_folder_refs_resolve (s : LauncherPlugin) (app : Option AppPtr)
    (folder_id : String) (h : folder_refs_resolve s) :
    folder_refs_resolve (add_app_to_folder s app folder_id) := by
  intro q id hq
  unfold find_folder_by_id
  rw [find_folder_index_congr id (add_app_to_folder_ids s app folder_id)]
  rcases add_app_to_folder_reference s app folder_id q with e | ⟨e, hf⟩
  · rw [e] at hq
    exact h q id hq
  · rw [e] at hq
    cases hq
    exact hf

/-- `remove_app_from_folder` keeps every set reference resolving. -/
theorem remove_app_from_folder_refs_resolve (s : LauncherPlugin) (app : Option AppPtr)
    (h : folder_refs_resolve s) : folder_refs_resolve (remove_app_from_folder s app) := by
  intro q id hq
  unfold find_folder_by_id
  rw [find_folder_index_congr id (remove_app_from_folder_ids s app)]
  rcases remove_app_from_folder_reference s app q with e | e
  · rw [e] at hq
    exact h q id hq
  · rw [e] at hq
    cases hq

theorem find_folder_index_append_isSome (fl : List FolderInfo) (N : FolderInfo) (id : String)
    (h : (find_folder_index fl id).isSome = true) :
    (find_folder_index (fl ++ [N]) id).isSome = true := by
  induction fl with
  | nil => simp [find_folder_index] at h
  | cons x xs ih =>
    show (if x.id = id then some 0
      else (find_folder_index (xs ++ [N]) id).map (· + 1)).isSome = true
    have h2 : (if x.id = id then some 0
      else (find_folder_index xs id).map (· + 1)).isSome = true := h
    by_cases hx : x.id = id
    · rw [if_pos hx]; rfl
    · rw [if_neg hx] at h2 ⊢
      cases hf : find_folder_index xs id with
      | none => rw [hf] at h2; simp at h2
      | some j =>
        have h3 := ih (by rw [hf]; rfl)
        cases hg : find_folder_index (xs ++ [N]) id with
        | none => rw [hg] at h3; simp at h3
        | some k => rfl

theorem recalculate_positions_folder_id (s : LauncherPlugin) (q : AppPtr) :
    ((recalculate_positions s).heap q).folder_id = (s.heap q).folder_id := by
  show ((s.app_list.foldl recalculate_step (s.heap, 0)).1 q).folder_id = _
  rw [foldl_recalculate_step_fields]

/-- `on_drag_drop` keeps every set reference resolving. -/
theorem on_drag_drop_refs_resolve (s : LauncherPlugin) (now x y : Int)
    (h : folder_refs_resolve s) : folder_refs_resolve (on_drag_drop s now x y).1 := by
  unfold on_drag_drop
  cases hd : s.drag_source with
  | none => exact h
  | some d =>
    dsimp only
    have hview : ∀ t : LauncherPlugin, folder_refs_resolve t →
        folder_refs_resolve (save_configuration (update_page_dots (populate_current_page t))) :=
      fun t ht => ht
    apply hview
    split
    · apply add_app_to_folder_refs_resolve
      apply add_app_to_folder_refs_resolve
      intro q id hq
      exact find_folder_index_append_isSome _ _ _ (h q id hq)
    · split
      · exact add_app_to_folder_refs_resolve _ _ _ h
      · intro q id hq
        have hq2 : ((recalculate_positions
            { s with
              app_list := g_list_insert (g_list_remove s.app_list d) d
                (wrap32 (wrap32 (wrap32 (Int.tdiv y BUTTON_SIZE * GRID_COLUMNS)
                  + Int.tdiv x BUTTON_SIZE) + wrap32 (s.current_page * APPS_PER_PAGE))) }).heap
            q).folder_id = some id := hq
        rw [recalculate_positions_folder_id] at hq2
        exact h q id hq2

/-- A fresh scan sets no folder reference. -/
theorem install_applications_refs_resolve (collate : String → String → Int) (src : Sources)
    (config_file : Option String) :
    folder_refs_resolve
      (install_applications (launcher_new config_file)
        (load_applications_enhanced collate src)) := by
  intro q id hq
  exfalso
  simp only [install_applications, launcher_new] at hq
  split at hq
  · split at hq
    · rename_i a ha
      have hmem : a ∈ load_applications_enhanced collate src := List.get?_mem ha
      have := (mem_load_applications_enhanced collate src a).1 hmem
      have hmem2 : a ∈ load_all_sources src := List.mem_of_find?_eq_some this
      rw [load_all_sources_eq] at hmem2
      simp only [List.mem_reverse, List.mem_map] at hmem2
      obtain ⟨g, _, rfl⟩ := hmem2
      simp [new_app_info] at hq
    · simp at hq
  · simp at hq

theorem find_folder_index_append_right (l1 l2 : List FolderInfo) (id : String)
    (h : (find_folder_index l2 id).isSome = true) :
    (find_folder_index (l1 ++ l2) id).isSome = true := by
  induction l1 with
  | nil => exact h
  | cons x xs ih =>
    show (if x.id = id then some 0
      else (find_folder_index (xs ++ l2) id).map (· + 1)).isSome = true
    by_cases hx : x.id = id
    · rw [if_pos hx]; rfl
    · rw [if_neg hx]
      cases hg : find_folder_index (xs ++ l2) id with
      | none => rw [hg] at ih; simp at ih
      | some k => rfl

theorem find_folder_index_append_left (l1 l2 : List FolderInfo) (id : String)
    (h : (find_folder_index l1 id).isSome = true) :
    (find_folder_index (l1 ++ l2) id).isSome = true := by
  induction l1 with
  | nil => simp [find_folder_index] at h
  | cons x xs ih =>
    show (if x.id = id then some 0
      else (find_folder_index (xs ++ l2) id).map (· + 1)).isSome = true
    have h2 : (if x.id = id then some 0
      else (find_folder_index xs id).map (· + 1)).isSome = true := h
    by_cases hx : x.id = id
    · rw [if_pos hx]; rfl
    · rw [if_neg hx] at h2 ⊢
      cases hf : find_folder_index xs id with
      | none => rw [hf] at h2; simp at h2
      | some j =>
        have h3 := ih (by rw [hf]; rfl)
        cases hg : find_folder_index (xs ++ l2) id with
        | none => rw [hg] at h3; simp at h3
        | some k => rfl

theorem foldl_apply_saved_reference (app_list : List AppPtr) (recs : List AppInfo)
    (heap : AppPtr → AppInfo) (q : AppPtr) (id : String)
    (h : ((recs.foldl (apply_saved app_list) heap) q).folder_id = some id) :
    (heap q).folder_id = some id ∨ ∃ a ∈ recs, a.folder_id = some id := by
  induction recs generalizing heap with
  | nil => exact Or.inl h
  | cons a recs ih =>
    rw [List.foldl_cons] at h
    rcases ih _ h with h1 | ⟨b, hb, hbid⟩
    · rw [apply_saved_at] at h1
      split at h1
      · cases ha : a.folder_id with
        | none =>
          rw [ha] at h1
          exact Or.inl h1
        | some f =>
          rw [ha] at h1
          simp only [Option.some.injEq] at h1
          exact Or.inr ⟨a, List.mem_cons_self _ _, by rw [ha, h1]⟩
      · exact Or.inl h1
    · exact Or.inr ⟨b, List.mem_cons_of_mem _ hb, hbid⟩

/-- On a file `save_configuration` wrote for a catalog with plain strings whose
references resolve, `load_configuration` leaves every reference resolving. -/
theorem load_configuration_saved_refs_resolve (collate : String → String → Int)
    (isalpha : Char → Bool) (reread : (AppPtr → AppInfo) → AppPtr → AppInfo)
    (old fresh : LauncherPlugin) (hplain : catalog_plain old)
    (hfile : fresh.config_file = some (save_configuration_xml old))
    (hold : ∀ p ∈ old.app_list, ∀ id, (old.heap p).folder_id = some id →
      (find_folder_by_id old id).isSome = true)
    (hfresh : folder_refs_resolve fresh) :
    folder_refs_resolve (load_configuration collate isalpha reread fresh) := by
  obtain ⟨_, hfolders, hheap⟩ :=
    load_configuration_saved collate isalpha reread old fresh hplain hfile
  intro q id hq
  unfold find_folder_by_id
  rw [hfolders]
  rw [hheap] at hq
  rcases foldl_apply_saved_reference _ _ _ q id hq with h1 | ⟨a, ha, haid⟩
  · exact find_folder_index_append_left _ _ _ (hfresh q id h1)
  · obtain ⟨p, hp, rfl⟩ := List.mem_map.1 ha
    apply find_folder_index_append_right
    rw [find_folder_index_map old.folder_list id restored_folder (fun _ => rfl)]
    exact hold p hp id haid

/-! ## Folders on the grid -/

theorem foldl_populate_app_step_mono (launcher : LauncherPlugin) (start_index : Int)
    (apps : List AppPtr) (st : List GridChild × Int) :
    ∀ child ∈ st.1, child ∈ (apps.foldl (populate_app_step launcher start_index) st).1 := by
  induction apps generalizing st with
  | nil => intro child h; exact h
  | cons a apps ih =>
    intro child h
    rw [List.foldl_cons]
    apply ih
    unfold populate_app_step
    split
    · exact h
    · simp only
      split
      · exact List.mem_append_left _ h
      · exact h

theorem populate_folders_mem (folder_count i : Nat) (h : i < folder_count) :
    ∃ child ∈ (populate_folders folder_count).1, child.widget = GridWidget.folder_button i := by
  unfold populate_folders
  have hi : i ∈ List.range folder_count := List.mem_range.2 h
  generalize List.range folder_count = l at hi
  suffices hs : ∀ (st : List GridChild × Int),
      ((∃ child ∈ st.1, child.widget = GridWidget.folder_button i) ∨ i ∈ l) →
      ∃ child ∈ (l.foldl
        (fun st i =>
          (st.1 ++ [{ left := Int.tmod st.2 GRID_COLUMNS, top := Int.tdiv st.2 GRID_COLUMNS,
                      widget := GridWidget.folder_button i }],
           wrap32 (st.2 + 1))) st).1, child.widget = GridWidget.folder_button i by
    exact hs ([], 0) (Or.inr hi)
  clear hi
  induction l with
  | nil =>
    intro st h
    rcases h with h | h
    · exact h
    · simp at h
  | cons a l ih =>
    intro st h
    rw [List.foldl_cons]
    apply ih
    rcases h with ⟨child, hc, hw⟩ | h
    · exact Or.inl ⟨child, List.mem_append_left _ hc, hw⟩
    · rcases List.mem_cons.1 h with rfl | h
      · exact Or.inl ⟨_, List.mem_append_right _ (List.mem_singleton.2 rfl), rfl⟩
      · exact Or.inr h

/-- The grid `populate_current_page` fills holds a button for every folder of
`folder_list`, whatever the page, the list on view and the open folder are. -/
theorem populate_current_page_folder_buttons (launcher : LauncherPlugin) (i : Nat)
    (h : i < launcher.folder_list.length) :
    ∃ child ∈ (populate_current_page launcher).app_grid,
      child.widget = GridWidget.folder_button i := by
  obtain ⟨child, hc, hw⟩ := populate_folders_mem launcher.folder_list.length i h
  exact ⟨child, foldl_populate_app_step_mono launcher _ _ _ child hc, hw⟩

/-- After `on_search_changed`, whatever the search text is, the grid holds a
button for every folder of `folder_list`. -/
theorem on_search_changed_folder_buttons (strdown : String → String)
    (launcher : LauncherPlugin) (search_text : String) (i : Nat)
    (h : i < launcher.folder_list.length) :
    ∃ child ∈ (on_search_changed strdown launcher search_text).app_grid,
      child.widget = GridWidget.folder_button i :=
  populate_current_page_folder_buttons _ i h

/-- Claim C26 at a failing input: the catalog holds the folder Work and the
applications Calculator, Firefox and GIMP.  After the search text "fire" is
entered, the list on view holds Firefox alone, and the grid shows the button
of the folder, then the button of Firefox. -/
theorem search_shows_folders :
    ex_one_folder.folder_list
      = [{ id := "f1", name := "Work", icon := "folder", apps := [], is_open := false }] ∧
    (on_search_changed ex_strdown ex_one_folder "fire").filtered_list = [1] ∧
    (on_search_changed ex_strdown ex_one_folder "fire").app_grid
      = [{ left := 0, top := 0, widget := GridWidget.folder_button 0 },
         { left := 1, top := 0, widget := GridWidget.app_button 1 }] := by
  set_option maxRecDepth 100000 in decide

/-! ## Pages and what they show -/

/-- Claim C28 at failing inputs.  With the folder Work and 30 applications, none
hidden or foldered, there is one page; it shows the folder and the first 29
applications, and the last application is shown on no page below
`total_pages` (the grid for page index 1 would show it, below the folder).
With 31 applications there are two pages, and the folder is shown on both. -/
theorem pages_do_not_partition :
    ex_thirty_and_folder.total_pages = 1 ∧
    ex_thirty_and_folder.current_page = 0 ∧
    shown_apps ex_thirty_and_folder = List.range 30 ∧
    grid_folders ex_thirty_and_folder.app_grid = [0] ∧
    grid_apps ex_thirty_and_folder.app_grid = List.range 29 ∧
    grid_apps (populate_current_page { ex_thirty_and_folder with current_page := 0 }).app_grid
      = List.range 29 ∧
    grid_folders (populate_current_page { ex_thirty_and_folder with current_page := 1 }).app_grid
      = [0] ∧
    grid_apps (populate_current_page { ex_thirty_and_folder with current_page := 1 }).app_grid
      = [29] ∧
    ex_thirty_one_and_folder.total_pages = 2 ∧
    grid_folders
        (populate_current_page { ex_thirty_one_and_folder with current_page := 0 }).app_grid
      = [0] ∧
    grid_folders
        (populate_current_page { ex_thirty_one_and_folder with current_page := 1 }).app_grid
      = [0] := by
  refine ⟨?_, ?_, ?_, ?_, ?_, ?_, ?_, ?_, ?_, ?_, ?_⟩ <;>
    set_option maxRecDepth 1000000 in decide

/-! ## Member lists without repetition -/

/-- Claim C29 at a failing input: the only member list holds the application
once, but the record does not refer to the folder.  `add_app_to_folder` with
the id of that folder finds nothing to remove and appends the application a
second time. -/
theorem add_app_to_folder_repeats_member :
    members_distinct ex_member_without_reference ∧
    (ex_member_without_reference.heap 7).folder_id = none ∧
    (add_app_to_folder ex_member_without_reference (some 7) "f1").folder_list
      = [{ id := "f1", name := "One", icon := "folder", apps := [7, 7], is_open := false }] ∧
    ¬ members_distinct (add_app_to_folder ex_member_without_reference (some 7) "f1") := by
  unfold members_distinct
  decide

/-- Claim C29: in a catalog with distinct folder ids that satisfies the folder
invariant and in which no member list holds an application twice,
`add_app_to_folder` leaves no member list with an application twice.  When the
application refers to the target folder already, the member list of that
folder is the old one without the application, followed by the application:
it has the same length and holds the application once. -/
theorem add_app_to_folder_members_distinct (launcher : LauncherPlugin) (A : AppPtr)
    (folder_id : String) (h : folders_consistent launcher) :
    members_distinct (add_app_to_folder launcher (some A) folder_id) ∧
    ((launcher.heap A).folder_id = some folder_id →
      ∀ i F, launcher.folder_list.get? i = some F → F.id = folder_id →
        ∃ F2, (add_app_to_folder launcher (some A) folder_id).folder_list.get? i = some F2 ∧
          F2.apps = F.apps.erase A ++ [A] ∧
          F2.apps.length = F.apps.length ∧
          F2.apps.count A = 1) := by
  refine ⟨(add_app_to_folder_consistent launcher (some A) folder_id h).2.2, ?_⟩
  intro hA i F hF hid
  obtain ⟨hd, hinv, hm⟩ := h
  have hmem : F ∈ launcher.folder_list := List.get?_mem hF
  obtain ⟨j, hj⟩ := find_folder_index_of_mem hmem
  rw [hid] at hj
  rw [add_app_to_folder_eq launcher A folder_id j hd hj]
  have hAF : A ∈ F.apps := (hinv F hmem A).1 (by rw [hA, hid])
  have hnd : F.apps.Nodup := hm F hmem
  have e : (add_to_folder_apps launcher A folder_id F).apps = F.apps.erase A ++ [A] := by
    simp only [add_to_folder_apps, hid, if_true, hA, g_list_append, g_list_remove]
  refine ⟨add_to_folder_apps launcher A folder_id F, ?_, e, ?_, ?_⟩
  · rw [List.get?_eq_getElem?] at hF ⊢
    rw [List.getElem?_map, hF]
    rfl
  · rw [e, List.length_append, List.length_erase_of_mem hAF, List.length_singleton]
    have : 0 < F.apps.length := List.length_pos_of_mem hAF
    omega
  · rw [e]
    apply List.count_eq_one_of_mem
    · rw [nodup_append_singleton]
      exact ⟨fun hh => (hnd.mem_erase_iff.1 hh).1 rfl, hnd.erase A⟩
    · simp

theorem add_app_to_folder_members_distinct_witness :
    ex_in_first_folder.folder_list.map (fun G => (G.id, G.apps)) = [("f1", [7]), ("f2", [])] ∧
    members_distinct (add_app_to_folder ex_in_first_folder (some 7) "f1") :=
  ⟨by decide,
    (add_app_to_folder_members_distinct ex_in_first_folder 7 "f1"
      ⟨by unfold folder_ids_distinct; decide,
        by
          intro folder hfolder app
          have hl : ex_in_first_folder.folder_list
              = [{ id := "f1", name := "One", icon := "folder", apps := [7], is_open := false },
                 { id := "f2", name := "Two", icon := "folder", apps := [],
                   is_open := false }] := by decide
          have hh : ∀ q, (ex_in_first_folder.heap q).folder_id
              = if q = 7 then some "f1" else none := by
            intro q
            by_cases hq : q = 7
            · subst hq; decide
            · simp [ex_in_first_folder, add_app_to_folder, find_folder_by_id, find_folder_index,
                ex_two_folders, store, hq]
              rfl
          rw [hl] at hfolder
          simp only [List.mem_cons, List.mem_singleton, List.not_mem_nil, or_false] at hfolder
          rcases hfolder with rfl | rfl <;> by_cases hq : app = 7 <;> simp [hh, hq],
        by unfold members_distinct; decide⟩).1⟩

/-! ## The comparator on large positions -/

/-- When neither position is -1 and their difference is a `gint`, the sign of
`sort_apps_by_position` is the order of the positions. -/
theorem sort_apps_by_position_sign (collate : String → String → Int) (a b : AppInfo)
    (ha : a.position ≠ -1) (hb : b.position ≠ -1)
    (h1 : -(2 ^ 31) ≤ a.position - b.position) (h2 : a.position - b.position < 2 ^ 31) :
    (sort_apps_by_position collate a b < 0 ↔ a.position < b.position) ∧
    (sort_apps_by_position collate a b = 0 ↔ a.position = b.position) ∧
    (0 < sort_apps_by_position collate a b ↔ b.position < a.position) := by
  unfold sort_apps_by_position
  rw [if_neg (fun h => ha h.1), if_neg ha, if_neg hb, wrap32_of_range _ h1 h2]
  refine ⟨?_, ?_, ?_⟩ <;> constructor <;> intro h <;> omega

/-- Claim C30 at failing inputs: `atoi` reads 2147483647, -2 and -2147483648 from
their texts.  For the positions 2147483647 and -2 the difference wraps and
the comparator returns a negative value although the first position is the
larger one; with the position 0 as a third, the comparator is not transitive;
for -2147483648 and 0 it is negative in both directions.  A file with these
positions leaves Firefox, at 2147483647, before GIMP, at -2. -/
theorem sort_apps_by_position_wraps :
    atoi "2147483647" = 2147483647 ∧ atoi "-2" = -2 ∧ atoi "-2147483648" = -2147483648 ∧
    sort_apps_by_position ex_collate (ex_positioned 2147483647) (ex_positioned (-2))
      = -2147483647 ∧
    sort_apps_by_position ex_collate (ex_positioned (-2)) (ex_positioned 0) = -2 ∧
    sort_apps_by_position ex_collate (ex_positioned 2147483647) (ex_positioned 0)
      = 2147483647 ∧
    sort_apps_by_position ex_collate (ex_positioned (-2147483648)) (ex_positioned 0)
      = -2147483648 ∧
    sort_apps_by_position ex_collate (ex_positioned 0) (ex_positioned (-2147483648))
      = -2147483648 ∧
    ex_extreme_loaded.app_list.map
        (fun p => ((ex_extreme_loaded.heap p).name, (ex_extreme_loaded.heap p).position))
      = [("Firefox", (2147483647 : Int)), ("GIMP", (-2 : Int)),
         ("Calculator", (-1 : Int))] := by
  refine ⟨?_, ?_, ?_, ?_, ?_, ?_, ?_, ?_, ?_⟩ <;>
    set_option maxRecDepth 1000000 in decide

/-! ## What the grid shows after a search -/

theorem populate_folders_widgets_eq (folder_count : Nat) :
    (populate_folders folder_count).1.map (fun child => child.widget)
      = (List.range folder_count).map GridWidget.folder_button := by
  unfold populate_folders
  generalize List.range folder_count = l
  suffices h : ∀ (st : List GridChild × Int),
      (l.foldl
        (fun st i =>
          (st.1 ++ [{ left := Int.tmod st.2 GRID_COLUMNS, top := Int.tdiv st.2 GRID_COLUMNS,
                      widget := GridWidget.folder_button i }],
           wrap32 (st.2 + 1))) st).1.map (fun child => child.widget)
        = st.1.map (fun child => child.widget) ++ l.map GridWidget.folder_button by
    simpa using h ([], 0)
  induction l with
  | nil => intro st; simp
  | cons a l ih =>
    intro st
    rw [List.foldl_cons, ih]
    simp

/-- The loop "Display applications" only appends, and what it appends are
buttons of applications of the list that pass the skip test. -/
theorem foldl_populate_app_step_append (launcher : LauncherPlugin) (start_index : Int)
    (apps : List AppPtr) (st : List GridChild × Int) :
    ∃ part, (apps.foldl (populate_app_step launcher start_index) st).1 = st.1 ++ part ∧
      ∀ child ∈ part, ∃ A, child.widget = GridWidget.app_button A ∧ A ∈ apps ∧
        populate_skips launcher A = false := by
  induction apps generalizing st with
  | nil => exact ⟨[], by simp, by simp⟩
  | cons a apps ih =>
    rw [List.foldl_cons]
    obtain ⟨part, hp, hall⟩ := ih (populate_app_step launcher start_index st a)
    have hstep : ∃ p1, (populate_app_step launcher start_index st a).1 = st.1 ++ p1 ∧
        ∀ child ∈ p1, ∃ A, child.widget = GridWidget.app_button A ∧ A ∈ a :: apps ∧
          populate_skips launcher A = false := by
      unfold populate_app_step
      split
      · exact ⟨[], by simp, by simp⟩
      · rename_i hskip
        simp only
        split
        · refine ⟨_, rfl, ?_⟩
          intro child hc
          rw [List.mem_singleton.1 hc]
          exact ⟨a, rfl, List.mem_cons_self _ _, by simpa using hskip⟩
        · exact ⟨[], by simp, by simp⟩
    obtain ⟨p1, hp1, hall1⟩ := hstep
    refine ⟨p1 ++ part, by rw [hp, hp1, List.append_assoc], ?_⟩
    intro child hc
    rcases List.mem_append.1 hc with hc | hc
    · exact hall1 child hc
    · obtain ⟨A, hw, hA, hs⟩ := hall child hc
      exact ⟨A, hw, List.mem_cons_of_mem _ hA, hs⟩

theorem grid_folders_of_widgets (grid : List GridChild) (l : List Nat)
    (h : grid.map (fun child => child.widget) = l.map GridWidget.folder_button) :
    grid_folders grid = l := by
  induction grid generalizing l with
  | nil =>
    cases l with
    | nil => rfl
    | cons b l => simp at h
  | cons c grid ih =>
    cases l with
    | nil => simp at h
    | cons b l =>
      simp only [List.map_cons, List.cons.injEq] at h
      have := ih l h.2
      unfold grid_folders at this ⊢
      rw [List.filterMap_cons, h.1]
      simp only
      rw [this]

theorem grid_folders_of_app_buttons (part : List GridChild)
    (h : ∀ child ∈ part, ∃ A, child.widget = GridWidget.app_button A) :
    grid_folders part = [] := by
  induction part with
  | nil => rfl
  | cons c part ih =>
    obtain ⟨A, hA⟩ := h c (List.mem_cons_self _ _)
    have := ih (fun child hc => h child (List.mem_cons_of_mem _ hc))
    unfold grid_folders at this ⊢
    rw [List.filterMap_cons, hA]
    simp only
    exact this

theorem grid_apps_of_widgets (grid : List GridChild) (l : List Nat)
    (h : grid.map (fun child => child.widget) = l.map GridWidget.folder_button) :
    grid_apps grid = [] := by
  induction grid generalizing l with
  | nil => rfl
  | cons c grid ih =>
    cases l with
    | nil => simp at h
    | cons b l =>
      simp only [List.map_cons, List.cons.injEq] at h
      have := ih l h.2
      unfold grid_apps at this ⊢
      rw [List.filterMap_cons, h.1]
      simp only
      exact this

theorem mem_grid_apps (grid : List GridChild) (A : AppPtr) (h : A ∈ grid_apps grid) :
    ∃ child ∈ grid, child.widget = GridWidget.app_button A := by
  unfold grid_apps at h
  rw [List.mem_filterMap] at h
  obtain ⟨child, hc, hw⟩ := h
  refine ⟨child, hc, ?_⟩
  cases hcw : child.widget with
  | folder_button i => rw [hcw] at hw; simp at hw
  | app_button B =>
    rw [hcw] at hw
    simp only [Option.some.injEq] at hw
    rw [hw]

/-- The list on view after `on_search_changed`: applications of `app_list`, and
for a search text that is not empty only those that are not hidden and whose
lowercased name contains the lowercased text. -/
theorem mem_on_search_changed_filtered_list (strdown : String → String)
    (launcher : LauncherPlugin) (search_text : String) (A : AppPtr)
    (h : A ∈ (on_search_changed strdown launcher search_text).filtered_list) :
    A ∈ launcher.app_list ∧
    (search_text.length ≠ 0 →
      (launcher.heap A).is_hidden = false ∧
      strstr (strdown (launcher.heap A).name).data (strdown search_text).data = true) := by
  by_cases ht : search_text.length = 0
  · have hfl : (on_search_changed strdown launcher search_text).filtered_list
        = launcher.app_list := by
      simp [on_search_changed, update_page_dots, populate_current_page, g_list_copy, ht]
    rw [hfl] at h
    exact ⟨h, fun hn => absurd ht hn⟩
  · have hfl : (on_search_changed strdown launcher search_text).filtered_list
        = launcher.app_list.filter (fun app =>
          !(launcher.heap app).is_hidden &&
            strstr (strdown (launcher.heap app).name).data (strdown search_text).data) := by
      simp [on_search_changed, update_page_dots, populate_current_page, ht, foldl_search_step]
    rw [hfl, List.mem_filter] at h
    refine ⟨h.1, fun _ => ?_⟩
    have h2 := h.2
    simp only [Bool.and_eq_true, Bool.not_eq_true'] at h2
    exact h2

/-- Claim C26: for every catalog and every search text, the grid after
`on_search_changed` holds first one button for each folder of `folder_list`,
in the order of the list, and after them buttons of applications only:
folders are shown while searching as in every other view.  In the root view
every application button belongs to an application of `app_list` that is
neither hidden nor foldered and, when the search text is not empty, whose
lowercased name contains the lowercased search text. -/
theorem on_search_changed_grid (g_utf8_strdown : String → String) (launcher : LauncherPlugin)
    (search_text : String) :
    grid_folders (on_search_changed g_utf8_strdown launcher search_text).app_grid
      = List.range launcher.folder_list.length ∧
    ((on_search_changed g_utf8_strdown launcher search_text).app_grid.take
        launcher.folder_list.length).map (fun child => child.widget)
      = (List.range launcher.folder_list.length).map GridWidget.folder_button ∧
    grid_apps ((on_search_changed g_utf8_strdown launcher search_text).app_grid.take
        launcher.folder_list.length) = [] ∧
    grid_folders ((on_search_changed g_utf8_strdown launcher search_text).app_grid.drop
        launcher.folder_list.length) = [] ∧
    (launcher.open_folder = none →
      ∀ A ∈ grid_apps (on_search_changed g_utf8_strdown launcher search_text).app_grid,
        A ∈ launcher.app_list ∧ (launcher.heap A).is_hidden = false ∧
        (launcher.heap A).folder_id = none ∧
        (search_text.length ≠ 0 →
          strstr (g_utf8_strdown (launcher.heap A).name).data
            (g_utf8_strdown search_text).data = true)) := by
  have hw := populate_folders_widgets_eq launcher.folder_list.length
  have hlen : (populate_folders launcher.folder_list.length).1.length
      = launcher.folder_list.length := by
    have := congrArg List.length hw
    simpa using this
  obtain ⟨part, hgrid, hpart⟩ := foldl_populate_app_step_append
    (on_search_changed g_utf8_strdown launcher search_text)
    (wrap32 ((0 : Int) * APPS_PER_PAGE))
    (apps_to_display (on_search_changed g_utf8_strdown launcher search_text))
    (populate_folders launcher.folder_list.length)
  have hg : (on_search_changed g_utf8_strdown launcher search_text).app_grid
      = (populate_folders launcher.folder_list.length).1 ++ part := by
    rw [← hgrid]
    rfl
  have hpart2 : ∀ child ∈ part, ∃ A, child.widget = GridWidget.app_button A :=
    fun child hc => by
      obtain ⟨A, hA, _⟩ := hpart child hc
      exact ⟨A, hA⟩
  have htake : (on_search_changed g_utf8_strdown launcher search_text).app_grid.take
      launcher.folder_list.length = (populate_folders launcher.folder_list.length).1 := by
    rw [hg]
    exact List.take_left' hlen
  have hdrop : (on_search_changed g_utf8_strdown launcher search_text).app_grid.drop
      launcher.folder_list.length = part := by
    rw [hg]
    exact List.drop_left' hlen
  refine ⟨?_, ?_, ?_, ?_, ?_⟩
  · rw [hg]
    unfold grid_folders
    rw [List.filterMap_append]
    have h1 := grid_folders_of_widgets _ _ hw
    have h2 := grid_folders_of_app_buttons part hpart2
    unfold grid_folders at h1 h2
    rw [h1, h2, List.append_nil]
  · rw [htake, hw]
  · rw [htake]
    exact grid_apps_of_widgets _ _ hw
  · rw [hdrop]
    exact grid_folders_of_app_buttons part hpart2
  · intro hroot A hA
    obtain ⟨child, hc, hcw⟩ := mem_grid_apps _ A hA
    rw [hg] at hc
    have hcp : child ∈ part := by
      rcases List.mem_append.1 hc with h1 | h1
      · exfalso
        have : child.widget ∈ (populate_folders launcher.folder_list.length).1.map
            (fun child => child.widget) := List.mem_map_of_mem (fun child => child.widget) h1
        rw [hw, hcw] at this
        obtain ⟨i, _, hi⟩ := List.mem_map.1 this
        cases hi
      · exact h1
    obtain ⟨B, hB, hmem, hskip⟩ := hpart child hcp
    rw [hcw] at hB
    cases hB
    have hdisp : apps_to_display (on_search_changed g_utf8_strdown launcher search_text)
        = (on_search_changed g_utf8_strdown launcher search_text).filtered_list := by
      simp [apps_to_display, on_search_changed, update_page_dots, populate_current_page, hroot]
    rw [hdisp] at hmem
    obtain ⟨m1, m2⟩ := mem_on_search_changed_filtered_list g_utf8_strdown launcher search_text
      A hmem
    have hs : ((launcher.heap A).is_hidden || (launcher.heap A).folder_id.isSome) = false := by
      have : populate_skips (on_search_changed g_utf8_strdown launcher search_text) A
          = ((launcher.heap A).is_hidden || (launcher.heap A).folder_id.isSome) := by
        simp [populate_skips, on_search_changed, update_page_dots, populate_current_page, hroot]
      rw [← this]
      exact hskip
    rw [Bool.or_eq_false_iff] at hs
    refine ⟨m1, hs.1, ?_, fun hn => (m2 hn).2⟩
    cases hf : (launcher.heap A).folder_id with
    | none => rfl
    | some f =>
      have := hs.2
      rw [hf] at this
      simp at this

theorem on_search_changed_grid_witness :
    ex_one_folder.open_folder = none ∧
    ex_one_folder.app_list.map (fun p => (ex_one_folder.heap p).name)
      = ["Calculator", "Firefox", "GIMP"] ∧
    grid_folders (on_search_changed ex_strdown ex_one_folder "fire").app_grid = [0] ∧
    grid_apps (on_search_changed ex_strdown ex_one_folder "fire").app_grid = [1] ∧
    (∀ A ∈ grid_apps (on_search_changed ex_strdown ex_one_folder "fire").app_grid,
      A ∈ ex_one_folder.app_list ∧ (ex_one_folder.heap A).is_hidden = false ∧
      (ex_one_folder.heap A).folder_id = none ∧
      (("fire" : String).length ≠ 0 →
        strstr (ex_strdown (ex_one_folder.heap A).name).data (ex_strdown "fire").data
          = true)) :=
  ⟨by set_option maxRecDepth 100000 in decide, by set_option maxRecDepth 100000 in decide,
    by
      rw [(on_search_changed_grid ex_strdown ex_one_folder "fire").1]
      set_option maxRecDepth 100000 in decide,
    by set_option maxRecDepth 100000 in decide,
    (on_search_changed_grid ex_strdown ex_one_folder "fire").2.2.2.2
      (by set_option maxRecDepth 100000 in decide)⟩

end XfceLauncher
